import Mathlib

/-!
Verification of the RECALL online log-anomaly core against its
natural-language specification.  The Python sources under `src/recall/` are
shallowly embedded: strings become `List Char`, Python `int` becomes `ℤ`,
Python `float` becomes `ℝ`, dictionaries become function maps or association
lists (iteration order is only material where noted), and compiled regular
expressions become the exact decision procedures they denote.
-/

set_option maxHeartbeats 1600000

namespace Recall

/-- Python strings are modelled as lists of characters (ASCII fragment). -/
abbrev Str := List Char

/-! ## Character helpers (Python `str` predicates, ASCII fragment) -/

/-- Python `str.isspace` restricted to the ASCII whitespace characters that
`re`'s `\s` also matches. -/
def pyIsSpace (c : Char) : Bool :=
  c == ' ' || c == '\t' || c == '\n' || c == '\r' || c == '\x0b' || c == '\x0c'

/-- Python `str.lower` on the ASCII fragment. -/
def pyLower (c : Char) : Char :=
  if 'A' ≤ c && c ≤ 'Z' then Char.ofNat (c.toNat + 32) else c

/-- `\w` of Python `re` (ASCII fragment): letters, digits and underscore. -/
def pyIsWord (c : Char) : Bool := c.isAlphanum || c == '_'

def lowerStr (s : Str) : Str := s.map pyLower

/-- Python `str.strip()`: drop leading and trailing whitespace. -/
def stripStr (s : Str) : Str :=
  ((s.dropWhile pyIsSpace).reverse.dropWhile pyIsSpace).reverse

/-- `_WS.sub(' ', s)`: replace each maximal run of whitespace by a single
space.  `prevSpace` records whether the previous character was whitespace
(in which case the current run has already emitted its replacement). -/
def collapseWsGo (prevSpace : Bool) : Str → Str
  | [] => []
  | c :: t =>
    if pyIsSpace c then
      if prevSpace then collapseWsGo true t else ' ' :: collapseWsGo true t
    else c :: collapseWsGo false t

def collapseWs (s : Str) : Str := collapseWsGo false s

/-! ## `text.py` -/

/-- `normalize_message_for_dedup` from `text.py`. -/
def normalize_message_for_dedup (msg : Str) (case_insensitive : Bool) : Str :=
  let s := stripStr msg
  let s := if case_insensitive then lowerStr s else s
  collapseWs s

def numTok : Str := ['<', 'N', 'U', 'M', '>']
def hexTok : Str := ['<', 'H', 'E', 'X', '>']

/-- `re.sub('\b\d+\b', '<NUM>', s)` as a deterministic scanner.  The state is
either `Sum.inl prevWord` (searching; `prevWord` says whether the previous
character is a word character, which decides the `\b` before a digit run) or
`Sum.inr acc` (inside a digit run whose characters, reversed, are `acc`).
A run is replaced exactly when it is bordered by non-word characters, which
is what the anchored `\b\d+\b` matches; positions inside a digit run can
never start a match because their predecessor is a digit. -/
def subNumAux : Bool ⊕ Str → Str → Str
  | Sum.inl _, [] => []
  | Sum.inr _, [] => numTok
  | Sum.inl pw, c :: t =>
    if c.isDigit && !pw then subNumAux (Sum.inr [c]) t
    else c :: subNumAux (Sum.inl (pyIsWord c)) t
  | Sum.inr acc, c :: t =>
    if c.isDigit then subNumAux (Sum.inr (c :: acc)) t
    else if pyIsWord c then acc.reverse ++ c :: subNumAux (Sum.inl true) t
    else numTok ++ c :: subNumAux (Sum.inl false) t

def subNum (s : Str) : Str := subNumAux (Sum.inl false) s

/-- Lower-case hexadecimal digit (the class `[0-9a-f]`). -/
def isHexLower (c : Char) : Bool := c.isDigit || ('a' ≤ c && c ≤ 'f')

/-- Scanner state for `re.sub('\b0x[0-9a-f]+\b', '<HEX>', s)`. -/
inductive HexSt
  | scan (prevWord : Bool)
  | zero
  | zerox
  | run (acc : Str)

/-- `re.sub('\b0x[0-9a-f]+\b', '<HEX>', s)` as a deterministic scanner.
`scan` searches for a `0` preceded by a non-word position, `zero` has
consumed that `0`, `zerox` has consumed `0x`, and `run acc` is inside the
hexadecimal run.  On failure the consumed characters are emitted verbatim;
no position inside a candidate can start another match because `x` is not a
hexadecimal digit and every inside position is preceded by a word
character. -/
def subHexAux : HexSt → Str → Str
  | .scan _, [] => []
  | .zero, [] => ['0']
  | .zerox, [] => ['0', 'x']
  | .run _, [] => hexTok
  | .scan pw, c :: t =>
    if c == '0' && !pw then subHexAux .zero t
    else c :: subHexAux (.scan (pyIsWord c)) t
  | .zero, c :: t =>
    if c == 'x' then subHexAux .zerox t
    else '0' :: c :: subHexAux (.scan (pyIsWord c)) t
  | .zerox, c :: t =>
    if isHexLower c then subHexAux (.run [c]) t
    else '0' :: 'x' :: c :: subHexAux (.scan (pyIsWord c)) t
  | .run acc, c :: t =>
    if isHexLower c then subHexAux (.run (c :: acc)) t
    else if pyIsWord c then '0' :: 'x' :: acc.reverse ++ c :: subHexAux (.scan true) t
    else hexTok ++ c :: subHexAux (.scan false) t

def subHex (s : Str) : Str := subHexAux (.scan false) s

/-- `mask_for_template_key` from `text.py`: lower-case, mask hexadecimal
literals, mask integer runs, collapse whitespace. -/
def mask_for_template_key (msg : Str) : Str :=
  collapseWs (subNum (subHex (lowerStr (stripStr msg))))

/-- Characters kept at token edges by `tokenize_for_entity_candidates`. -/
def keepEdge (c : Char) : Bool :=
  c.isAlphanum || c == '/' || c == '.' || c == '_' || c == '-' || c == ':'

/-- The two trimming `while` loops of `tokenize_for_entity_candidates`. -/
def trimTok (t : Str) : Str :=
  ((t.reverse.dropWhile (fun c => !keepEdge c)).reverse).dropWhile (fun c => !keepEdge c)

/-- Split on maximal whitespace runs, dropping empty pieces. -/
def splitWsGo (acc : Str) : Str → List Str
  | [] => if acc.isEmpty then [] else [acc.reverse]
  | c :: t =>
    if pyIsSpace c then
      if acc.isEmpty then splitWsGo [] t else acc.reverse :: splitWsGo [] t
    else splitWsGo (c :: acc) t

def splitWs (s : Str) : List Str := splitWsGo [] s

/-- `tokenize_for_entity_candidates` from `text.py`. -/
def tokenize_for_entity_candidates (msg : Str) : List Str :=
  ((splitWs (stripStr msg)).map trimTok).filter (fun t => !t.isEmpty)

/-- Character class used by `token_complexity` (`_t` in `text.py`). -/
def tcClass (caseSensitive : Bool) (c : Char) : ℕ :=
  if c.isDigit then 0
  else if c.isAlpha then (if caseSensitive && c.isUpper then 3 else 1)
  else 2

def tokenComplexityGo (cs : Bool) (last : ℕ) : Str → ℕ
  | [] => 0
  | c :: t =>
    (if tcClass cs c ≠ last then 1 else 0) + tokenComplexityGo cs (tcClass cs c) t

/-- `token_complexity` from `text.py`: number of character-class transitions;
0 for tokens shorter than two characters. -/
def token_complexity (tok : Str) (caseSensitive : Bool) : ℕ :=
  match tok with
  | [] => 0
  | [_] => 0
  | c :: t => tokenComplexityGo caseSensitive (tcClass caseSensitive c) t

/-- `unique_tokens`: deduplicate, dropping empties (set of truthy tokens). -/
def unique_tokens (tokens : List Str) : List Str :=
  (tokens.filter (fun t => !t.isEmpty)).dedup

/-! ## Substring search (Python `in` on strings) -/

def startsWithStr : Str → Str → Bool
  | [], _ => true
  | _ :: _, [] => false
  | a :: as, b :: bs => a == b && startsWithStr as bs

/-- `needle in hay` for Python strings. -/
def containsSub (hay needle : Str) : Bool :=
  startsWithStr needle hay ||
    match hay with
    | [] => false
    | _ :: t => containsSub t needle

/-! ## `config.py` -/

/-- The compiled pattern `re.compile('^\\\\d{4}-\\\\d{2}-\\\\d{2}-\\\\d{2}\\\\.\\\\d{2}\\\\.\\\\d{2}\\\\.\\\\d+$')`
from `config.py`.  Because every backslash is doubled once more than regex
quoting requires, the pattern denotes literal backslashes followed by
repetitions of the letter `d`, with `\\.` denoting a literal backslash and
then any character: the searched shape is
`\dddd-\dd-\dd-\dd\?\dd\?\dd\?\d+` where `?` is any non-newline character.
With the `^`/`$` anchors, `search` succeeds exactly on strings of that
shape (`$` also matches before one trailing newline). -/
def endDPlus : Str → Bool
  | [] => false
  | c :: t => c == 'd' && (t.isEmpty || t == ['\n'] || endDPlus t)

def brokenDottedTs (s : Str) : Bool :=
  match s with
  | '\\' :: 'd' :: 'd' :: 'd' :: 'd' :: '-' ::
    '\\' :: 'd' :: 'd' :: '-' ::
    '\\' :: 'd' :: 'd' :: '-' ::
    '\\' :: 'd' :: 'd' ::
    '\\' :: a :: '\\' :: 'd' :: 'd' ::
    '\\' :: b :: '\\' :: 'd' :: 'd' ::
    '\\' :: c :: '\\' :: rest =>
      a != '\n' && b != '\n' && c != '\n' && endDPlus rest
  | _ => false

/-- The compiled pattern `re.compile('^::1$')` from `config.py`. -/
def regexColonsOne (s : Str) : Bool := s == [':', ':', '1']

/-- `RecallConfig` from `config.py`.  Python `int` fields become `ℤ`,
`float` fields become `ℝ`, `Optional[float]` becomes `Option ℝ`, and each
compiled regular expression becomes the Boolean search predicate it
denotes.  The LLM-backend string fields, which no claim touches, are
omitted. -/
structure RecallConfig where
  theta_tc : ℤ := 2
  theta_rf : ℤ := 2
  delta_t_sec : ℤ := 300
  min_token_len : ℤ := 2
  graph_window_t_sec : ℤ := 900
  decay_lambda : Option ℝ := none
  theta_w : ℝ := 0.05
  activity_beta : ℝ := 0.99
  activity_alpha : ℝ := 1.0
  activity_epsilon : ℝ := 0.1
  temporal_k : ℤ := 15
  evidence_budget_nmax : ℤ := 30
  degree_threshold_dmax : ℤ := 200
  score_a : ℝ := 1.0
  score_b : ℝ := 1.0
  score_c : ℝ := 1.0
  dedup_case_insensitive : Bool := false
  enable_severity_trigger : Bool := true
  enable_burst_trigger : Bool := true
  burst_sigma : ℝ := 3.0
  burst_window_sec : ℤ := 300
  burst_ema_alpha : ℝ := 0.01
  enable_semantic_channel : Bool := false
  semantic_trigger_min_entities : ℤ := 1
  trigger_keywords : List Str :=
    ["fatal".data, "panic".data, "exception".data, "critical".data,
     "failure".data, "machine check".data]
  severity_keywords_fatal : List Str :=
    ["fatal".data, "panic".data, "critical".data, "machine check".data]
  severity_keywords_error : List Str :=
    ["error".data, "exception".data, "fail".data, "failure".data,
     "crash".data, "abort".data, "terminated".data]
  entity_blacklist_exact : List Str :=
    ["127.0.0.1".data, "0.0.0.0".data, "localhost".data, "/tmp".data]
  entity_blacklist_regex : List (Str → Bool) := [regexColonsOne]
  token_drop_regex : List (Str → Bool) := [brokenDottedTs]

/-- The default configuration (all `RecallConfig` defaults). -/
def defaultConfig : RecallConfig := {}

/-- `RecallConfig.is_blacklisted_entity`. -/
def RecallConfig.is_blacklisted_entity (cfg : RecallConfig) (ent : Str) : Bool :=
  let s := stripStr ent
  if s.isEmpty then true
  else if cfg.entity_blacklist_exact.any (fun b => s == b) then true
  else cfg.entity_blacklist_regex.any (fun rx => rx s)

/-- `RecallConfig.should_drop_token`. -/
def RecallConfig.should_drop_token (cfg : RecallConfig) (token : Str) : Bool :=
  if token.isEmpty then true
  else cfg.token_drop_regex.any (fun rx => rx token)

/-! ## `recurrence.py` -/

/-- `TokenRecurrenceCounter` state: the deque of `(ts, unique-token-set)`
pairs and the per-token count map (a total map; absent keys read 0, matching
`dict.get(token, 0)`). -/
structure TokenRecurrenceCounter where
  window_sec : ℤ
  q : List (ℤ × List Str) := []
  counts : Str → ℤ := fun _ => 0

/-- One decrement of `_evict`: `counts[t] -= 1`, popping (reset to the
absent value 0) when the result is `≤ 0`. -/
def decTok (counts : Str → ℤ) (t : Str) : Str → ℤ :=
  fun x => if x = t then (if counts t - 1 ≤ 0 then 0 else counts t - 1) else counts x

/-- The `while` loop of `TokenRecurrenceCounter._evict`. -/
def trcEvictGo (cutoff : ℤ) :
    List (ℤ × List Str) → (Str → ℤ) → List (ℤ × List Str) × (Str → ℤ)
  | [], counts => ([], counts)
  | (ts, toks) :: rest, counts =>
    if ts < cutoff then trcEvictGo cutoff rest (toks.foldl decTok counts)
    else ((ts, toks) :: rest, counts)

/-- `TokenRecurrenceCounter.push`: record the unique tokens of one log at
time `ts`, then evict expired queue heads (`Δt ≤ 0` disables eviction). -/
def TokenRecurrenceCounter.push (st : TokenRecurrenceCounter) (ts : ℤ)
    (tokens : List Str) : TokenRecurrenceCounter :=
  let tokSet := unique_tokens tokens
  let q1 := st.q ++ [(ts, tokSet)]
  let counts1 := tokSet.foldl (fun m t => fun x => if x = t then m t + 1 else m x) st.counts
  if st.window_sec ≤ 0 then { st with q := q1, counts := counts1 }
  else
    let ev := trcEvictGo (ts - st.window_sec) q1 counts1
    { st with q := ev.1, counts := ev.2 }

/-- `TokenRecurrenceCounter.rf`. -/
def TokenRecurrenceCounter.rf (st : TokenRecurrenceCounter) (t : Str) : ℤ :=
  st.counts t

/-- The per-template EMA statistics (`_EmaStats`); a map entry being `none`
plays the role of `initialized=False`. -/
structure EmaStats where
  mean : ℝ
  var : ℝ

/-- `TemplateBurstDetector` state. -/
structure TemplateBurstDetector where
  burst_window_sec : ℤ
  ema_alpha : ℝ
  sigma : ℝ
  q : List (ℤ × Str) := []
  win_counts : Str → ℤ := fun _ => 0
  ema : Str → Option EmaStats := fun _ => none

/-- The `while` loop of `TemplateBurstDetector._evict`. -/
def tbdEvictGo (cutoff : ℤ) :
    List (ℤ × Str) → (Str → ℤ) → List (ℤ × Str) × (Str → ℤ)
  | [], w => ([], w)
  | (ts, key) :: rest, w =>
    if ts < cutoff then
      tbdEvictGo cutoff rest
        (fun x => if x = key then (if w key - 1 ≤ 0 then 0 else w key - 1) else w x)
    else ((ts, key) :: rest, w)

section
open Classical

/-- `TemplateBurstDetector.push_and_check`: append the observation, evict the
expired window, update the per-key EMA of mean and variance, and fire iff
`threshold > 1` and the windowed count exceeds `mean + sigma·std`.  Returns
the fire decision together with the updated detector state. -/
noncomputable def TemplateBurstDetector.push_and_check
    (st : TemplateBurstDetector) (ts : ℤ) (key : Str) :
    Bool × TemplateBurstDetector :=
  if key.isEmpty then (false, st)
  else
    let q1 := st.q ++ [(ts, key)]
    let w1 : Str → ℤ := fun x => if x = key then st.win_counts key + 1 else st.win_counts x
    let ev := if st.burst_window_sec ≤ 0 then (q1, w1)
      else tbdEvictGo (ts - st.burst_window_sec) q1 w1
    let x : ℝ := ((ev.2 key : ℤ) : ℝ)
    let a := st.ema_alpha
    let newStats : EmaStats :=
      match st.ema key with
      | none => { mean := x, var := 0 }
      | some s0 =>
        { mean := (1 - a) * s0.mean + a * x,
          var := (1 - a) * s0.var + a * (x - s0.mean) * (x - ((1 - a) * s0.mean + a * x)) }
    let ema2 : Str → Option EmaStats := fun k => if k = key then some newStats else st.ema k
    let std := Real.sqrt (max newStats.var 0)
    let threshold := newStats.mean + st.sigma * std
    let fired : Bool := if threshold ≤ 1 then false else (if x > threshold then true else false)
    (fired, { st with q := ev.1, win_counts := ev.2, ema := ema2 })

/-! ## `trigger.py` -/

/-- `severity_level` from `trigger.py`: 3 for fatal keywords, 2 for error
keywords, 1 for `warn`/`warning`, otherwise 0; first match wins. -/
def severity_level (cfg : RecallConfig) (message : Str) : ℤ :=
  let s := lowerStr message
  if cfg.severity_keywords_fatal.any (fun kw => containsSub s kw) then 3
  else if cfg.severity_keywords_error.any (fun kw => containsSub s kw) then 2
  else if containsSub s "warn".data || containsSub s "warning".data then 1
  else 0

/-- `TriggerDecision` (the `by` field is spelled `by_`). -/
structure TriggerDecision where
  triggered : Bool
  by_ : Str
  template_key : Option Str

/-- `TriggerEngine` state is its burst detector. -/
structure TriggerEngine where
  burst : TemplateBurstDetector

/-- `TriggerEngine.__init__`: a fresh burst detector configured from `cfg`. -/
def TriggerEngine.init (cfg : RecallConfig) : TriggerEngine :=
  { burst := { burst_window_sec := cfg.burst_window_sec,
               ema_alpha := cfg.burst_ema_alpha, sigma := cfg.burst_sigma } }

/-- `TriggerEngine.check`: the severity trigger fires on a keyword in the
lower-cased message and returns without consulting the burst detector;
otherwise the burst detector is pushed and may fire. -/
noncomputable def TriggerEngine.check (cfg : RecallConfig) (eng : TriggerEngine)
    (ts : ℤ) (msg : Str) : TriggerDecision × TriggerEngine :=
  if cfg.enable_severity_trigger &&
      cfg.trigger_keywords.any (fun kw => containsSub (lowerStr msg) kw) then
    ({ triggered := true, by_ := "severity".data, template_key := none }, eng)
  else if cfg.enable_burst_trigger then
    let key := mask_for_template_key msg
    let res := eng.burst.push_and_check ts key
    if res.1 then
      ({ triggered := true, by_ := "burst".data, template_key := some key }, { burst := res.2 })
    else
      ({ triggered := false, by_ := "none".data, template_key := some key }, { burst := res.2 })
  else ({ triggered := false, by_ := "none".data, template_key := none }, eng)

end

/-! ## `entity_extraction.py` -/

/-- Parse a greedy `\d{1,3}` group.  Because every octet is followed by `.`,
`:` or the end of the string — none of which is a digit — the regex accepts
exactly when the maximal digit run has length 1 to 3. -/
def ipv4Octet (s : Str) : Option (Str × Str) :=
  let run := s.takeWhile Char.isDigit
  let rest := s.dropWhile Char.isDigit
  if 1 ≤ run.length ∧ run.length ≤ 3 then some (run, rest) else none

/-- The compiled `_IPV4_PORT` regex
`^(?P<ip>(?:\d{1,3}\.){3}\d{1,3})(?::\d{1,5})?$`: on success returns the
`ip` group. -/
def ipv4PortMatch (s : Str) : Option Str :=
  match ipv4Octet s with
  | none => none
  | some (a, r1) =>
    match r1 with
    | '.' :: r1' =>
      match ipv4Octet r1' with
      | none => none
      | some (b, r2) =>
        match r2 with
        | '.' :: r2' =>
          match ipv4Octet r2' with
          | none => none
          | some (c, r3) =>
            match r3 with
            | '.' :: r3' =>
              match ipv4Octet r3' with
              | none => none
              | some (d, r4) =>
                let ip := a ++ '.' :: b ++ '.' :: c ++ '.' :: d
                match r4 with
                | [] => some ip
                | ':' :: rp =>
                  let run := rp.takeWhile Char.isDigit
                  let rest := rp.dropWhile Char.isDigit
                  if 1 ≤ run.length ∧ run.length ≤ 5 ∧ rest = [] then some ip else none
                | _ => none
            | _ => none
        | _ => none
    | _ => none

/-- The prefix regex `^[A-Za-z]\w*-\w+` of `classify_entity_type`
(`re.match`, so only a prefix has to match; `\w` excludes `-`, hence the
greedy `\w*` must stop exactly at the first non-word character, which has
to be `-`, followed by at least one word character). -/
def identMatch : Str → Bool
  | [] => false
  | c :: t =>
    c.isAlpha &&
      (match t.dropWhile pyIsWord with
       | '-' :: u =>
         (match u with
          | [] => false
          | d :: _ => pyIsWord d)
       | _ => false)

/-- `classify_entity_type` from `entity_extraction.py`: first-match cascade
`ip → path → block_id → identifier → number → code → token`; empty →
`unknown`. -/
def classify_entity_type (ent : Str) : Str :=
  let s := stripStr ent
  if s.isEmpty then "unknown".data
  else if (ipv4PortMatch s).isSome then "ip".data
  else if startsWithStr ['/'] s || startsWithStr ['.', '/'] s then "path".data
  else if startsWithStr "blk_".data s then "block_id".data
  else if identMatch s then "identifier".data
  else if s.all Char.isDigit then "number".data
  else if 3 ≤ s.length ∧ s.all (fun c => c.isUpper || c.isDigit || c == '_') then "code".data
  else "token".data

/-- Insert into a Python-set-as-list (no duplicates; insertion order kept). -/
def insertSet (l : List Str) (x : Str) : List Str :=
  if x ∈ l then l else l ++ [x]

def listUnion (a b : List Str) : List Str := b.foldl insertSet a

/-- `StatisticalEntityExtractor.extract`: tokenize, push into the recurrence
counter, then accept tokens by length, drop-regex, IPv4 split, blacklist and
the `tc > θ_tc ∧ rf > θ_rf` gate.  Returns the accepted set together with
the updated counter. -/
def statExtract (cfg : RecallConfig) (rf : TokenRecurrenceCounter) (ts : ℤ)
    (message : Str) : List Str × TokenRecurrenceCounter :=
  let toks := tokenize_for_entity_candidates message
  let rf1 := rf.push ts toks
  let ents := toks.foldl (fun acc tok =>
    if tok.isEmpty || decide ((tok.length : ℤ) < cfg.min_token_len) then acc
    else if cfg.should_drop_token tok then acc
    else
      let acc1 :=
        match ipv4PortMatch tok with
        | some ip => if !ip.isEmpty && !cfg.is_blacklisted_entity ip then insertSet acc ip else acc
        | none => acc
      if cfg.is_blacklisted_entity tok then acc1
      else if decide (cfg.theta_tc < (token_complexity tok false : ℤ)) &&
          decide (cfg.theta_rf < rf1.rf tok) then insertSet acc1 tok
      else acc1) []
  (ents, rf1)

/-- A decoded JSON value (the output of `json.loads` on the semantic
validator's response).  Only the shapes that
`parse_semantic_validation_response` inspects are represented. -/
inductive PyVal
  | str (s : Str)
  | list (xs : List PyVal)
  | dict (kvs : List (Str × PyVal))

def dictGet (kvs : List (Str × PyVal)) (k : Str) : Option PyVal :=
  (kvs.find? (fun kv => kv.1 == k)).map (fun kv => kv.2)

/-- The `it.get('value') or it.get('entity') or it.get('text') or ''` chain
(string values only: a non-string truthy value would raise on `.strip()`
and the surrounding `try` would return the empty result). -/
def dictStrOr (kvs : List (Str × PyVal)) : List Str → Str
  | [] => []
  | k :: ks =>
    match dictGet kvs k with
    | some (.str v) => if v.isEmpty then dictStrOr kvs ks else v
    | _ => dictStrOr kvs ks

/-- `_extract_values` from `entity_extraction.py`. -/
def extract_values : Option PyVal → List Str
  | none => []
  | some (.str _) => []
  | some (.list xs) =>
    xs.foldl (fun acc it =>
      match it with
      | .str s =>
        let v := stripStr s
        if v.isEmpty then acc else insertSet acc v
      | .dict kvs =>
        let v := stripStr (dictStrOr kvs ["value".data, "entity".data, "text".data])
        if v.isEmpty then acc else insertSet acc v
      | _ => acc) []
  | some (.dict kvs) =>
    let v := stripStr (dictStrOr kvs ["value".data, "entity".data, "text".data])
    if v.isEmpty then [] else [v]

/-- `_in_message_or_ip_port` from `entity_extraction.py`. -/
def inMessageOrIpPort (entity message : Str) : Bool :=
  let e := stripStr entity
  if e.isEmpty then false
  else if containsSub message e then true
  else
    match ipv4PortMatch e with
    | some ip =>
      (!ip.isEmpty && containsSub message ip) ||
        (!ip.isEmpty && containsSub message (ip ++ [':']))
    | none => false

structure SemanticValidationResult where
  keep : List Str
  add : List Str
  drop : List Str

/-- `parse_semantic_validation_response`, applied to the already decoded
JSON object (the textual `json.loads` step is the external boundary). -/
def parse_semantic_validation (obj : PyVal) (message : Str) : SemanticValidationResult :=
  let raw : SemanticValidationResult :=
    match obj with
    | .dict kvs =>
      if (dictGet kvs "keep".data).isSome || (dictGet kvs "add".data).isSome ||
          (dictGet kvs "drop".data).isSome then
        { keep := extract_values (dictGet kvs "keep".data),
          add := extract_values (dictGet kvs "add".data),
          drop := extract_values (dictGet kvs "drop".data) }
      else if (dictGet kvs "entities".data).isSome then
        { keep := [], add := extract_values (dictGet kvs "entities".data), drop := [] }
      else if (dictGet kvs "final".data).isSome then
        { keep := extract_values (dictGet kvs "final".data), add := [], drop := [] }
      else { keep := [], add := [], drop := [] }
    | _ => { keep := [], add := [], drop := [] }
  { keep := raw.keep.filter (fun e => inMessageOrIpPort e message),
    add := raw.add.filter (fun e => inMessageOrIpPort e message),
    drop := raw.drop.filter (fun e => !e.isEmpty) }

structure EntityExtractionResult where
  estat : List Str
  esem : List Str
  final : List Str
  estat_validated : List Str

/-- `extract_entities` from `entity_extraction.py`.  The semantic channel's
LLM response is an input (`semOracle`): `none` plays the role of
`semantic_extractor is None`; `some obj` is the decoded JSON reply.  Note
that `esem` (the semantic additions) is *not* filtered by the blacklist
while `final` and `estat_validated` are. -/
def extract_entities (cfg : RecallConfig) (rf : TokenRecurrenceCounter) (ts : ℤ)
    (message : Str) (semOracle : Option PyVal) :
    EntityExtractionResult × TokenRecurrenceCounter :=
  let st := statExtract cfg rf ts message
  let estat := st.1
  let vs :=
    match semOracle with
    | some obj =>
      if cfg.enable_semantic_channel &&
          decide ((estat.length : ℤ) < cfg.semantic_trigger_min_entities) then
        let sem := parse_semantic_validation obj message
        ((if !sem.keep.isEmpty then sem.keep else estat), sem.add)
      else (estat, [])
    | none => (estat, [])
  let final := (listUnion vs.1 vs.2).filter (fun e => !cfg.is_blacklisted_entity e)
  let validated := vs.1.filter (fun e => !cfg.is_blacklisted_entity e)
  ({ estat := estat, esem := vs.2, final := final, estat_validated := validated }, st.2)

/-! ## `dynamic_graph.py` -/

structure LogNode where
  log_id : ℤ
  ts_sec : ℤ
  message : Str
  severity : ℤ
  prev_log_id : Option ℤ := none
  next_log_id : Option ℤ := none

structure EntityNode where
  value : Str
  etype : Str
  activity : ℝ := 0
  last_step : ℤ := 0
  last_seen_ts : ℤ := 0

/-- `DynamicLogEntityGraph` state.  `logs`, `log_to_entities` and
`entity_to_logs` are never iterated by the code, so they are total function
maps (absent keys read `none` / the empty list); `entities` is iterated by
the activity sweep and is therefore an insertion-ordered association
list. -/
structure GraphState where
  step : ℤ := 0
  logs : ℤ → Option LogNode := fun _ => none
  entities : List (Str × EntityNode) := []
  log_to_entities : ℤ → List Str := fun _ => []
  entity_to_logs : Str → List ℤ := fun _ => []
  log_window : List ℤ := []
  last_log_id : Option ℤ := none

def aGet (m : List (Str × EntityNode)) (k : Str) : Option EntityNode :=
  (m.find? (fun kv => kv.1 == k)).map (fun kv => kv.2)

def aSet (m : List (Str × EntityNode)) (k : Str) (v : EntityNode) :
    List (Str × EntityNode) :=
  match m with
  | [] => [(k, v)]
  | (k0, v0) :: t => if k0 = k then (k, v) :: t else (k0, v0) :: aSet t k v

def aDel (m : List (Str × EntityNode)) (k : Str) : List (Str × EntityNode) :=
  m.filter (fun kv => decide (kv.1 ≠ k))

section
open Classical

/-- `DynamicLogEntityGraph._lambda`. -/
noncomputable def lamOf (cfg : RecallConfig) : ℝ :=
  match cfg.decay_lambda with
  | some l => l
  | none =>
    if (cfg.graph_window_t_sec : ℝ) ≤ 0 ∨ cfg.theta_w ≤ 0 then 0
    else (-Real.log cfg.theta_w) / (cfg.graph_window_t_sec : ℝ)

/-- `DynamicLogEntityGraph._edge_weight`. -/
noncomputable def edgeWeight (cfg : RecallConfig) (edge_last_ts now_ts : ℤ) : ℝ :=
  if lamOf cfg ≤ 0 then 1
  else Real.exp (-(lamOf cfg) * ((max 0 (now_ts - edge_last_ts) : ℤ) : ℝ))

/-- `structural_edge_weight` (the entity argument is unused in the code). -/
noncomputable def structural_edge_weight (cfg : RecallConfig) (g : GraphState)
    (log_id : ℤ) (entity : Str) (now_ts : ℤ) : ℝ :=
  match g.logs log_id with
  | none => 0
  | some ln => edgeWeight cfg ln.ts_sec now_ts

/-- `temporal_edge_weight`: a function of the destination's timestamp. -/
noncomputable def temporal_edge_weight (cfg : RecallConfig) (g : GraphState)
    (src_log_id dst_log_id : ℤ) (now_ts : ℤ) : ℝ :=
  match g.logs dst_log_id with
  | none => 0
  | some ln => edgeWeight cfg ln.ts_sec now_ts

/-- `_activate_entity` applied to an `EntityNode` value at step `step1`. -/
noncomputable def activateEntity (cfg : RecallConfig) (step1 : ℤ) (ts : ℤ)
    (en : EntityNode) : EntityNode :=
  let dt := max 0 (step1 - en.last_step)
  let act1 := if 0 < dt then en.activity * cfg.activity_beta ^ dt.toNat else en.activity
  { en with activity := act1 + cfg.activity_alpha, last_step := step1, last_seen_ts := ts }

/-- `DynamicLogEntityGraph.add_log`. -/
noncomputable def addLog (cfg : RecallConfig) (g : GraphState) (log_id ts_sec : ℤ)
    (message : Str) (entities : List Str) (severity : ℤ) : GraphState :=
  let step1 := g.step + 1
  let node : LogNode :=
    { log_id := log_id, ts_sec := ts_sec, message := message, severity := severity }
  let logs1 : ℤ → Option LogNode := fun i => if i = log_id then some node else g.logs i
  let window1 := g.log_window ++ [log_id]
  let logs2 : ℤ → Option LogNode :=
    match g.last_log_id with
    | none => logs1
    | some last =>
      match logs1 last with
      | none => logs1
      | some prevNode =>
        if last = log_id then
          fun i => if i = log_id then
            some { node with next_log_id := some log_id, prev_log_id := some log_id }
          else g.logs i
        else
          fun i =>
            if i = log_id then some { node with prev_log_id := some prevNode.log_id }
            else if i = last then some { prevNode with next_log_id := some log_id }
            else g.logs i
  let entSet := entities.foldl (fun acc e =>
    let e2 := stripStr e
    if e2.isEmpty then acc
    else if cfg.is_blacklisted_entity e2 then acc
    else insertSet acc e2) []
  let lte1 : ℤ → List Str := fun i => if i = log_id then entSet else g.log_to_entities i
  let entFold := entSet.foldl
    (fun (st : List (Str × EntityNode) × (Str → List ℤ)) e =>
      let en :=
        match aGet st.1 e with
        | some en => en
        | none =>
          { value := e, etype := classify_entity_type e, activity := 0,
            last_step := step1, last_seen_ts := ts_sec }
      let en2 := activateEntity cfg step1 ts_sec en
      (aSet st.1 e en2, fun x => if x = e then st.2 e ++ [log_id] else st.2 x))
    (g.entities, g.entity_to_logs)
  { step := step1, logs := logs2, entities := entFold.1,
    log_to_entities := lte1, entity_to_logs := entFold.2,
    log_window := window1, last_log_id := some log_id }

/-- `DynamicLogEntityGraph._remove_log`. -/
def removeLog (g : GraphState) (log_id : ℤ) : GraphState :=
  let lnOpt := g.logs log_id
  let ents := g.log_to_entities log_id
  let logs1 : ℤ → Option LogNode := fun i => if i = log_id then none else g.logs i
  let lte1 : ℤ → List Str := fun i => if i = log_id then [] else g.log_to_entities i
  let chain :=
    match lnOpt with
    | none => (logs1, g.last_log_id)
    | some ln =>
      let logsA :=
        match ln.prev_log_id with
        | some p =>
          match logs1 p with
          | some pn => fun i =>
              if i = p then some { pn with next_log_id := ln.next_log_id } else logs1 i
          | none => logs1
        | none => logs1
      let logsB :=
        match ln.next_log_id with
        | some nx =>
          match logsA nx with
          | some nn =>
            if (logs1 nx).isSome then
              fun i => if i = nx then some { nn with prev_log_id := ln.prev_log_id } else logsA i
            else logsA
          | none => logsA
        | none => logsA
      let last2 := if g.last_log_id = some log_id then ln.prev_log_id else g.last_log_id
      (logsB, last2)
  let entClean := ents.foldl
    (fun (st : (Str → List ℤ) × List (Str × EntityNode)) e =>
      let dq := st.1 e
      if dq.isEmpty then st
      else
        let dq1 := dq.dropWhile (fun x => x == log_id)
        let dq2 := if ¬ dq1.isEmpty ∧ log_id ∈ dq1
          then dq1.filter (fun x => decide (x ≠ log_id)) else dq1
        if dq2.isEmpty then ((fun x => if x = e then [] else st.1 x), aDel st.2 e)
        else ((fun x => if x = e then dq2 else st.1 x), st.2))
    (g.entity_to_logs, g.entities)
  { g with
    logs := chain.1,
    last_log_id := chain.2,
    log_to_entities := lte1,
    entity_to_logs := entClean.1,
    entities := entClean.2 }

/-- The `while` loop of `_evict_logs` (`fuel` bounds the number of pops; it
is called with the window length, which the loop can never exceed). -/
def evictGo (cutoff : ℤ) : ℕ → GraphState → GraphState
  | 0, g => g
  | fuel + 1, g =>
    match g.log_window with
    | [] => g
    | lid :: rest =>
      match g.logs lid with
      | none => g
      | some ln =>
        if ln.ts_sec < cutoff then
          evictGo cutoff fuel (removeLog { g with log_window := rest } lid)
        else g

/-- `DynamicLogEntityGraph._evict_logs`. -/
def evictLogs (cfg : RecallConfig) (g : GraphState) (now : ℤ) : GraphState :=
  if cfg.graph_window_t_sec ≤ 0 then g
  else evictGo (now - cfg.graph_window_t_sec) g.log_window.length g

/-- Body of the first `for` loop of `_prune_edges` (incidence wipe). -/
def pruneWipeStep (cutoff : ℤ) (g : GraphState) (lid : ℤ) : GraphState :=
  match g.logs lid with
  | none => g
  | some ln =>
    if cutoff ≤ ln.ts_sec then g
    else
      let ents := g.log_to_entities lid
      if ents.isEmpty then g
      else
        let res := ents.foldl
          (fun (st : (Str → List ℤ) × List (Str × EntityNode)) e =>
            let dq := st.1 e
            if dq.isEmpty then st
            else
              let dq2 := if lid ∈ dq then dq.filter (fun x => decide (x ≠ lid)) else dq
              if dq2.isEmpty then ((fun x => if x = e then [] else st.1 x), aDel st.2 e)
              else ((fun x => if x = e then dq2 else st.1 x), st.2))
          (g.entity_to_logs, g.entities)
        { g with
          entity_to_logs := res.1,
          entities := res.2,
          log_to_entities := fun i => if i = lid then [] else g.log_to_entities i }

/-- Body of the second `for` loop of `_prune_edges` (chain detach). -/
def pruneDetachStep (cutoff : ℤ) (g : GraphState) (lid : ℤ) : GraphState :=
  match g.logs lid with
  | none => g
  | some ln =>
    match ln.prev_log_id with
    | none => g
    | some p =>
      if ln.ts_sec < cutoff then
        let logs1 :=
          match g.logs p with
          | some prev => fun i =>
              if i = p then some { prev with next_log_id := none } else g.logs i
          | none => g.logs
        let logs2 : ℤ → Option LogNode := fun i =>
          if i = lid then (logs1 lid).map (fun n => { n with prev_log_id := none })
          else logs1 i
        { g with logs := logs2 }
      else g

/-- `DynamicLogEntityGraph._prune_edges`. -/
noncomputable def pruneEdges (cfg : RecallConfig) (g : GraphState) (now : ℤ) : GraphState :=
  if cfg.theta_w ≤ 0 then g
  else
    let lam := lamOf cfg
    if lam ≤ 0 then g
    else
      let age_limit : ℤ := ⌈(-Real.log cfg.theta_w) / lam⌉
      if age_limit ≤ 0 then g
      else
        let cutoff := now - age_limit
        let g1 := g.log_window.foldl (pruneWipeStep cutoff) g
        g1.log_window.foldl (pruneDetachStep cutoff) g1

/-- `DynamicLogEntityGraph._entity_activity_now`. -/
noncomputable def entityActivityNow (cfg : RecallConfig) (gstep : ℤ) (en : EntityNode) : ℝ :=
  let dt := max 0 (gstep - en.last_step)
  if dt ≤ 0 then en.activity else en.activity * cfg.activity_beta ^ dt.toNat

/-- `DynamicLogEntityGraph._prune_entities_by_activity` (the 1-in-256
sweep). -/
noncomputable def pruneEntities (cfg : RecallConfig) (g : GraphState) : GraphState :=
  if cfg.activity_epsilon ≤ 0 then g
  else if g.step % 256 ≠ 0 then g
  else
    let to_drop := (g.entities.filter
      (fun kv => entityActivityNow cfg g.step kv.2 < cfg.activity_epsilon)).map
      (fun kv => kv.1)
    let res := to_drop.foldl
      (fun (st : (ℤ → List Str) × (Str → List ℤ) × List (Str × EntityNode)) e =>
        let lte2 := (st.2.1 e).foldl
          (fun m lid => fun i =>
            if i = lid then (m lid).filter (fun x => decide (x ≠ e)) else m i)
          st.1
        (lte2, (fun x => if x = e then [] else st.2.1 x), aDel st.2.2 e))
      (g.log_to_entities, g.entity_to_logs, g.entities)
    { g with log_to_entities := res.1, entity_to_logs := res.2.1, entities := res.2.2 }

/-- `DynamicLogEntityGraph.tick`. -/
noncomputable def tick (cfg : RecallConfig) (g : GraphState) (now : ℤ) : GraphState :=
  pruneEntities cfg (pruneEdges cfg (evictLogs cfg g now) now)

end

/-- `get_entities_for_log` (a copy of the stored set; absent reads `[]`). -/
def getEntitiesForLog (g : GraphState) (log_id : ℤ) : List Str :=
  g.log_to_entities log_id

/-- `get_logs_for_entity` (insertion order; absent reads `[]`). -/
def getLogsForEntity (g : GraphState) (entity : Str) : List ℤ :=
  g.entity_to_logs entity

/-- `entity_degree`. -/
def entityDegree (g : GraphState) (entity : Str) : ℕ :=
  (g.entity_to_logs entity).length

/-! ## `retrieval.py` -/

structure EvidenceItem where
  log_id : ℤ
  ts_sec : ℤ
  message : Str
  severity : ℤ
  dist : ℤ
  score : ℝ
  edge_weight : ℝ
  paths : List Str
  shared_entities : List Str
  time_offset : Option ℤ

/-- `_min_dist` from `retrieval.py`. -/
def minDist (a b : Option ℤ) : ℤ :=
  match a, b with
  | none, none => 999999
  | none, some b => b
  | some a, none => a
  | some a, some b => min a b

/-- Association-list maps keyed by log id (Python dicts: first occurrence
position kept on update, insertion order preserved). -/
def zGet {α : Type} (m : List (ℤ × α)) (k : ℤ) : Option α :=
  (m.find? (fun kv => kv.1 == k)).map (fun kv => kv.2)

def zPut {α : Type} (m : List (ℤ × α)) (k : ℤ) (v : α) : List (ℤ × α) :=
  match m with
  | [] => [(k, v)]
  | (k0, v0) :: t => if k0 = k then (k, v) :: t else (k0, v0) :: zPut t k v

def sGet {α : Type} (m : List (Str × α)) (k : Str) : Option α :=
  (m.find? (fun kv => kv.1 == k)).map (fun kv => kv.2)

def sPut {α : Type} (m : List (Str × α)) (k : Str) (v : α) : List (Str × α) :=
  match m with
  | [] => [(k, v)]
  | (k0, v0) :: t => if k0 = k then (k, v) :: t else (k0, v0) :: sPut t k v

/-- Lexicographic (code-point) order on strings, as Python `sorted` uses. -/
def strLeB : Str → Str → Bool
  | [], _ => true
  | _ :: _, [] => false
  | a :: as, b :: bs => if a = b then strLeB as bs else decide (a < b)

/-- Python `sorted` on a list of strings. -/
def sortStrList (l : List Str) : List Str :=
  List.insertionSort (fun x y => strLeB x y = true) l

section
open Classical

/-- One direction of `_temporal_path_min_edge_weight`'s walks: follow
`prev` (or `next`) pointers from `cur` looking for `stop`, taking the
minimum of the destination-timestamp edge weights along the way.  Returns
the final position and the accumulated minimum. -/
noncomputable def tpmewWalk (cfg : RecallConfig) (g : GraphState) (useNext : Bool)
    (stop : ℤ) (now : ℤ) : ℕ → ℤ → ℝ → ℤ × ℝ
  | 0, cur, w => (cur, w)
  | fuel + 1, cur, w =>
    if cur = stop then (cur, w)
    else
      match g.logs cur with
      | none => (cur, w)
      | some ln =>
        match (if useNext then ln.next_log_id else ln.prev_log_id) with
        | none => (cur, w)
        | some adj =>
          let w2 := min w (if useNext then temporal_edge_weight cfg g cur adj now
            else temporal_edge_weight cfg g adj cur now)
          tpmewWalk cfg g useNext stop now fuel adj w2

/-- `_temporal_path_min_edge_weight`: try the `prev`-walk from `dst` up to
2048 hops; if `src` is not reached, the `next`-walk from `src`; else 0. -/
noncomputable def temporalPathMinEdgeWeight (cfg : RecallConfig) (g : GraphState)
    (src dst : ℤ) (now : ℤ) : ℝ :=
  if src = dst then 1
  else
    let r1 := tpmewWalk cfg g false src now 2048 dst 1
    if r1.1 = src then r1.2
    else
      let r2 := tpmewWalk cfg g true dst now 2048 src 1
      if r2.1 = dst then r2.2 else 0

/-- The `prev`/`next` candidate walks of `dual_path_retrieve`
(`for d in range(1, k+1)` with early `break`). -/
def candWalk (g : GraphState) (useNext : Bool) :
    ℕ → ℤ → ℤ → List (ℤ × ℤ) → List (ℤ × ℤ)
  | 0, _, _, m => m
  | fuel + 1, cur, d, m =>
    match g.logs cur with
    | none => m
    | some ln =>
      match (if useNext then ln.next_log_id else ln.prev_log_id) with
      | none => m
      | some adj =>
        let old := match zGet m adj with
          | some v => v
          | none => 10 ^ 9
        candWalk g useNext fuel adj (d + 1) (zPut m adj (min old d))

/-- Structural candidate discovery of `dual_path_retrieve`: the distance
table (`cand_dist_struct`, every value 2) and the shared-entity table. -/
def candStructFold (cfg : RecallConfig) (g : GraphState) (target : ℤ) :
    List (ℤ × ℤ) × List (ℤ × List Str) :=
  (getEntitiesForLog g target).foldl
    (fun (st : List (ℤ × ℤ) × List (ℤ × List Str)) e =>
      if (entityDegree g e : ℤ) > cfg.degree_threshold_dmax then st
      else (getLogsForEntity g e).foldl
        (fun st2 lid =>
          if lid = target then st2
          else (zPut st2.1 lid (minDist (zGet st2.1 lid) (some 2)),
            zPut st2.2 lid (insertSet (match zGet st2.2 lid with
              | some s => s
              | none => []) e)))
        st)
    ([], [])

/-- Temporal candidate discovery (`prev` walk then `next` walk). -/
def timeCandMap (cfg : RecallConfig) (g : GraphState) (target : ℤ) : List (ℤ × ℤ) :=
  candWalk g true cfg.temporal_k.toNat target 1
    (candWalk g false cfg.temporal_k.toNat target 1 [])

/-- `cand_ids = set(struct) | set(time)` (a Python set; iterated here as
structural keys in discovery order followed by new temporal keys — every
property proved below is independent of this order choice). -/
def candIdsOf (structMap timeMap : List (ℤ × ℤ)) : List ℤ :=
  (structMap.map (fun p => p.1)) ++
    ((timeMap.map (fun p => p.1)).filter (fun l => zGet structMap l = none))

/-- The dedup fold of `dual_path_retrieve`: per normalized message key keep
the candidate with the largest timestamp (ties: first encountered wins). -/
def msg2bestOf (cfg : RecallConfig) (g : GraphState) (candIds : List ℤ) :
    List (Str × ℤ) :=
  candIds.foldl
    (fun (m : List (Str × ℤ)) lid =>
      match g.logs lid with
      | none => m
      | some ln =>
        let key := normalize_message_for_dedup ln.message cfg.dedup_case_insensitive
        if key.isEmpty then m
        else
          match sGet m key with
          | none => sPut m key lid
          | some prev =>
            match g.logs prev with
            | none => sPut m key lid
            | some a => if a.ts_sec < ln.ts_sec then sPut m key lid else m)
    []

/-- The evidence item built for one deduplicated candidate. -/
noncomputable def mkItem (cfg : RecallConfig) (g : GraphState) (target : ℤ)
    (tgt : LogNode) (structMap timeMap : List (ℤ × ℤ))
    (sharedMap : List (ℤ × List Str)) (lid : ℤ) (ln : LogNode) : EvidenceItem :=
  let now := tgt.ts_sec
  let dist := max 1 (minDist (zGet structMap lid) (zGet timeMap lid))
  let sev := if ln.severity = 0 then severity_level cfg ln.message else ln.severity
  let shared := match zGet sharedMap lid with
    | some s => s
    | none => []
  let w2 : ℝ := if (zGet timeMap lid).isSome
    then max 0 (temporalPathMinEdgeWeight cfg g target lid now) else 0
  let w3 : ℝ := if (zGet structMap lid).isSome
    then max w2 (shared.foldl (fun b e =>
      max b (min (structural_edge_weight cfg g target e now)
        (structural_edge_weight cfg g lid e now))) 0)
    else w2
  { log_id := lid,
    ts_sec := ln.ts_sec,
    message := ln.message,
    severity := sev,
    dist := dist,
    score := cfg.score_a * (sev : ℝ) + cfg.score_b * (1 / (dist : ℝ)) + cfg.score_c * w3,
    edge_weight := w3,
    paths := (if (zGet structMap lid).isSome then ["struct".data] else []) ++
      (if (zGet timeMap lid).isSome then ["time".data] else []),
    shared_entities := sortStrList shared,
    time_offset := if (zGet timeMap lid).isSome
      then some (ln.ts_sec - tgt.ts_sec) else none }

/-- The item-construction loop over `dedup_ids`. -/
noncomputable def itemsOf (cfg : RecallConfig) (g : GraphState) (target : ℤ)
    (tgt : LogNode) (structMap timeMap : List (ℤ × ℤ))
    (sharedMap : List (ℤ × List Str)) (dedupIds : List ℤ) : List EvidenceItem :=
  dedupIds.foldl
    (fun (acc : List EvidenceItem) lid =>
      match g.logs lid with
      | none => acc
      | some ln => acc ++ [mkItem cfg g target tgt structMap timeMap sharedMap lid ln])
    []

/-- The sort order of `items.sort(key=lambda x: (x.score, x.ts_sec),
reverse=True)`: descending score, ties broken by descending timestamp. -/
def itemRel (a b : EvidenceItem) : Prop :=
  b.score < a.score ∨ (b.score = a.score ∧ b.ts_sec ≤ a.ts_sec)

noncomputable instance itemRelDec : DecidableRel itemRel :=
  fun _ _ => Classical.propDecidable _

/-- The deduplicated evidence items for a resident target `tgt`. -/
noncomputable def retrieveItems (cfg : RecallConfig) (g : GraphState) (target : ℤ)
    (tgt : LogNode) : List EvidenceItem :=
  itemsOf cfg g target tgt (candStructFold cfg g target).1 (timeCandMap cfg g target)
    (candStructFold cfg g target).2
    (((msg2bestOf cfg g
      (candIdsOf (candStructFold cfg g target).1 (timeCandMap cfg g target))).map
      (fun p => p.2)).dedup)

/-- `dual_path_retrieve` from `retrieval.py` (assembled from the stages
above; the final slice is Python's `items[:n]`, which for negative `n`
keeps `len+n` items). -/
noncomputable def dualPathRetrieve (cfg : RecallConfig) (g : GraphState)
    (target : ℤ) : List EvidenceItem :=
  match g.logs target with
  | none => []
  | some tgt =>
    let sorted := List.insertionSort itemRel (retrieveItems cfg g target tgt)
    if 0 ≤ cfg.evidence_budget_nmax then sorted.take cfg.evidence_budget_nmax.toNat
    else sorted.take ((sorted.length : ℤ) + cfg.evidence_budget_nmax).toNat

end

/-! ## `packaging.py` -/

def natToStr (n : ℕ) : Str := Nat.toDigits 10 n

def lTag (n : ℕ) : Str := 'L' :: natToStr n
def eTag (n : ℕ) : Str := 'E' :: natToStr n
def rTag (n : ℕ) : Str := 'R' :: natToStr n

inductive PackNode
  | log (id : Str) (timestamp : ℤ) (severity : ℤ)
  | entity (id : Str) (entity_type : Str) (value : Str)

structure PackEdge where
  id : Str
  edge_type : Str
  source : Str
  target : Str
  weight : ℝ

/-- The GraphPack of `build_evidence_pack` (nodes, edges and the two id
maps; the TextPack string and the English `summary` sentences, which no
claim mentions, are not modelled). -/
structure GraphPack where
  nodes : List PackNode
  edges : List PackEdge
  id_map_logs : List (ℤ × Str)
  id_map_entities : List (Str × Str)

section
open Classical

/-- `round(w, 6)` (the claims do not depend on the value, only on which
edges exist; ties-to-even versus ties-away rounding is immaterial here). -/
noncomputable def round6 (x : ℝ) : ℝ := ((round (x * 1000000) : ℤ) : ℝ) / 1000000

/-- The first (`struct`) edge pass of `build_evidence_pack`. -/
noncomputable def packStructEdges (cfg : RecallConfig) (g : GraphState) (now : ℤ)
    (orderedLogIds : List ℤ) (idMapLogs : List (ℤ × Str))
    (idMapEnts : List (Str × Str)) : List PackEdge × ℕ :=
  orderedLogIds.foldl
    (fun (st : List PackEdge × ℕ) lid =>
      (sortStrList (getEntitiesForLog g lid)).foldl
        (fun st2 e =>
          match sGet idMapEnts e with
          | none => st2
          | some eid =>
            let w := structural_edge_weight cfg g lid e now
            if w < cfg.theta_w then st2
            else (st2.1 ++ [{
              id := rTag st2.2,
              edge_type := "struct".data,
              source := (zGet idMapLogs lid).getD [],
              target := eid,
              weight := round6 w }], st2.2 + 1))
        st)
    ([], 1)

/-- The second (`time`) edge pass of `build_evidence_pack`. -/
noncomputable def packTimeEdges (cfg : RecallConfig) (g : GraphState) (now : ℤ)
    (orderedLogIds : List ℤ) (idMapLogs : List (ℤ × Str))
    (init : List PackEdge × ℕ) : List PackEdge × ℕ :=
  orderedLogIds.foldl
    (fun (st : List PackEdge × ℕ) lid =>
      match g.logs lid with
      | none => st
      | some ln =>
        match ln.next_log_id with
        | none => st
        | some nx =>
          if nx ∉ orderedLogIds then st
          else
            let w := temporal_edge_weight cfg g lid nx now
            if w < cfg.theta_w then st
            else (st.1 ++ [{
              id := rTag st.2,
              edge_type := "time".data,
              source := (zGet idMapLogs lid).getD [],
              target := (zGet idMapLogs nx).getD [],
              weight := round6 w }], st.2 + 1))
    init

/-- `build_evidence_pack` from `packaging.py`; `none` models the
`ValueError` raised when the target is not resident. -/
noncomputable def buildEvidencePack (cfg : RecallConfig) (g : GraphState)
    (target : ℤ) (evidence : List EvidenceItem) : Option GraphPack :=
  match g.logs target with
  | none => none
  | some tgt =>
    let idMapLogs := evidence.enum.foldl
      (fun m p => zPut m p.2.log_id (lTag (p.1 + 1))) [(target, lTag 0)]
    let entSet := (idMapLogs.map (fun p => p.1)).foldl
      (fun acc lid => (getEntitiesForLog g lid).foldl insertSet acc) []
    let idMapEnts := (sortStrList entSet).enum.map (fun p => (p.2, eTag (p.1 + 1)))
    let orderedLogIds := target :: evidence.map (fun it => it.log_id)
    let logNodes := orderedLogIds.foldl
      (fun acc lid =>
        match g.logs lid with
        | none => acc
        | some ln => acc ++ [PackNode.log ((zGet idMapLogs lid).getD []) ln.ts_sec ln.severity])
      []
    let entNodes := idMapEnts.map (fun p => PackNode.entity p.2 (classify_entity_type p.1) p.1)
    let now := tgt.ts_sec
    let structPass := packStructEdges cfg g now orderedLogIds idMapLogs idMapEnts
    let timePass := packTimeEdges cfg g now orderedLogIds idMapLogs structPass
    some {
      nodes := logNodes ++ entNodes,
      edges := timePass.1,
      id_map_logs := idMapLogs,
      id_map_entities := idMapEnts }

end

/-! ## `pipeline.py` (per-record flow) -/

structure LogRecord where
  log_id : ℤ
  ts_sec : ℤ
  message : Str
  true_label : ℤ

structure PipeState where
  graph : GraphState
  rf : TokenRecurrenceCounter
  trigger : TriggerEngine

/-- `RecallPipeline.__init__` (graph, extractor counter, trigger engine). -/
def initPipeState (cfg : RecallConfig) : PipeState :=
  { graph := {}, rf := { window_sec := cfg.delta_t_sec }, trigger := TriggerEngine.init cfg }

/-- The per-record output fields that the claims mention (`prediction` and
`prompt_len`, which depend only on the disabled external LLM, are not
modelled). -/
structure RecordOutput where
  log_id : ℤ
  triggered : Bool
  trigger_by : Str
  severity : ℤ
  entities_stat : List Str
  entities_stat_validated : List Str
  entities_sem : List Str
  entities_final : List Str
  retrieval_ids : Option (List ℤ)
  pack : Option GraphPack

section
open Classical

/-- One iteration of `RecallPipeline.process`: severity, extraction,
`add_log`, `tick`, trigger check, and — when triggered — retrieval and
evidence-pack construction.  `semOracle` is the decoded response of the
external semantic validator for this record (`none` when the semantic
channel is disabled or absent). -/
noncomputable def processRecord (cfg : RecallConfig) (st : PipeState)
    (rec : LogRecord) (semOracle : Option PyVal) : RecordOutput × PipeState :=
  let ts := rec.ts_sec
  let msg := rec.message
  let sev := severity_level cfg msg
  let er := extract_entities cfg st.rf ts msg semOracle
  let g1 := addLog cfg st.graph rec.log_id ts msg er.1.final sev
  let g2 := tick cfg g1 ts
  let tr := TriggerEngine.check cfg st.trigger ts msg
  let retr := if tr.1.triggered then some (dualPathRetrieve cfg g2 rec.log_id) else none
  let packOpt := match retr with
    | some ev => buildEvidencePack cfg g2 rec.log_id ev
    | none => none
  ({ log_id := rec.log_id,
     triggered := tr.1.triggered,
     trigger_by := tr.1.by_,
     severity := sev,
     entities_stat := sortStrList er.1.estat,
     entities_stat_validated := sortStrList er.1.estat_validated,
     entities_sem := sortStrList er.1.esem,
     entities_final := sortStrList er.1.final,
     retrieval_ids := retr.map (fun ev => ev.map (fun e => e.log_id)),
     pack := packOpt },
   { graph := g2, rf := er.2, trigger := tr.2 })

/-- `RecallPipeline.process` over a list of records with their semantic
oracles, accumulating the per-record outputs. -/
noncomputable def runPipeline (cfg : RecallConfig) :
    List (LogRecord × Option PyVal) → PipeState → List RecordOutput × PipeState
  | [], st => ([], st)
  | (rec, sem) :: rest, st =>
    let r := processRecord cfg st rec sem
    let rs := runPipeline cfg rest r.2
    (r.1 :: rs.1, rs.2)

end

/-! ## Concrete instances used by counterexamples and witnesses -/

/-- Negative evidence budget, everything else default. -/
def cfgNegNmax : RecallConfig := { evidence_budget_nmax := -1 }

/-- `theta_w = 1` exactly, everything else default. -/
def cfgThetaOne : RecallConfig := { theta_w := 1 }

/-- `theta_w = 2`, everything else default. -/
def cfgThetaTwo : RecallConfig := { theta_w := 2 }

/-- The normalized dedup key used by retrieval. -/
def dedupKey (cfg : RecallConfig) (msg : Str) : Str :=
  normalize_message_for_dedup msg cfg.dedup_case_insensitive

/-- Invariant of the dedup fold of `dual_path_retrieve`: every map entry is
a processed candidate carrying its own nonempty key; keys are pairwise
distinct; and every processed resident candidate with a nonempty key is
dominated, in timestamp, by the map entry of its key. -/
def dedupInv (cfg : RecallConfig) (g : GraphState) (processed : List ℤ)
    (m : List (Str × ℤ)) : Prop :=
  (∀ p ∈ m, p.2 ∈ processed ∧ p.1 ≠ [] ∧
    ∃ ln, g.logs p.2 = some ln ∧ dedupKey cfg ln.message = p.1) ∧
  List.Pairwise (fun p q => p.1 ≠ q.1) m ∧
  (∀ lid ∈ processed, ∀ ln, g.logs lid = some ln →
    dedupKey cfg ln.message ≠ [] →
    ∃ p ∈ m, p.1 = dedupKey cfg ln.message ∧
      ∀ ln0, g.logs p.2 = some ln0 → ln.ts_sec ≤ ln0.ts_sec)

/-- A single resident log carrying one entity `abc`. -/
def gOneEnt : GraphState :=
  { step := 1,
    logs := fun i => if i = 0 then
      some { log_id := 0, ts_sec := 1000, message := "abc def".data, severity := 0 } else none,
    entities := [("abc".data,
      { value := "abc".data, etype := "token".data, activity := 1, last_step := 1,
        last_seen_ts := 1000 })],
    log_to_entities := fun i => if i = 0 then ["abc".data] else [],
    entity_to_logs := fun e => if e = "abc".data then [0] else [],
    log_window := [0],
    last_log_id := some 0 }


/-! ## Chain invariant of the dynamic graph (C5) -/

/-- Totalized timestamp view of a resident log (absent logs read 0). -/
def tsv (g : GraphState) (lid : ℤ) : ℤ :=
  ((g.logs lid).map (fun ln => ln.ts_sec)).getD 0

/-- The `next` pointer of a log (`none` = not resident). -/
def nxt (g : GraphState) (lid : ℤ) : Option (Option ℤ) :=
  (g.logs lid).map (fun ln => ln.next_log_id)

/-- The `prev` pointer of a log (`none` = not resident). -/
def prv (g : GraphState) (lid : ℤ) : Option (Option ℤ) :=
  (g.logs lid).map (fun ln => ln.prev_log_id)

/-- The ids of `l` are resident and `next`-linked in order, ending at
`None`. -/
def chainNext (g : GraphState) : List ℤ → Prop
  | [] => True
  | [a] => nxt g a = some none
  | a :: b :: rest => nxt g a = some (some b) ∧ chainNext g (b :: rest)

/-- Fuel-bounded walk along `next` pointers (the spec traversal from the
oldest resident log). -/
def followNext (g : GraphState) : ℕ → Option ℤ → List ℤ
  | _, none => []
  | 0, some _ => []
  | fuel + 1, some lid =>
    match g.logs lid with
    | none => []
    | some ln => lid :: followNext g fuel ln.next_log_id

/-- The prev/next chain invariant maintained by `add_log`/`tick` traces:
the resident set equals the window, window ids strictly increase and
window timestamps never decrease, `mid` bounds every id seen, `lts`
bounds every resident timestamp, the window is `next`-linked ending at
`None`, `last_log_id` is the newest window entry, and the oldest
resident's `prev`, when set, points strictly below the window. -/
structure ChainInv (g : GraphState) (mid : Option ℤ) (lts : ℤ) : Prop where
  dom : ∀ lid, (g.logs lid).isSome = true ↔ lid ∈ g.log_window
  idf : ∀ lid ln, g.logs lid = some ln → ln.log_id = lid
  sorted : List.Pairwise (fun a b => a < b) g.log_window
  tsmono : List.Pairwise (fun a b => tsv g a ≤ tsv g b) g.log_window
  tsbound : ∀ l ∈ g.log_window, tsv g l ≤ lts
  idbound : ∀ l ∈ g.log_window, ∀ m, mid = some m → l ≤ m
  fresh0 : mid = none → g.log_window = [] ∧ g.last_log_id = none
  chain : chainNext g g.log_window
  lastw : g.log_window ≠ [] → g.last_log_id = g.log_window.getLast?
  lastb : ∀ l, g.last_log_id = some l → ∀ m, mid = some m → l ≤ m
  headp : ∀ a, g.log_window.head? = some a → ∀ p, prv g a = some (some p) → p < a

/-- One graph call of a C5 trace: `add_log` (with its entity list) or
`tick`. -/
inductive GOp
  | add (log_id ts_sec : ℤ) (message : Str) (entities : List Str) (severity : ℤ)
  | tick (now : ℤ)

/-- Apply one trace call to the graph. -/
noncomputable def gopApply (cfg : RecallConfig) (g : GraphState) : GOp → GraphState
  | GOp.add lid ts msg ents sev => addLog cfg g lid ts msg ents sev
  | GOp.tick now => tick cfg g now

/-- Run a trace of graph calls from `g`. -/
noncomputable def runOps (cfg : RecallConfig) (g : GraphState) : List GOp → GraphState
  | [] => g
  | op :: rest => runOps cfg (gopApply cfg g op) rest

/-- Trace validity: log ids strictly increase over the whole run and call
timestamps never decrease (`mid` = largest id used so far, `lts` = last
timestamp seen). -/
def opsValid : Option ℤ → ℤ → List GOp → Prop
  | _, _, [] => True
  | mid, lts, GOp.add lid ts _ _ _ :: rest =>
    (∀ m, mid = some m → m < lid) ∧ lts ≤ ts ∧ opsValid (some lid) ts rest
  | mid, lts, GOp.tick now :: rest => lts ≤ now ∧ opsValid mid now rest

/-- C5 counterexample configuration: explicit decay rate 1, `theta_w`
equal to `e^{-3}` (so the prune age limit is exactly 3 seconds). -/
noncomputable def cfgC5 : RecallConfig :=
  { decay_lambda := some 1, theta_w := Real.exp (-3) }

/-- add(0, t=0), add(1, t=1), add(2, t=10), tick(10): a trace with
non-decreasing timestamps and fresh increasing log ids. -/
def opsC5 : List GOp :=
  [GOp.add 0 0 "a".data [] 1, GOp.add 1 1 "b".data [] 1,
    GOp.add 2 10 "c".data [] 1, GOp.tick 10]


/-! ## Blacklist invariant (C8) -/

/-- No blacklisted entity appears in any graph incidence: every stored
`log_to_entities` member and every entity with a nonempty `entity_to_logs`
deque passes the blacklist. -/
def BlInv (cfg : RecallConfig) (g : GraphState) : Prop :=
  (∀ lid e, e ∈ g.log_to_entities lid → cfg.is_blacklisted_entity e = false) ∧
  (∀ e, g.entity_to_logs e ≠ [] → cfg.is_blacklisted_entity e = false)

/-- A GraphPack node is acceptable when it is a log node or an entity node
whose value passes the blacklist. -/
def packNodeOk (cfg : RecallConfig) : PackNode → Prop
  | PackNode.log _ _ _ => True
  | PackNode.entity _ _ v => cfg.is_blacklisted_entity v = false

/-- The blacklist guarantee of one record output: `entities_stat`,
`entities_stat_validated` and `entities_final` are blacklist-free and every
GraphPack entity node passes the blacklist (`entities_sem` is deliberately
absent: the code never filters it). -/
def outOk (cfg : RecallConfig) (o : RecordOutput) : Prop :=
  (∀ e ∈ o.entities_stat, cfg.is_blacklisted_entity e = false) ∧
  (∀ e ∈ o.entities_stat_validated, cfg.is_blacklisted_entity e = false) ∧
  (∀ e ∈ o.entities_final, cfg.is_blacklisted_entity e = false) ∧
  (∀ pk, o.pack = some pk → ∀ n ∈ pk.nodes, packNodeOk cfg n)

/-- C8 counterexample configuration: the semantic channel enabled, all
other fields (including the blacklist) default. -/
def cfgC8 : RecallConfig := { enable_semantic_channel := true }

/-- The decoded semantic-validator reply that adds the blacklisted IP. -/
def oracleC8 : PyVal :=
  PyVal.dict [("add".data, PyVal.list [PyVal.str "127.0.0.1".data])]

/-- The record whose message mentions the blacklisted IP. -/
def recC8 : LogRecord :=
  { log_id := 1, ts_sec := 1000, message := "ping 127.0.0.1".data, true_label := 1 }


/-- The scenario-S1 configuration: `T = 900`, `k = 3`, `n_max = 5`,
`theta_w = 0.05`, `decay_lambda` unset, all thresholds default (only `k`
and `n_max` differ from the defaults). -/
def cfgS1 : RecallConfig := { temporal_k := 3, evidence_budget_nmax := 5 }

/-- The single S1 record. -/
def recS1 : LogRecord :=
  { log_id := 1, ts_sec := 1000, message := "fatal error on node-7".data,
    true_label := 1 }

end Recall

namespace Recall

/-! ## Character-level lemmas -/

theorem char_eq_iff_toNat {a b : Char} : a = b ↔ a.toNat = b.toNat := by
  constructor
  · intro h
    rw [h]
  · intro h
    apply Char.eq_of_val_eq
    apply UInt32.ext
    exact h

theorem pyLower_isDigit (c : Char) : (pyLower c).isDigit = c.isDigit := by
  unfold pyLower
  split
  · next h =>
    simp only [Bool.and_eq_true, decide_eq_true_eq] at h
    obtain ⟨h1, h2⟩ := h
    have hv1 : 65 ≤ c.toNat := h1
    have hv2 : c.toNat ≤ 90 := h2
    have hvalid : (c.toNat + 32).isValidChar := by
      left
      omega
    have hval : (Char.ofNat (c.toNat + 32)).toNat = c.toNat + 32 := by
      simp only [Char.toNat] at hvalid ⊢
      rw [Char.ofNat, dif_pos hvalid]
      rfl
    have hdig : (Char.ofNat (c.toNat + 32)).isDigit = false := by
      have hn : ¬ (Char.ofNat (c.toNat + 32)).val ≤ 57 := fun hle =>
        absurd (show (Char.ofNat (c.toNat + 32)).toNat ≤ 57 from hle) (by omega)
      simp [Char.isDigit, decide_eq_false hn]
    have hcd : c.isDigit = false := by
      have hn : ¬ c.val ≤ 57 := fun hle =>
        absurd (show c.toNat ≤ 57 from hle) (by omega)
      simp [Char.isDigit, decide_eq_false hn]
    rw [hdig, hcd]
  · rfl

theorem pyLower_toNat (c : Char) :
    (pyLower c).toNat = if 65 ≤ c.toNat ∧ c.toNat ≤ 90 then c.toNat + 32 else c.toNat := by
  unfold pyLower
  split
  · next h =>
    simp only [Bool.and_eq_true, decide_eq_true_eq] at h
    obtain ⟨h1, h2⟩ := h
    have hv1 : 65 ≤ c.toNat := h1
    have hv2 : c.toNat ≤ 90 := h2
    have hvalid : (c.toNat + 32).isValidChar := by
      left
      omega
    rw [if_pos ⟨hv1, hv2⟩]
    simp only [Char.toNat] at hvalid ⊢
    rw [Char.ofNat, dif_pos hvalid]
    rfl
  · next h =>
    simp only [Bool.and_eq_true, decide_eq_true_eq, not_and] at h
    rw [if_neg]
    intro hc
    obtain ⟨h1, h2⟩ := hc
    exact absurd (show c ≤ 'Z' from h2) (fun hle => h (show 'A' ≤ c from h1) hle)

theorem pyLower_pyLower (c : Char) : pyLower (pyLower c) = pyLower c := by
  rw [char_eq_iff_toNat, pyLower_toNat (pyLower c), pyLower_toNat c]
  by_cases h : 65 ≤ c.toNat ∧ c.toNat ≤ 90
  · simp only [if_pos h]
    rw [if_neg (by omega)]
  · simp only [if_neg h]

theorem pyIsSpace_toNat (c : Char) :
    pyIsSpace c = (decide (c.toNat = 32) || decide (c.toNat = 9) || decide (c.toNat = 10)
      || decide (c.toNat = 13) || decide (c.toNat = 11) || decide (c.toNat = 12)) := by
  have hbeq : ∀ d : Char, (c == d) = decide (c.toNat = d.toNat) := by
    intro d
    rcases Decidable.em (c = d) with h | h
    · simp [h]
    · rw [beq_eq_false_iff_ne.mpr h, decide_eq_false]
      exact fun hn => h (char_eq_iff_toNat.mpr hn)
  unfold pyIsSpace
  rw [hbeq ' ', hbeq '\t', hbeq '\n', hbeq '\r', hbeq '\x0b', hbeq '\x0c']
  rfl

theorem pyIsSpace_pyLower (c : Char) : pyIsSpace (pyLower c) = pyIsSpace c := by
  rw [pyIsSpace_toNat, pyIsSpace_toNat c, pyLower_toNat]
  split
  · next h =>
    have h32 : ¬ c.toNat + 32 = 32 := by omega
    have h9 : ¬ c.toNat + 32 = 9 := by omega
    have h10 : ¬ c.toNat + 32 = 10 := by omega
    have h13 : ¬ c.toNat + 32 = 13 := by omega
    have h11 : ¬ c.toNat + 32 = 11 := by omega
    have h12 : ¬ c.toNat + 32 = 12 := by omega
    have g32 : ¬ c.toNat = 32 := by omega
    have g9 : ¬ c.toNat = 9 := by omega
    have g10 : ¬ c.toNat = 10 := by omega
    have g13 : ¬ c.toNat = 13 := by omega
    have g11 : ¬ c.toNat = 11 := by omega
    have g12 : ¬ c.toNat = 12 := by omega
    simp [h32, h9, h10, h13, h11, h12, g32, g9, g10, g13, g11, g12]
  · rfl

/-! ## Masking-pipeline lemmas for the idempotence claim -/

/-- `subNumAux` in search state is the identity on digit-free strings. -/
theorem subNumAux_id_of_noDigit (s : Str) (h : ∀ c ∈ s, c.isDigit = false) :
    ∀ pw, subNumAux (Sum.inl pw) s = s := by
  induction s with
  | nil => intro pw; rfl
  | cons c t ih =>
    intro pw
    have hc : c.isDigit = false := h c (List.mem_cons_self c t)
    unfold subNumAux
    rw [hc]
    simp only [Bool.false_and, Bool.false_eq_true, if_false]
    rw [ih (fun x hx => h x (List.mem_cons_of_mem c hx))]

/-- `subHexAux` in search state is the identity on digit-free strings
(a match must begin with the digit `0`). -/
theorem subHexAux_id_of_noDigit (s : Str) (h : ∀ c ∈ s, c.isDigit = false) :
    ∀ pw, subHexAux (.scan pw) s = s := by
  induction s with
  | nil => intro pw; rfl
  | cons c t ih =>
    intro pw
    have hc : c.isDigit = false := h c (List.mem_cons_self c t)
    have hc0 : (c == '0') = false := by
      apply beq_eq_false_iff_ne.mpr
      intro he
      rw [he] at hc
      exact absurd hc (by decide)
    unfold subHexAux
    rw [hc0]
    simp only [Bool.false_and, Bool.false_eq_true, if_false]
    rw [ih (fun x hx => h x (List.mem_cons_of_mem c hx))]

theorem mem_stripStr {c : Char} {s : Str} (h : c ∈ stripStr s) : c ∈ s := by
  unfold stripStr at h
  rw [List.mem_reverse] at h
  have h1 := (List.dropWhile_sublist pyIsSpace).mem h
  rw [List.mem_reverse] at h1
  exact (List.dropWhile_sublist pyIsSpace).mem h1

theorem mem_collapseWsGo {c : Char} :
    ∀ (b : Bool) (s : Str), c ∈ collapseWsGo b s → c = ' ' ∨ c ∈ s := by
  intro b s
  induction s generalizing b with
  | nil => intro h; exact absurd h (List.not_mem_nil c)
  | cons d t ih =>
    intro h
    unfold collapseWsGo at h
    split at h
    · split at h
      · rcases ih true h with h1 | h1
        · exact Or.inl h1
        · exact Or.inr (List.mem_cons_of_mem d h1)
      · rcases List.mem_cons.mp h with h1 | h1
        · exact Or.inl h1
        · rcases ih true h1 with h2 | h2
          · exact Or.inl h2
          · exact Or.inr (List.mem_cons_of_mem d h2)
    · rcases List.mem_cons.mp h with h1 | h1
      · exact Or.inr (h1 ▸ List.mem_cons_self d t)
      · rcases ih false h1 with h2 | h2
        · exact Or.inl h2
        · exact Or.inr (List.mem_cons_of_mem d h2)

/-- Nothing is whitespace-headed after `dropWhile pyIsSpace`. -/
theorem head_dropWhile_false {p : Char → Bool} :
    ∀ (s : Str) (c : Char), (s.dropWhile p).head? = some c → p c = false := by
  intro s
  induction s with
  | nil => intro c h; exact absurd h (by simp)
  | cons d t ih =>
    intro c h
    rw [List.dropWhile_cons] at h
    split at h
    · exact ih c h
    · next hp =>
      simp only [List.head?_cons, Option.some.injEq] at h
      rw [← h]
      exact Bool.not_eq_true _ ▸ Bool.of_not_eq_true hp

theorem dropWhile_eq_self_of_head {p : Char → Bool} (s : Str)
    (h : ∀ c, s.head? = some c → p c = false) : s.dropWhile p = s := by
  cases s with
  | nil => rfl
  | cons d t =>
    rw [List.dropWhile_cons, if_neg]
    rw [h d rfl]
    simp

/-- `dropWhile` keeps the last element of a list when the result is nonempty. -/
theorem getLast?_dropWhile {p : Char → Bool} :
    ∀ (s : Str), s.dropWhile p ≠ [] → (s.dropWhile p).getLast? = s.getLast? := by
  intro s
  induction s with
  | nil => intro h; rfl
  | cons d t ih =>
    intro h
    rw [List.dropWhile_cons] at h ⊢
    by_cases hp : p d = true
    · rw [if_pos hp] at h ⊢
      cases t with
      | nil => exact absurd rfl h
      | cons y t' => rw [ih h, List.getLast?_cons_cons]
    · rw [if_neg hp]

def noLead (s : Str) : Prop := ∀ c, s.head? = some c → pyIsSpace c = false
def noTrail (s : Str) : Prop := ∀ c, s.getLast? = some c → pyIsSpace c = false

theorem stripStr_eq_self {s : Str} (h1 : noLead s) (h2 : noTrail s) : stripStr s = s := by
  unfold stripStr
  rw [dropWhile_eq_self_of_head s h1]
  rw [dropWhile_eq_self_of_head s.reverse (fun c hc => h2 c (by rw [← List.head?_reverse]; exact hc))]
  exact List.reverse_reverse s

theorem noLead_stripStr (s : Str) : noLead (stripStr s) := by
  intro c hc
  unfold stripStr at hc
  rw [List.head?_reverse] at hc
  have hne : (s.dropWhile pyIsSpace).reverse.dropWhile pyIsSpace ≠ [] := by
    intro he
    rw [he] at hc
    exact Option.noConfusion hc
  rw [getLast?_dropWhile _ hne, List.getLast?_reverse] at hc
  exact head_dropWhile_false s c hc

theorem noTrail_stripStr (s : Str) : noTrail (stripStr s) := by
  intro c hc
  unfold stripStr at hc
  rw [List.getLast?_reverse] at hc
  exact head_dropWhile_false _ c hc

theorem noLead_lowerStr {s : Str} (h : noLead s) : noLead (lowerStr s) := by
  intro c hc
  unfold lowerStr at hc
  rw [List.head?_map] at hc
  cases hh : s.head? with
  | none => rw [hh] at hc; exact Option.noConfusion hc
  | some d =>
    rw [hh] at hc
    simp only [Option.map_some', Option.some.injEq] at hc
    rw [← hc, pyIsSpace_pyLower]
    exact h d hh

theorem noTrail_lowerStr {s : Str} (h : noTrail s) : noTrail (lowerStr s) := by
  intro c hc
  unfold lowerStr at hc
  rw [List.getLast?_map] at hc
  cases hh : s.getLast? with
  | none => rw [hh] at hc; exact Option.noConfusion hc
  | some d =>
    rw [hh] at hc
    simp only [Option.map_some', Option.some.injEq] at hc
    rw [← hc, pyIsSpace_pyLower]
    exact h d hh

theorem collapseWsGo_cons (b : Bool) (d : Char) (t : Str) :
    collapseWsGo b (d :: t) =
      if pyIsSpace d = true then
        (if b = true then collapseWsGo true t else ' ' :: collapseWsGo true t)
      else d :: collapseWsGo false t := rfl

theorem noLead_collapseWs {s : Str} (h : noLead s) : noLead (collapseWs s) := by
  intro c hc
  cases s with
  | nil => exact Option.noConfusion hc
  | cons d t =>
    have hd : pyIsSpace d = false := h d rfl
    unfold collapseWs at hc
    rw [collapseWsGo_cons, if_neg (by rw [hd]; exact Bool.false_ne_true)] at hc
    simp only [List.head?_cons, Option.some.injEq] at hc
    rw [← hc]
    exact hd

/-- Non-space characters survive `collapseWsGo`. -/
theorem mem_collapseWsGo_of_mem {c : Char} (hcs : pyIsSpace c = false) :
    ∀ (b : Bool) (s : Str), c ∈ s → c ∈ collapseWsGo b s := by
  intro b s
  induction s generalizing b with
  | nil => intro h; exact absurd h (List.not_mem_nil c)
  | cons d t ih =>
    intro h
    unfold collapseWsGo
    rcases List.mem_cons.mp h with h1 | h1
    · rw [← h1, hcs]
      simp only [Bool.false_eq_true, if_false]
      exact List.mem_cons_self c _
    · split
      · split
        · exact ih true h1
        · exact List.mem_cons_of_mem ' ' (ih true h1)
      · exact List.mem_cons_of_mem d (ih false h1)

theorem collapseWsGo_ne_nil {s : Str} {c : Char} (hc : c ∈ s) (hcs : pyIsSpace c = false)
    (b : Bool) : collapseWsGo b s ≠ [] := by
  intro he
  exact absurd (he ▸ mem_collapseWsGo_of_mem hcs b s hc) (List.not_mem_nil c)

theorem getLast?_cons_of_ne_nil {c : Char} {t : Str} (ht : t ≠ []) :
    (c :: t).getLast? = t.getLast? := by
  cases t with
  | nil => exact absurd rfl ht
  | cons y t' => exact List.getLast?_cons_cons

theorem noTrail_collapseWsGo {s : Str} (h : noTrail s) :
    ∀ b, noTrail (collapseWsGo b s) := by
  induction s with
  | nil => intro b c hc; exact Option.noConfusion hc
  | cons d t ih =>
    intro b c hc
    by_cases ht : t = []
    · subst ht
      have hd : pyIsSpace d = false := h d rfl
      rw [collapseWsGo_cons, if_neg (by rw [hd]; exact Bool.false_ne_true)] at hc
      have hcd : some d = some c := hc
      cases hcd
      exact hd
    · have htr : noTrail t := fun x hx => h x ((getLast?_cons_of_ne_nil ht).symm ▸ hx)
      obtain ⟨e, he⟩ : ∃ e, t.getLast? = some e := by
        cases hg : t.getLast? with
        | none => exact absurd (List.getLast?_eq_none_iff.mp hg) ht
        | some x => exact ⟨x, rfl⟩
      have hes : pyIsSpace e = false := htr e he
      have hem : e ∈ t := by
        rcases List.getLast?_eq_some_iff.mp he with ⟨ys, hys⟩
        rw [hys]
        exact List.mem_append_right ys (List.mem_cons_self e [])
      rw [collapseWsGo_cons] at hc
      by_cases hd : pyIsSpace d = true
      · rw [if_pos hd] at hc
        by_cases hb : b = true
        · rw [if_pos hb] at hc
          exact ih htr true c hc
        · rw [if_neg hb] at hc
          rw [getLast?_cons_of_ne_nil (collapseWsGo_ne_nil hem hes true)] at hc
          exact ih htr true c hc
      · rw [if_neg hd] at hc
        rw [getLast?_cons_of_ne_nil (collapseWsGo_ne_nil hem hes false)] at hc
        exact ih htr false c hc

/-- `collapseWsGo false` absorbs a previous pass of `collapseWsGo`. -/
theorem collapseWsGo_absorb :
    ∀ (s : Str), (collapseWsGo false (collapseWsGo true s) = collapseWsGo true s
      ∧ collapseWsGo true (collapseWsGo true s) = collapseWsGo true s)
      ∧ ∀ b, collapseWsGo false (collapseWsGo b s) = collapseWsGo b s := by
  intro s
  induction s with
  | nil => exact ⟨⟨rfl, rfl⟩, fun b => rfl⟩
  | cons d t ih =>
    obtain ⟨⟨ihf, iht⟩, ihb⟩ := ih
    by_cases hd : pyIsSpace d = true
    · have e1 : collapseWsGo true (d :: t) = collapseWsGo true t := by
        rw [collapseWsGo_cons, if_pos hd, if_pos rfl]
      have e0 : collapseWsGo false (d :: t) = ' ' :: collapseWsGo true t := by
        rw [collapseWsGo_cons, if_pos hd, if_neg Bool.false_ne_true]
      refine ⟨⟨?_, ?_⟩, ?_⟩
      · rw [e1, ihf]
      · rw [e1, iht]
      · intro b
        cases b with
        | true => rw [e1, ihf]
        | false =>
          rw [e0, collapseWsGo_cons, if_pos (show pyIsSpace ' ' = true by decide),
            if_neg Bool.false_ne_true, iht]
    · have step : ∀ (b : Bool) (x : Str), collapseWsGo b (d :: x) = d :: collapseWsGo false x := by
        intro b x
        rw [collapseWsGo_cons, if_neg hd]
      refine ⟨⟨?_, ?_⟩, ?_⟩
      · rw [step true, step false, ihb false]
      · rw [step true, step true, ihb false]
      · intro b
        rw [step b, step false, ihb false]

theorem collapseWs_idem (s : Str) : collapseWs (collapseWs s) = collapseWs s :=
  (collapseWsGo_absorb s).2 false

theorem lowerStr_fixed {s : Str} (h : ∀ c ∈ s, pyLower c = c) : lowerStr s = s := by
  unfold lowerStr
  exact List.map_congr_left h |>.trans (List.map_id s)

/-- The characters of `collapseWs (lowerStr x)` are all fixed by `pyLower`. -/
theorem mask_chars_lower_fixed {x : Str} {c : Char}
    (h : c ∈ collapseWs (lowerStr x)) : pyLower c = c := by
  rcases mem_collapseWsGo false (lowerStr x) h with h1 | h1
  · rw [h1]
    decide
  · unfold lowerStr at h1
    rcases List.mem_map.mp h1 with ⟨d, _, hd⟩
    rw [← hd]
    exact pyLower_pyLower d

/-- For digit-free input both regex substitutions are the identity, so the
mask reduces to strip, lower-case and whitespace collapse. -/
theorem mask_eq_of_noDigit {msg : Str} (h : ∀ c ∈ msg, c.isDigit = false) :
    mask_for_template_key msg = collapseWs (lowerStr (stripStr msg)) := by
  have h1 : ∀ c ∈ stripStr msg, c.isDigit = false := fun c hc => h c (mem_stripStr hc)
  have h2 : ∀ c ∈ lowerStr (stripStr msg), c.isDigit = false := by
    intro c hc
    rcases List.mem_map.mp hc with ⟨d, hd, hdc⟩
    rw [← hdc, pyLower_isDigit]
    exact h1 d hd
  unfold mask_for_template_key subHex subNum
  rw [subHexAux_id_of_noDigit _ h2 false, subNumAux_id_of_noDigit _ h2 false]

/-- C3 (counterexample): the claim "`mask_for_template_key` is idempotent for
every string" fails at the one-character message `"5"`: the first application
yields the upper-case placeholder `<NUM>`, while the second application
lower-cases it to `<num>`. -/
theorem claim_C3_counterexample :
    mask_for_template_key (mask_for_template_key "5".data) ≠
      mask_for_template_key "5".data := by
  decide

/-- C3 (amended): `mask_for_template_key` is idempotent on every message that
contains no decimal digit (such messages admit neither a `\d+` match nor a
`0x...` match, so no case-sensitive placeholder is inserted); on messages
with digits or hexadecimal literals a second application lower-cases the
inserted `<NUM>`/`<HEX>` placeholders. -/
theorem claim_C3_amended (msg : Str) (h : ∀ c ∈ msg, c.isDigit = false) :
    mask_for_template_key (mask_for_template_key msg) = mask_for_template_key msg := by
  rw [mask_eq_of_noDigit h]
  have hnl : noLead (collapseWs (lowerStr (stripStr msg))) :=
    noLead_collapseWs (noLead_lowerStr (noLead_stripStr msg))
  have hnt : noTrail (collapseWs (lowerStr (stripStr msg))) :=
    noTrail_collapseWsGo (noTrail_lowerStr (noTrail_stripStr msg)) false
  have hnd : ∀ c ∈ collapseWs (lowerStr (stripStr msg)), c.isDigit = false := by
    intro c hc
    rcases mem_collapseWsGo false (lowerStr (stripStr msg)) hc with h1 | h1
    · rw [h1]
      decide
    · rcases List.mem_map.mp h1 with ⟨d, hd, hdc⟩
      rw [← hdc, pyLower_isDigit]
      exact h d (mem_stripStr hd)
  have hfix : lowerStr (collapseWs (lowerStr (stripStr msg)))
      = collapseWs (lowerStr (stripStr msg)) :=
    lowerStr_fixed (fun c hc => mask_chars_lower_fixed hc)
  unfold mask_for_template_key subHex subNum
  rw [stripStr_eq_self hnl hnt, hfix,
    subHexAux_id_of_noDigit _ hnd false, subNumAux_id_of_noDigit _ hnd false]
  exact collapseWs_idem (lowerStr (stripStr msg))

/-- C3 (witness): the amended idempotence at the digit-free message
`" Disk  WARN failed "`. -/
theorem claim_C3_witness :
    (∀ c ∈ (" Disk  WARN failed ".data : Str), c.isDigit = false) ∧
      mask_for_template_key (mask_for_template_key " Disk  WARN failed ".data) =
        mask_for_template_key " Disk  WARN failed ".data :=
  ⟨by decide, claim_C3_amended " Disk  WARN failed ".data (by decide)⟩

/-- C4: under the default configuration the dotted-timestamp token
`2005-06-03-15.42.50.363779` is *not* matched by any `token_drop_regex`:
the default pattern is doubly escaped in `config.py`, so it only matches
strings built from literal backslashes and the letter `d`.  The claim says
`should_drop_token` returns `true` on such tokens; the code returns
`false`. -/
theorem claim_C4_eval :
    defaultConfig.should_drop_token "2005-06-03-15.42.50.363779".data = false := by
  decide

/-! ## Burst-detector lemmas -/

/-- Evicting from a queue that contains no entry for `key` (except a final
non-expired one) leaves the count of `key` unchanged. -/
theorem tbdEvictGo_preserve {key : Str} {cutoff ts : ℤ} (hts : ¬ ts < cutoff) :
    ∀ (q : List (ℤ × Str)) (w : Str → ℤ), (∀ e ∈ q, e.2 ≠ key) →
      (tbdEvictGo cutoff (q ++ [(ts, key)]) w).2 key = w key := by
  intro q
  induction q with
  | nil =>
    intro w _
    simp only [List.nil_append]
    unfold tbdEvictGo
    rw [if_neg hts]
  | cons e rest ih =>
    intro w hq
    obtain ⟨t0, k0⟩ := e
    have hk0 : k0 ≠ key := hq (t0, k0) (List.mem_cons_self _ _)
    simp only [List.cons_append]
    unfold tbdEvictGo
    by_cases h0 : t0 < cutoff
    · rw [if_pos h0, ih _ (fun e he => hq e (List.mem_cons_of_mem _ he))]
      exact if_neg (fun h => hk0 h.symm)
    · rw [if_neg h0]

/-- C9: on the first observation of a (non-empty) template key,
`push_and_check` initialises the key's EMA state to `mean = x`, `var = 0`
(the windowed count `x` is 1) and does not fire, for every window size,
alpha and sigma: the threshold evaluates to `x + sigma·0 = 1 ≤ 1`. -/
theorem claim_C9 (st : TemplateBurstDetector) (ts : ℤ) (key : Str)
    (hkey : key ≠ []) (hema : st.ema key = none) (hcnt : st.win_counts key = 0)
    (hq : ∀ e ∈ st.q, e.2 ≠ key) :
    (st.push_and_check ts key).1 = false ∧
      (st.push_and_check ts key).2.ema key = some { mean := 1, var := 0 } := by
  unfold TemplateBurstDetector.push_and_check
  have hke : key.isEmpty = false := by
    cases key with
    | nil => exact absurd rfl hkey
    | cons a t => rfl
  rw [hke]
  simp only [Bool.false_eq_true, if_false]
  have hwin : (if st.burst_window_sec ≤ 0
      then (st.q ++ [(ts, key)], fun x => if x = key then st.win_counts key + 1 else st.win_counts x)
      else tbdEvictGo (ts - st.burst_window_sec) (st.q ++ [(ts, key)])
        (fun x => if x = key then st.win_counts key + 1 else st.win_counts x)).2 key = 1 := by
    by_cases hw : st.burst_window_sec ≤ 0
    · rw [if_pos hw]
      simp [hcnt]
    · rw [if_neg hw]
      have hts : ¬ ts < ts - st.burst_window_sec := by omega
      rw [tbdEvictGo_preserve hts st.q _ hq]
      simp [hcnt]
  rw [hwin, hema]
  have hx : ((1 : ℤ) : ℝ) = 1 := by norm_num
  rw [hx]
  have hstd : Real.sqrt (max (0 : ℝ) 0) = 0 := by
    rw [max_self, Real.sqrt_zero]
  constructor
  · show (if (1 : ℝ) + st.sigma * Real.sqrt (max 0 0) ≤ 1 then false
      else if (1 : ℝ) > 1 + st.sigma * Real.sqrt (max 0 0) then true else false) = false
    rw [hstd]
    rw [if_pos (by norm_num)]
  · simp

/-- C9 (witness): a fresh detector with default parameters does not fire on
the first observation of the key `"a"` and initialises its EMA state. -/
theorem claim_C9_witness :
    ((({ burst_window_sec := 300, ema_alpha := 0.01, sigma := 3.0 } :
        TemplateBurstDetector).push_and_check 1000 "a".data).1 = false ∧
      ((({ burst_window_sec := 300, ema_alpha := 0.01, sigma := 3.0 } :
        TemplateBurstDetector).push_and_check 1000 "a".data)).2.ema "a".data =
        some { mean := 1, var := 0 }) :=
  claim_C9 _ 1000 "a".data (by decide) rfl rfl (by intro e he; exact absurd he (List.not_mem_nil e))

/-- C10: when the severity trigger is enabled and some trigger keyword
occurs in the lower-cased message, `TriggerEngine.check` returns
`triggered=true, by="severity"` and returns the engine unchanged: the burst
detector is not pushed, so its sliding window and EMA state are exactly
those of the input engine. -/
theorem claim_C10 (cfg : RecallConfig) (eng : TriggerEngine) (ts : ℤ) (msg : Str)
    (hsev : cfg.enable_severity_trigger = true)
    (hkw : cfg.trigger_keywords.any (fun kw => containsSub (lowerStr msg) kw) = true) :
    TriggerEngine.check cfg eng ts msg =
      ({ triggered := true, by_ := "severity".data, template_key := none }, eng) := by
  unfold TriggerEngine.check
  rw [hsev, hkw]
  rfl

/-- C10 (witness): the default configuration on the message `"Fatal x"`:
the keyword `fatal` fires the severity trigger and the engine state is
returned unchanged. -/
theorem claim_C10_witness :
    TriggerEngine.check defaultConfig (TriggerEngine.init defaultConfig) 5 "Fatal x".data =
      ({ triggered := true, by_ := "severity".data, template_key := none },
        TriggerEngine.init defaultConfig) :=
  claim_C10 defaultConfig (TriggerEngine.init defaultConfig) 5 "Fatal x".data rfl (by decide)

/-! ## Edge-weight bounds -/

theorem edgeWeight_pos (cfg : RecallConfig) (a b : ℤ) : 0 < edgeWeight cfg a b := by
  unfold edgeWeight
  by_cases h : lamOf cfg ≤ 0
  · rw [if_pos h]
    norm_num
  · rw [if_neg h]
    exact Real.exp_pos _

theorem edgeWeight_le_one (cfg : RecallConfig) (a b : ℤ) : edgeWeight cfg a b ≤ 1 := by
  unfold edgeWeight
  by_cases h : lamOf cfg ≤ 0
  · rw [if_pos h]
  · rw [if_neg h]
    rw [Real.exp_le_one_iff]
    have hl : 0 < lamOf cfg := lt_of_not_le h
    have hd : (0 : ℝ) ≤ ((max 0 (b - a) : ℤ) : ℝ) := by
      exact_mod_cast le_max_left 0 (b - a)
    nlinarith

theorem structural_edge_weight_nonneg (cfg : RecallConfig) (g : GraphState)
    (lid : ℤ) (e : Str) (now : ℤ) : 0 ≤ structural_edge_weight cfg g lid e now := by
  unfold structural_edge_weight
  cases hx : g.logs lid with
  | none => simp
  | some ln => exact (edgeWeight_pos cfg ln.ts_sec now).le

theorem structural_edge_weight_le_one (cfg : RecallConfig) (g : GraphState)
    (lid : ℤ) (e : Str) (now : ℤ) : structural_edge_weight cfg g lid e now ≤ 1 := by
  unfold structural_edge_weight
  cases hx : g.logs lid with
  | none => simp
  | some ln => exact edgeWeight_le_one cfg ln.ts_sec now

theorem temporal_edge_weight_nonneg (cfg : RecallConfig) (g : GraphState)
    (src dst : ℤ) (now : ℤ) : 0 ≤ temporal_edge_weight cfg g src dst now := by
  unfold temporal_edge_weight
  cases hx : g.logs dst with
  | none => simp
  | some ln => exact (edgeWeight_pos cfg ln.ts_sec now).le

theorem temporal_edge_weight_le_one (cfg : RecallConfig) (g : GraphState)
    (src dst : ℤ) (now : ℤ) : temporal_edge_weight cfg g src dst now ≤ 1 := by
  unfold temporal_edge_weight
  cases hx : g.logs dst with
  | none => simp
  | some ln => exact edgeWeight_le_one cfg ln.ts_sec now

/-! ## C2: GraphPack edge suppression -/

theorem foldl_preserves {σ γ : Type _} {P : σ → Prop} (f : σ → γ → σ)
    (h : ∀ st x, P st → P (f st x)) :
    ∀ (l : List γ) (st : σ), P st → P (l.foldl f st) := by
  intro l
  induction l with
  | nil =>
    intro st hst
    exact hst
  | cons a t ih =>
    intro st hst
    exact ih _ (h st a hst)

theorem packStructEdges_fst_of_theta {cfg : RecallConfig} (h : 1 < cfg.theta_w)
    (g : GraphState) (now : ℤ) (ids : List ℤ) (ml : List (ℤ × Str))
    (me : List (Str × Str)) : (packStructEdges cfg g now ids ml me).1 = [] := by
  unfold packStructEdges
  apply @foldl_preserves _ _ (fun st : List PackEdge × ℕ => st.1 = []) _ ?_ ids ([], 1) rfl
  intro st lid hst
  apply @foldl_preserves _ _ (fun st : List PackEdge × ℕ => st.1 = []) _ ?_ _ st hst
  intro st2 e hst2
  cases hg : sGet me e with
  | none => exact hst2
  | some eid =>
    dsimp only
    rw [if_pos (lt_of_le_of_lt (structural_edge_weight_le_one cfg g lid e now) h)]
    exact hst2

theorem packTimeEdges_fst_of_theta {cfg : RecallConfig} (h : 1 < cfg.theta_w)
    (g : GraphState) (now : ℤ) (ids : List ℤ) (ml : List (ℤ × Str))
    (init : List PackEdge × ℕ) : (packTimeEdges cfg g now ids ml init).1 = init.1 := by
  unfold packTimeEdges
  apply @foldl_preserves _ _ (fun st : List PackEdge × ℕ => st.1 = init.1) _ ?_ ids init rfl
  intro st lid hst
  cases hg : g.logs lid with
  | none => exact hst
  | some ln =>
    dsimp only
    cases hn : ln.next_log_id with
    | none => exact hst
    | some nx =>
      dsimp only
      by_cases hm : nx ∉ ids
      · rw [if_pos hm]
        exact hst
      · rw [if_neg hm]
        rw [if_pos (lt_of_le_of_lt (temporal_edge_weight_le_one cfg g lid nx now) h)]
        exact hst

/-- C2 (amended): for every configuration with `theta_w > 1` (strictly), and
every graph state and evidence list, `build_evidence_pack` emits a GraphPack
with no edges: every candidate weight is at most 1, hence below the
threshold.  At `theta_w = 1` exactly the claim fails, because a zero-age (or
`lam ≤ 0`) edge has weight exactly 1, which passes the `w < theta_w` skip
test. -/
theorem claim_C2_amended (cfg : RecallConfig) (g : GraphState) (target : ℤ)
    (evidence : List EvidenceItem) (h : 1 < cfg.theta_w) :
    ((buildEvidencePack cfg g target evidence).map GraphPack.edges).getD [] = [] := by
  unfold buildEvidencePack
  cases hl : g.logs target with
  | none => rfl
  | some tgt =>
    simp only [Option.map_some', Option.getD_some]
    rw [packTimeEdges_fst_of_theta h, packStructEdges_fst_of_theta h]

theorem lamOf_cfgThetaOne : lamOf cfgThetaOne = 0 := by
  show (if ((900 : ℤ) : ℝ) ≤ 0 ∨ (1 : ℝ) ≤ 0 then (0 : ℝ)
    else (-Real.log 1) / ((900 : ℤ) : ℝ)) = 0
  rw [if_neg (by push_cast; norm_num), Real.log_one, neg_zero, zero_div]

theorem edgeWeight_cfgThetaOne (a b : ℤ) : edgeWeight cfgThetaOne a b = 1 := by
  unfold edgeWeight
  rw [if_pos (le_of_eq lamOf_cfgThetaOne)]

theorem structw_cfgThetaOne :
    structural_edge_weight cfgThetaOne gOneEnt 0 "abc".data 1000 = 1 := by
  unfold structural_edge_weight
  rw [show gOneEnt.logs 0 = some
    { log_id := 0, ts_sec := 1000, message := "abc def".data, severity := 0 } from rfl]
  exact edgeWeight_cfgThetaOne _ _

theorem packStructEdges_cfgThetaOne :
    packStructEdges cfgThetaOne gOneEnt 1000 [0] [(0, "L0".data)]
      [("abc".data, "E1".data)] =
    ([{ id := "R1".data, edge_type := "struct".data, source := "L0".data,
        target := "E1".data, weight := round6 1 }], 2) := by
  unfold packStructEdges
  rw [List.foldl_cons, List.foldl_nil]
  rw [show sortStrList (getEntitiesForLog gOneEnt 0) = ["abc".data] from by decide]
  rw [List.foldl_cons, List.foldl_nil]
  rw [show sGet [("abc".data, "E1".data)] "abc".data = some "E1".data from by decide]
  dsimp only
  rw [structw_cfgThetaOne]
  rw [if_neg (by rw [show cfgThetaOne.theta_w = (1 : ℝ) from rfl]; norm_num)]
  rw [show zGet [((0 : ℤ), "L0".data)] 0 = some "L0".data from by decide]
  rfl

theorem packTimeEdges_cfgThetaOne (X : List PackEdge × ℕ) :
    packTimeEdges cfgThetaOne gOneEnt 1000 [0] [(0, "L0".data)] X = X := by
  unfold packTimeEdges
  rw [List.foldl_cons, List.foldl_nil]
  rw [show gOneEnt.logs 0 = some
    { log_id := 0, ts_sec := 1000, message := "abc def".data, severity := 0 } from rfl]

/-- C2 (counterexample): the claim says `theta_w ≥ 1` suppresses all
GraphPack edges.  At `theta_w = 1` exactly (which satisfies `theta_w ≥ 1`)
a resident target with one entity produces a `struct` edge of weight 1,
because the skip test is the strict `w < theta_w`. -/
theorem claim_C2_counterexample :
    ((buildEvidencePack cfgThetaOne gOneEnt 0 []).map GraphPack.edges).getD [] ≠ [] := by
  unfold buildEvidencePack
  rw [show gOneEnt.logs 0 = some
    { log_id := 0, ts_sec := 1000, message := "abc def".data, severity := 0 } from rfl]
  simp only [Option.map_some', Option.getD_some]
  rw [show (([] : List EvidenceItem).enum.foldl
      (fun m p => zPut m p.2.log_id (lTag (p.1 + 1))) [((0 : ℤ), lTag 0)])
    = [((0 : ℤ), "L0".data)] from by decide]
  rw [show (([((0 : ℤ), "L0".data)].map (fun p => p.1)).foldl
      (fun acc lid => (getEntitiesForLog gOneEnt lid).foldl insertSet acc) [])
    = ["abc".data] from by decide]
  rw [show ((sortStrList ["abc".data]).enum.map (fun p => (p.2, eTag (p.1 + 1))))
    = [("abc".data, "E1".data)] from by decide]
  rw [show ((0 : ℤ) :: ([] : List EvidenceItem).map (fun it => it.log_id)) = [(0 : ℤ)] from rfl]
  rw [packStructEdges_cfgThetaOne, packTimeEdges_cfgThetaOne]
  simp

/-- C2 (witness): with `theta_w = 2` the same one-entity graph yields a
GraphPack with no edges at all. -/
theorem claim_C2_witness :
    (1 : ℝ) < cfgThetaTwo.theta_w ∧
      ((buildEvidencePack cfgThetaTwo gOneEnt 0 []).map GraphPack.edges).getD [] = [] :=
  ⟨by rw [show cfgThetaTwo.theta_w = (2 : ℝ) from rfl]; norm_num,
    claim_C2_amended cfgThetaTwo gOneEnt 0 []
      (by rw [show cfgThetaTwo.theta_w = (2 : ℝ) from rfl]; norm_num)⟩

/-! ## C6: retrieval budget, distance, weight bounds, ordering -/

theorem tpmewWalk_bounds (cfg : RecallConfig) (g : GraphState) (useNext : Bool)
    (stop now : ℤ) :
    ∀ (fuel : ℕ) (cur : ℤ) (w : ℝ), 0 ≤ w → w ≤ 1 →
      0 ≤ (tpmewWalk cfg g useNext stop now fuel cur w).2 ∧
        (tpmewWalk cfg g useNext stop now fuel cur w).2 ≤ 1 := by
  intro fuel
  induction fuel with
  | zero =>
    intro cur w h0 h1
    exact ⟨h0, h1⟩
  | succ n ih =>
    intro cur w h0 h1
    unfold tpmewWalk
    by_cases hc : cur = stop
    · rw [if_pos hc]
      exact ⟨h0, h1⟩
    · rw [if_neg hc]
      cases hl : g.logs cur with
      | none => exact ⟨h0, h1⟩
      | some ln =>
        dsimp only
        cases ha : (if useNext then ln.next_log_id else ln.prev_log_id) with
        | none => exact ⟨h0, h1⟩
        | some adj =>
          dsimp only
          apply ih
          · apply le_min h0
            split
            · exact temporal_edge_weight_nonneg cfg g cur adj now
            · exact temporal_edge_weight_nonneg cfg g adj cur now
          · exact le_trans (min_le_left _ _) h1

theorem tpmew_bounds (cfg : RecallConfig) (g : GraphState) (src dst now : ℤ) :
    0 ≤ temporalPathMinEdgeWeight cfg g src dst now ∧
      temporalPathMinEdgeWeight cfg g src dst now ≤ 1 := by
  unfold temporalPathMinEdgeWeight
  by_cases h1 : src = dst
  · rw [if_pos h1]
    norm_num
  · rw [if_neg h1]
    dsimp only
    by_cases h2 : (tpmewWalk cfg g false src now 2048 dst 1).1 = src
    · rw [if_pos h2]
      exact tpmewWalk_bounds cfg g false src now 2048 dst 1 (by norm_num) le_rfl
    · rw [if_neg h2]
      by_cases h3 : (tpmewWalk cfg g true dst now 2048 src 1).1 = dst
      · rw [if_pos h3]
        exact tpmewWalk_bounds cfg g true dst now 2048 src 1 (by norm_num) le_rfl
      · rw [if_neg h3]
        norm_num

theorem sharedFold_bounds (cfg : RecallConfig) (g : GraphState) (target lid now : ℤ) :
    ∀ (l : List Str) (b : ℝ), 0 ≤ b → b ≤ 1 →
      0 ≤ l.foldl (fun b e => max b (min (structural_edge_weight cfg g target e now)
        (structural_edge_weight cfg g lid e now))) b ∧
      l.foldl (fun b e => max b (min (structural_edge_weight cfg g target e now)
        (structural_edge_weight cfg g lid e now))) b ≤ 1 := by
  intro l
  induction l with
  | nil =>
    intro b h0 h1
    exact ⟨h0, h1⟩
  | cons e t ih =>
    intro b h0 h1
    rw [List.foldl_cons]
    apply ih
    · exact le_trans h0 (le_max_left _ _)
    · apply max_le h1
      exact le_trans (min_le_left _ _) (structural_edge_weight_le_one cfg g target e now)

theorem mkItem_props (cfg : RecallConfig) (g : GraphState) (target : ℤ) (tgt : LogNode)
    (sm tm : List (ℤ × ℤ)) (sh : List (ℤ × List Str)) (lid : ℤ) (ln : LogNode) :
    1 ≤ (mkItem cfg g target tgt sm tm sh lid ln).dist ∧
      0 ≤ (mkItem cfg g target tgt sm tm sh lid ln).edge_weight ∧
      (mkItem cfg g target tgt sm tm sh lid ln).edge_weight ≤ 1 := by
  unfold mkItem
  dsimp only
  have hw2 : 0 ≤ (if (zGet tm lid).isSome
        then max 0 (temporalPathMinEdgeWeight cfg g target lid tgt.ts_sec) else (0 : ℝ)) ∧
      (if (zGet tm lid).isSome
        then max 0 (temporalPathMinEdgeWeight cfg g target lid tgt.ts_sec) else (0 : ℝ)) ≤ 1 := by
    split
    · exact ⟨le_max_left 0 _, max_le zero_le_one (tpmew_bounds cfg g target lid tgt.ts_sec).2⟩
    · norm_num
  refine ⟨le_max_left _ _, ?_, ?_⟩
  · split
    · exact le_trans hw2.1 (le_max_left _ _)
    · exact hw2.1
  · split
    · apply max_le hw2.2
      exact (sharedFold_bounds cfg g target lid tgt.ts_sec _ 0 le_rfl zero_le_one).2
    · exact hw2.2

theorem itemsOf_props (cfg : RecallConfig) (g : GraphState) (target : ℤ)
    (tgt : LogNode) (sm tm : List (ℤ × ℤ)) (sh : List (ℤ × List Str))
    (ids : List ℤ) :
    ∀ it ∈ itemsOf cfg g target tgt sm tm sh ids,
      1 ≤ it.dist ∧ 0 ≤ it.edge_weight ∧ it.edge_weight ≤ 1 := by
  unfold itemsOf
  suffices hgen : ∀ (l : List ℤ) (acc : List EvidenceItem),
      (∀ it ∈ acc, 1 ≤ it.dist ∧ 0 ≤ it.edge_weight ∧ it.edge_weight ≤ 1) →
      ∀ it ∈ l.foldl (fun acc lid =>
          match g.logs lid with
          | none => acc
          | some ln => acc ++ [mkItem cfg g target tgt sm tm sh lid ln]) acc,
        1 ≤ it.dist ∧ 0 ≤ it.edge_weight ∧ it.edge_weight ≤ 1 by
    exact hgen ids [] (fun it hit => absurd hit (List.not_mem_nil it))
  intro l
  induction l with
  | nil =>
    intro acc hacc
    exact hacc
  | cons lid rest ih =>
    intro acc hacc
    rw [List.foldl_cons]
    apply ih
    cases hl : g.logs lid with
    | none => exact hacc
    | some ln =>
      intro it hit
      rcases List.mem_append.mp hit with h | h
      · exact hacc it h
      · rw [List.mem_singleton.mp h]
        exact mkItem_props cfg g target tgt sm tm sh lid ln

theorem itemRel_total : ∀ a b : EvidenceItem, itemRel a b ∨ itemRel b a := by
  intro a b
  unfold itemRel
  rcases lt_trichotomy a.score b.score with h | h | h
  · right
    left
    exact h
  · rcases le_total b.ts_sec a.ts_sec with ht | ht
    · left
      right
      exact ⟨h.symm, ht⟩
    · right
      right
      exact ⟨h, ht⟩
  · left
    left
    exact h

theorem itemRel_trans :
    ∀ a b c : EvidenceItem, itemRel a b → itemRel b c → itemRel a c := by
  intro a b c hab hbc
  unfold itemRel at hab hbc ⊢
  rcases hab with h1 | ⟨h1, h1t⟩
  · rcases hbc with h2 | ⟨h2, h2t⟩
    · left
      exact lt_trans h2 h1
    · left
      rw [h2]
      exact h1
  · rcases hbc with h2 | ⟨h2, h2t⟩
    · left
      rw [← h1]
      exact h2
    · right
      exact ⟨h2.trans h1, le_trans h2t h1t⟩

/-- C6 (amended): for every configuration with a nonnegative evidence
budget, every graph state and every resident target, `dual_path_retrieve`
returns at most `evidence_budget_nmax` items; unconditionally, every
returned item has `dist ≥ 1` and `edge_weight ∈ [0,1]`, and the returned
list is sorted by score descending with ties broken by `ts_sec` descending.
(For a negative budget the Python slice `items[:n]` keeps `len+n` items, so
the size bound as claimed fails.) -/
theorem claim_C6_amended (cfg : RecallConfig) (g : GraphState) (target : ℤ)
    (hres : (g.logs target).isSome) :
    (0 ≤ cfg.evidence_budget_nmax →
      ((dualPathRetrieve cfg g target).length : ℤ) ≤ cfg.evidence_budget_nmax) ∧
    (∀ it ∈ dualPathRetrieve cfg g target,
      1 ≤ it.dist ∧ 0 ≤ it.edge_weight ∧ it.edge_weight ≤ 1) ∧
    List.Sorted itemRel (dualPathRetrieve cfg g target) := by
  obtain ⟨tgt, htgt⟩ := Option.isSome_iff_exists.mp hres
  haveI htot : IsTotal EvidenceItem itemRel := ⟨itemRel_total⟩
  haveI htrans : IsTrans EvidenceItem itemRel := ⟨itemRel_trans⟩
  have hsorted : List.Sorted itemRel
      (List.insertionSort itemRel (retrieveItems cfg g target tgt)) :=
    List.sorted_insertionSort itemRel _
  have hmemitems : ∀ it ∈ List.insertionSort itemRel (retrieveItems cfg g target tgt),
      1 ≤ it.dist ∧ 0 ≤ it.edge_weight ∧ it.edge_weight ≤ 1 := by
    intro it hit
    have hmem := (List.perm_insertionSort itemRel
      (retrieveItems cfg g target tgt)).mem_iff.mp hit
    exact itemsOf_props cfg g target tgt _ _ _ _ it hmem
  have heq : dualPathRetrieve cfg g target =
      (if 0 ≤ cfg.evidence_budget_nmax then
        (List.insertionSort itemRel (retrieveItems cfg g target tgt)).take
          cfg.evidence_budget_nmax.toNat
      else
        (List.insertionSort itemRel (retrieveItems cfg g target tgt)).take
          (((List.insertionSort itemRel (retrieveItems cfg g target tgt)).length : ℤ)
            + cfg.evidence_budget_nmax).toNat) := by
    unfold dualPathRetrieve
    rw [htgt]
  refine ⟨?_, ?_, ?_⟩
  · intro hn
    rw [heq, if_pos hn]
    have hlen : ((List.insertionSort itemRel (retrieveItems cfg g target tgt)).take
        cfg.evidence_budget_nmax.toNat).length ≤ cfg.evidence_budget_nmax.toNat := by
      rw [List.length_take]
      exact min_le_left _ _
    calc (((List.insertionSort itemRel (retrieveItems cfg g target tgt)).take
          cfg.evidence_budget_nmax.toNat).length : ℤ)
        ≤ (cfg.evidence_budget_nmax.toNat : ℤ) := by exact_mod_cast hlen
      _ = cfg.evidence_budget_nmax := Int.toNat_of_nonneg hn
  · intro it hit
    rw [heq] at hit
    have hmem : it ∈ List.insertionSort itemRel (retrieveItems cfg g target tgt) := by
      split at hit
      · exact List.take_subset _ _ hit
      · exact List.take_subset _ _ hit
    exact hmemitems it hmem
  · rw [heq]
    split
    · exact List.Pairwise.sublist (List.take_sublist _ _) hsorted
    · exact List.Pairwise.sublist (List.take_sublist _ _) hsorted

/-- C6 (counterexample): with `evidence_budget_nmax = -1` and a resident
target with no candidates, retrieval returns 0 items and `0 ≤ -1` is false,
so "at most `evidence_budget_nmax` items for every configuration" fails. -/
theorem claim_C6_counterexample :
    ¬ (((dualPathRetrieve cfgNegNmax gOneEnt 0).length : ℤ) ≤
      cfgNegNmax.evidence_budget_nmax) := by
  have hitems : retrieveItems cfgNegNmax gOneEnt 0
      { log_id := 0, ts_sec := 1000, message := "abc def".data, severity := 0 } = [] := by
    unfold retrieveItems
    rw [show ((msg2bestOf cfgNegNmax gOneEnt
      (candIdsOf (candStructFold cfgNegNmax gOneEnt 0).1
        (timeCandMap cfgNegNmax gOneEnt 0))).map (fun p => p.2)).dedup = ([] : List ℤ)
      from by decide]
    rfl
  have hres : dualPathRetrieve cfgNegNmax gOneEnt 0 = [] := by
    unfold dualPathRetrieve
    rw [show gOneEnt.logs 0 = some
      { log_id := 0, ts_sec := 1000, message := "abc def".data, severity := 0 } from rfl]
    dsimp only
    rw [hitems]
    rw [if_neg (by decide)]
    rfl
  rw [hres]
  decide

/-- C6 (witness): the amended bound at the default configuration on the
one-log graph. -/
theorem claim_C6_witness :
    ((dualPathRetrieve defaultConfig gOneEnt 0).length : ℤ) ≤
      defaultConfig.evidence_budget_nmax :=
  (claim_C6_amended defaultConfig gOneEnt 0 (by decide)).1 (by decide)

/-! ## C7: dedup properties of retrieval -/

theorem sGet_eq_none {α : Type _} {m : List (Str × α)} {k : Str}
    (h : sGet m k = none) : ∀ p ∈ m, p.1 ≠ k := by
  intro p hp
  unfold sGet at h
  rw [Option.map_eq_none'] at h
  have := List.find?_eq_none.mp h p hp
  intro hk
  rw [hk] at this
  simp at this

theorem sGet_eq_some_mem {α : Type _} {m : List (Str × α)} {k : Str} {v : α}
    (h : sGet m k = some v) : (k, v) ∈ m := by
  unfold sGet at h
  rw [Option.map_eq_some'] at h
  obtain ⟨p, hfind, hpv⟩ := h
  have hmem := List.mem_of_find?_eq_some hfind
  have hpred := List.find?_some hfind
  have hk : p.1 = k := by
    rwa [beq_iff_eq] at hpred
  have : p = (k, v) := Prod.ext hk hpv
  rwa [this] at hmem

theorem sPut_absent {α : Type _} {m : List (Str × α)} {k : Str} (v : α)
    (h : ∀ p ∈ m, p.1 ≠ k) : sPut m k v = m ++ [(k, v)] := by
  induction m with
  | nil => rfl
  | cons p t ih =>
    obtain ⟨k0, v0⟩ := p
    unfold sPut
    rw [if_neg (h (k0, v0) (List.mem_cons_self _ _))]
    rw [ih (fun q hq => h q (List.mem_cons_of_mem _ hq))]
    rfl

theorem mem_sPut_weak {α : Type _} {k : Str} {v : α} :
    ∀ {m : List (Str × α)}, ∀ p ∈ sPut m k v, p = (k, v) ∨ p ∈ m := by
  intro m
  induction m with
  | nil =>
    intro p hp
    rcases List.mem_singleton.mp hp with h
    exact Or.inl h
  | cons q t ih =>
    obtain ⟨k0, v0⟩ := q
    intro p hp
    unfold sPut at hp
    by_cases h0 : k0 = k
    · rw [if_pos h0] at hp
      rcases List.mem_cons.mp hp with h | h
      · exact Or.inl h
      · exact Or.inr (List.mem_cons_of_mem _ h)
    · rw [if_neg h0] at hp
      rcases List.mem_cons.mp hp with h | h
      · exact Or.inr (h ▸ List.mem_cons_self _ _)
      · rcases ih p h with h1 | h1
        · exact Or.inl h1
        · exact Or.inr (List.mem_cons_of_mem _ h1)

theorem mem_sPut {α : Type _} {k : Str} {v : α} :
    ∀ {m : List (Str × α)}, List.Pairwise (fun p q => p.1 ≠ q.1) m →
      ∀ p ∈ sPut m k v, p = (k, v) ∨ (p ∈ m ∧ p.1 ≠ k) := by
  intro m
  induction m with
  | nil =>
    intro _ p hp
    exact Or.inl (List.mem_singleton.mp hp)
  | cons q t ih =>
    obtain ⟨k0, v0⟩ := q
    intro hp p hpm
    have hhead := List.pairwise_cons.mp hp
    unfold sPut at hpm
    by_cases h0 : k0 = k
    · rw [if_pos h0] at hpm
      rcases List.mem_cons.mp hpm with h | h
      · exact Or.inl h
      · right
        refine ⟨List.mem_cons_of_mem _ h, ?_⟩
        have := hhead.1 p h
        rw [h0] at this
        exact fun hk => this hk.symm
    · rw [if_neg h0] at hpm
      rcases List.mem_cons.mp hpm with h | h
      · right
        rw [h]
        exact ⟨List.mem_cons_self _ _, h0⟩
      · rcases ih hhead.2 p h with h1 | h1
        · exact Or.inl h1
        · exact Or.inr ⟨List.mem_cons_of_mem _ h1.1, h1.2⟩

theorem sGet_sPut_self {α : Type _} {k : Str} {v : α} :
    ∀ {m : List (Str × α)}, sGet (sPut m k v) k = some v := by
  intro m
  induction m with
  | nil => simp [sPut, sGet]
  | cons q t ih =>
    obtain ⟨k0, v0⟩ := q
    unfold sPut
    by_cases h0 : k0 = k
    · rw [if_pos h0]
      simp [sGet]
    · rw [if_neg h0]
      unfold sGet at ih ⊢
      rw [List.find?_cons_of_neg]
      · exact ih
      · simp [h0]

theorem sPut_self_mem {α : Type _} {k : Str} {v : α} :
    ∀ {m : List (Str × α)}, (k, v) ∈ sPut m k v := by
  intro m
  induction m with
  | nil => exact List.mem_singleton_self _
  | cons q t ih =>
    obtain ⟨k0, v0⟩ := q
    unfold sPut
    by_cases h0 : k0 = k
    · rw [if_pos h0]
      exact List.mem_cons_self _ _
    · rw [if_neg h0]
      exact List.mem_cons_of_mem _ ih

theorem mem_sPut_of_ne {α : Type _} {k : Str} {v : α} {p : Str × α} (hne : p.1 ≠ k) :
    ∀ {m : List (Str × α)}, p ∈ m → p ∈ sPut m k v := by
  intro m
  induction m with
  | nil =>
    intro hp
    exact absurd hp (List.not_mem_nil p)
  | cons q t ih =>
    obtain ⟨k0, v0⟩ := q
    intro hp
    unfold sPut
    by_cases h0 : k0 = k
    · rw [if_pos h0]
      rcases List.mem_cons.mp hp with h | h
      · exact absurd (by rw [h, h0]) hne
      · exact List.mem_cons_of_mem _ h
    · rw [if_neg h0]
      rcases List.mem_cons.mp hp with h | h
      · rw [h]
        exact List.mem_cons_self _ _
      · exact List.mem_cons_of_mem _ (ih h)

theorem sameKey_eq {α : Type _} {m : List (Str × α)}
    (h2 : List.Pairwise (fun p q => p.1 ≠ q.1) m) {p q : Str × α}
    (hp : p ∈ m) (hq : q ∈ m) (hk : p.1 = q.1) : p = q := by
  by_cases hpq : p = q
  · exact hpq
  · have hsym : Symmetric (fun p q : Str × α => p.1 ≠ q.1) :=
      fun _ _ h => Ne.symm h
    exact absurd hk (List.Pairwise.forall hsym h2 hp hq hpq)

theorem sPut_pairwise {α : Type _} {k : Str} {v : α} :
    ∀ {m : List (Str × α)}, List.Pairwise (fun p q => p.1 ≠ q.1) m →
      List.Pairwise (fun p q => p.1 ≠ q.1) (sPut m k v) := by
  intro m
  induction m with
  | nil =>
    intro _
    simp [sPut]
  | cons q t ih =>
    obtain ⟨k0, v0⟩ := q
    intro hp
    have hhead := List.pairwise_cons.mp hp
    unfold sPut
    by_cases h0 : k0 = k
    · rw [if_pos h0]
      apply List.pairwise_cons.mpr
      refine ⟨?_, hhead.2⟩
      intro p hpt
      have := hhead.1 p hpt
      rw [h0] at this
      exact this
    · rw [if_neg h0]
      apply List.pairwise_cons.mpr
      refine ⟨?_, ih hhead.2⟩
      intro p hpt
      rcases mem_sPut_weak p hpt with h | h
      · rw [h]
        exact h0
      · exact hhead.1 p h

/-- Preservation of the dedup invariant along the `msg2best` fold. -/
theorem msg2best_inv (cfg : RecallConfig) (g : GraphState) :
    ∀ (l : List ℤ) (processed : List ℤ) (m : List (Str × ℤ)),
      dedupInv cfg g processed m →
      dedupInv cfg g (processed ++ l)
        (l.foldl (fun (m : List (Str × ℤ)) lid =>
          match g.logs lid with
          | none => m
          | some ln =>
            let key := normalize_message_for_dedup ln.message cfg.dedup_case_insensitive
            if key.isEmpty then m
            else
              match sGet m key with
              | none => sPut m key lid
              | some prev =>
                match g.logs prev with
                | none => sPut m key lid
                | some a => if a.ts_sec < ln.ts_sec then sPut m key lid else m) m) := by
  intro l
  induction l with
  | nil =>
    intro processed m h
    simpa using h
  | cons lid rest ih =>
    intro processed m hI
    rw [List.foldl_cons]
    have hmono : ∀ (m' : List (Str × ℤ)), dedupInv cfg g (processed ++ [lid]) m' →
        dedupInv cfg g (processed ++ lid :: rest)
          (rest.foldl (fun (m : List (Str × ℤ)) lid =>
            match g.logs lid with
            | none => m
            | some ln =>
              let key := normalize_message_for_dedup ln.message cfg.dedup_case_insensitive
              if key.isEmpty then m
              else
                match sGet m key with
                | none => sPut m key lid
                | some prev =>
                  match g.logs prev with
                  | none => sPut m key lid
                  | some a => if a.ts_sec < ln.ts_sec then sPut m key lid else m) m') := by
      intro m' h'
      have := ih (processed ++ [lid]) m' h'
      rwa [List.append_assoc, List.singleton_append] at this
    apply hmono
    obtain ⟨h1, h2, h3⟩ := hI
    cases hl : g.logs lid with
    | none =>
      refine ⟨?_, h2, ?_⟩
      · intro p hp
        obtain ⟨hmem, hk, hln⟩ := h1 p hp
        exact ⟨List.mem_append_left _ hmem, hk, hln⟩
      · intro lid' hmem ln' hln' hkey
        rcases List.mem_append.mp hmem with hin | hin
        · exact h3 lid' hin ln' hln' hkey
        · rw [List.mem_singleton.mp hin, hl] at hln'
          exact Option.noConfusion hln'
    | some ln =>
      dsimp only
      by_cases hke : (normalize_message_for_dedup ln.message cfg.dedup_case_insensitive).isEmpty = true
      · rw [if_pos hke]
        have hkeynil : dedupKey cfg ln.message = [] := by
          unfold dedupKey
          exact List.isEmpty_iff.mp hke
        refine ⟨?_, h2, ?_⟩
        · intro p hp
          obtain ⟨hmem, hk, hln2⟩ := h1 p hp
          exact ⟨List.mem_append_left _ hmem, hk, hln2⟩
        · intro lid' hmem ln' hln' hkey
          rcases List.mem_append.mp hmem with hin | hin
          · exact h3 lid' hin ln' hln' hkey
          · rw [List.mem_singleton.mp hin] at hln'
            rw [hl] at hln'
            have hlneq : ln' = ln := by
              injection hln' with h9; exact h9.symm
            rw [hlneq] at hkey
            exact absurd hkeynil hkey
      · rw [if_neg hke]
        have hkeyne : dedupKey cfg ln.message ≠ [] := by
          unfold dedupKey
          intro hnil
          rw [hnil] at hke
          exact hke rfl
        have hput : dedupInv cfg g (processed ++ [lid])
            (sPut m (normalize_message_for_dedup ln.message cfg.dedup_case_insensitive) lid) → True := fun _ => trivial
        clear hput
        cases hget : sGet m (normalize_message_for_dedup ln.message cfg.dedup_case_insensitive) with
        | none =>
          have habs : ∀ p ∈ m, p.1 ≠ normalize_message_for_dedup ln.message cfg.dedup_case_insensitive :=
            sGet_eq_none hget
          rw [sPut_absent lid habs]
          refine ⟨?_, ?_, ?_⟩
          · intro p hp
            rcases List.mem_append.mp hp with hin | hin
            · obtain ⟨hmem, hk, hln2⟩ := h1 p hin
              exact ⟨List.mem_append_left _ hmem, hk, hln2⟩
            · rw [List.mem_singleton.mp hin]
              exact ⟨List.mem_append_right _ (List.mem_singleton_self _), hkeyne, ln, hl, rfl⟩
          · rw [List.pairwise_append]
            refine ⟨h2, List.pairwise_singleton _ _, ?_⟩
            intro p hp q hq
            rw [List.mem_singleton.mp hq]
            exact habs p hp
          · intro lid' hmem ln' hln' hkey
            rcases List.mem_append.mp hmem with hin | hin
            · obtain ⟨p, hp, hpk, hpd⟩ := h3 lid' hin ln' hln' hkey
              exact ⟨p, List.mem_append_left _ hp, hpk, hpd⟩
            · rw [List.mem_singleton.mp hin] at hln'
              rw [hl] at hln'
              have hlneq : ln' = ln := by injection hln' with h9; exact h9.symm
              refine ⟨(normalize_message_for_dedup ln.message cfg.dedup_case_insensitive, lid),
                List.mem_append_right _ (List.mem_singleton_self _), ?_, ?_⟩
              · rw [hlneq]
                rfl
              · intro ln0 hln0
                rw [hl] at hln0
                have : ln0 = ln := by injection hln0 with h9; exact h9.symm
                rw [this, hlneq]
        | some prev =>
          obtain ⟨hprevmem, hprevk, lnp, hlnp0, hlnpk⟩ :=
            h1 _ (sGet_eq_some_mem hget)
          have hlnp : g.logs prev = some lnp := hlnp0
          dsimp only
          rw [hlnp]
          dsimp only
          by_cases hts : lnp.ts_sec < ln.ts_sec
          · rw [if_pos hts]
            refine ⟨?_, sPut_pairwise h2, ?_⟩
            · intro p hp
              rcases mem_sPut h2 p hp with h | ⟨hin, _⟩
              · rw [h]
                exact ⟨List.mem_append_right _ (List.mem_singleton_self _), hkeyne, ln, hl, rfl⟩
              · obtain ⟨hmem, hk, hln2⟩ := h1 p hin
                exact ⟨List.mem_append_left _ hmem, hk, hln2⟩
            · intro lid' hmem ln' hln' hkey
              rcases List.mem_append.mp hmem with hin | hin
              · obtain ⟨p, hp, hpk, hpd⟩ := h3 lid' hin ln' hln' hkey
                by_cases hpkey : p.1 = normalize_message_for_dedup ln.message cfg.dedup_case_insensitive
                · have hpeq : p = (normalize_message_for_dedup ln.message
                      cfg.dedup_case_insensitive, prev) :=
                    sameKey_eq h2 hp (sGet_eq_some_mem hget) hpkey
                  refine ⟨(normalize_message_for_dedup ln.message
                    cfg.dedup_case_insensitive, lid), sPut_self_mem, ?_, ?_⟩
                  · rw [hpk] at hpkey
                    rw [← hpkey]
                  · intro ln0 hln0
                    rw [hl] at hln0
                    have h0 : ln0 = ln := by injection hln0 with h9; exact h9.symm
                    rw [h0]
                    have hbound := hpd lnp (by rw [hpeq]; exact hlnp)
                    exact le_trans hbound (le_of_lt hts)
                · exact ⟨p, mem_sPut_of_ne hpkey hp, hpk, hpd⟩
              · rw [List.mem_singleton.mp hin] at hln'
                rw [hl] at hln'
                have hlneq : ln' = ln := by injection hln' with h9; exact h9.symm
                refine ⟨(normalize_message_for_dedup ln.message
                  cfg.dedup_case_insensitive, lid), sPut_self_mem, ?_, ?_⟩
                · rw [hlneq]
                  rfl
                · intro ln0 hln0
                  rw [hl] at hln0
                  have h0 : ln0 = ln := by injection hln0 with h9; exact h9.symm
                  rw [h0, hlneq]
          · rw [if_neg hts]
            refine ⟨?_, h2, ?_⟩
            · intro p hp
              obtain ⟨hmem, hk, hln2⟩ := h1 p hp
              exact ⟨List.mem_append_left _ hmem, hk, hln2⟩
            · intro lid' hmem ln' hln' hkey
              rcases List.mem_append.mp hmem with hin | hin
              · obtain ⟨p, hp, hpk, hpd⟩ := h3 lid' hin ln' hln' hkey
                exact ⟨p, hp, hpk, hpd⟩
              · rw [List.mem_singleton.mp hin] at hln'
                rw [hl] at hln'
                have hlneq : ln' = ln := by injection hln' with h9; exact h9.symm
                refine ⟨(normalize_message_for_dedup ln.message
                  cfg.dedup_case_insensitive, prev), sGet_eq_some_mem hget, ?_, ?_⟩
                · rw [hlneq]
                  rfl
                · intro ln0 hln0
                  rw [hlnp] at hln0
                  have h0 : ln0 = lnp := by injection hln0 with h9; exact h9.symm
                  rw [h0, hlneq]
                  exact le_of_not_lt hts

theorem dedupInv_nil (cfg : RecallConfig) (g : GraphState) :
    dedupInv cfg g [] [] := by
  refine ⟨?_, List.Pairwise.nil, ?_⟩
  · intro p hp
    exact absurd hp (List.not_mem_nil p)
  · intro lid hl
    exact absurd hl (List.not_mem_nil lid)

theorem msg2bestOf_inv (cfg : RecallConfig) (g : GraphState) (candIds : List ℤ) :
    dedupInv cfg g candIds (msg2bestOf cfg g candIds) := by
  have h := msg2best_inv cfg g candIds [] [] (dedupInv_nil cfg g)
  rw [List.nil_append] at h
  exact h

theorem mkItem_log_id (cfg : RecallConfig) (g : GraphState) (target : ℤ)
    (tgt : LogNode) (sm tm : List (ℤ × ℤ)) (sh : List (ℤ × List Str))
    (lid : ℤ) (ln : LogNode) :
    (mkItem cfg g target tgt sm tm sh lid ln).log_id = lid := rfl

theorem mkItem_ts (cfg : RecallConfig) (g : GraphState) (target : ℤ)
    (tgt : LogNode) (sm tm : List (ℤ × ℤ)) (sh : List (ℤ × List Str))
    (lid : ℤ) (ln : LogNode) :
    (mkItem cfg g target tgt sm tm sh lid ln).ts_sec = ln.ts_sec := rfl

theorem mkItem_message (cfg : RecallConfig) (g : GraphState) (target : ℤ)
    (tgt : LogNode) (sm tm : List (ℤ × ℤ)) (sh : List (ℤ × List Str))
    (lid : ℤ) (ln : LogNode) :
    (mkItem cfg g target tgt sm tm sh lid ln).message = ln.message := rfl

theorem itemsOf_eq_filterMap (cfg : RecallConfig) (g : GraphState) (target : ℤ)
    (tgt : LogNode) (sm tm : List (ℤ × ℤ)) (sh : List (ℤ × List Str)) :
    ∀ ids : List ℤ, itemsOf cfg g target tgt sm tm sh ids =
      ids.filterMap (fun lid =>
        (g.logs lid).map (fun ln => mkItem cfg g target tgt sm tm sh lid ln)) := by
  unfold itemsOf
  suffices hgen : ∀ (l : List ℤ) (acc : List EvidenceItem),
      l.foldl (fun acc lid =>
        match g.logs lid with
        | none => acc
        | some ln => acc ++ [mkItem cfg g target tgt sm tm sh lid ln]) acc =
      acc ++ l.filterMap (fun lid =>
        (g.logs lid).map (fun ln => mkItem cfg g target tgt sm tm sh lid ln)) by
    intro ids
    rw [hgen ids []]
    rw [List.nil_append]
  intro l
  induction l with
  | nil =>
    intro acc
    simp
  | cons lid rest ih =>
    intro acc
    rw [List.foldl_cons, List.filterMap_cons]
    cases hl : g.logs lid with
    | none =>
      dsimp only [Option.map]
      exact ih acc
    | some ln =>
      dsimp only [Option.map]
      rw [ih (acc ++ [mkItem cfg g target tgt sm tm sh lid ln])]
      rw [List.append_assoc]
      rfl

theorem dedup_value_entry (cfg : RecallConfig) (g : GraphState) (cands : List ℤ)
    {lid : ℤ}
    (h : lid ∈ ((msg2bestOf cfg g cands).map (fun p => p.2)).dedup) :
    ∃ p ∈ msg2bestOf cfg g cands, p.2 = lid := by
  have hm := List.mem_dedup.mp h
  obtain ⟨p, hp, hpl⟩ := List.mem_map.mp hm
  exact ⟨p, hp, hpl⟩

theorem entry_key (cfg : RecallConfig) (g : GraphState) (cands : List ℤ)
    {p : Str × ℤ} (hp : p ∈ msg2bestOf cfg g cands) {ln : LogNode}
    (hln : g.logs p.2 = some ln) :
    p.2 ∈ cands ∧ p.1 ≠ [] ∧ dedupKey cfg ln.message = p.1 := by
  obtain ⟨hmem, hk, lnq, hlnq, hkey⟩ := (msg2bestOf_inv cfg g cands).1 p hp
  rw [hln] at hlnq
  have hq : lnq = ln := by injection hlnq with h9; exact h9.symm
  rw [hq] at hkey
  exact ⟨hmem, hk, hkey⟩

theorem retrieveItems_key_props (cfg : RecallConfig) (g : GraphState) (target : ℤ)
    (tgt : LogNode) :
    ∀ it ∈ retrieveItems cfg g target tgt,
      dedupKey cfg it.message ≠ [] ∧
      it.log_id ∈ candIdsOf (candStructFold cfg g target).1 (timeCandMap cfg g target) ∧
      ∀ lid' ∈ candIdsOf (candStructFold cfg g target).1 (timeCandMap cfg g target),
        ∀ ln', g.logs lid' = some ln' →
          dedupKey cfg ln'.message = dedupKey cfg it.message →
          ln'.ts_sec ≤ it.ts_sec := by
  intro it hit
  unfold retrieveItems at hit
  rw [itemsOf_eq_filterMap] at hit
  obtain ⟨lid, hlid, hfit⟩ := List.mem_filterMap.mp hit
  cases hln : g.logs lid with
  | none =>
    rw [hln] at hfit
    exact absurd hfit (by simp)
  | some ln =>
    rw [hln] at hfit
    have hiteq : it = mkItem cfg g target tgt (candStructFold cfg g target).1
        (timeCandMap cfg g target) (candStructFold cfg g target).2 lid ln := by
      have := Option.some.inj hfit
      exact this.symm
    obtain ⟨p, hp, hpl⟩ := dedup_value_entry cfg g _ hlid
    rw [← hpl] at hln
    obtain ⟨hcand, hkne, hkey⟩ := entry_key cfg g _ hp hln
    have hmsg : it.message = ln.message := by
      rw [hiteq]
      exact mkItem_message cfg g target tgt _ _ _ lid ln
    have hts : it.ts_sec = ln.ts_sec := by
      rw [hiteq]
      exact mkItem_ts cfg g target tgt _ _ _ lid ln
    have hid : it.log_id = lid := by
      rw [hiteq]
      exact mkItem_log_id cfg g target tgt _ _ _ lid ln
    refine ⟨?_, ?_, ?_⟩
    · rw [hmsg, hkey]
      exact hkne
    · rw [hid, ← hpl]
      exact hcand
    · intro lid' hlid' ln' hln' hkeq
      have hkne' : dedupKey cfg ln'.message ≠ [] := by
        rw [hkeq, hmsg, hkey]
        exact hkne
      obtain ⟨q, hq, hqk, hqd⟩ := (msg2bestOf_inv cfg g _).2.2 lid' hlid' ln' hln' hkne'
      have hqp : q = p := by
        apply sameKey_eq (msg2bestOf_inv cfg g _).2.1 hq hp
        rw [hqk, hkeq, hmsg, hkey]
      rw [hqp] at hqd
      have := hqd ln hln
      rw [hts]
      exact this

theorem retrieveItems_key_pairwise (cfg : RecallConfig) (g : GraphState)
    (target : ℤ) (tgt : LogNode) :
    List.Pairwise (fun a b : EvidenceItem =>
        dedupKey cfg a.message ≠ dedupKey cfg b.message)
      (retrieveItems cfg g target tgt) := by
  unfold retrieveItems
  rw [itemsOf_eq_filterMap]
  rw [List.pairwise_filterMap]
  have hnd : List.Pairwise (fun a b : ℤ => a ≠ b)
      (((msg2bestOf cfg g (candIdsOf (candStructFold cfg g target).1
        (timeCandMap cfg g target))).map (fun p => p.2)).dedup) :=
    List.nodup_dedup _
  refine List.Pairwise.imp_of_mem ?_ hnd
  intro a b ha hb hab x hx y hy
  cases hga : g.logs a with
  | none =>
    rw [hga] at hx
    exact absurd hx (by simp)
  | some lna =>
    cases hgb : g.logs b with
    | none =>
      rw [hgb] at hy
      exact absurd hy (by simp)
    | some lnb =>
      rw [hga] at hx
      rw [hgb] at hy
      have hxeq := Option.some.inj hx
      have hyeq := Option.some.inj hy
      obtain ⟨pa, hpa, hpal⟩ := dedup_value_entry cfg g _ ha
      obtain ⟨pb, hpb, hpbl⟩ := dedup_value_entry cfg g _ hb
      rw [← hpal] at hga
      rw [← hpbl] at hgb
      obtain ⟨_, _, hka⟩ := entry_key cfg g _ hpa hga
      obtain ⟨_, _, hkb⟩ := entry_key cfg g _ hpb hgb
      intro hcon
      rw [← hxeq, ← hyeq] at hcon
      rw [mkItem_message, mkItem_message] at hcon
      have hpapb : pa = pb := by
        apply sameKey_eq (msg2bestOf_inv cfg g _).2.1 hpa hpb
        rw [← hka, ← hkb]
        exact hcon
      apply hab
      rw [← hpal, ← hpbl, hpapb]

/-- C7: every evidence list returned by `dual_path_retrieve` has pairwise
distinct nonempty `normalize_message_for_dedup` keys, and each retained item
is a candidate whose timestamp is maximal among the resident candidates
sharing its key. -/
theorem claim_C7 (cfg : RecallConfig) (g : GraphState) (target : ℤ) :
    (∀ it ∈ dualPathRetrieve cfg g target,
      dedupKey cfg it.message ≠ [] ∧
      it.log_id ∈ candIdsOf (candStructFold cfg g target).1 (timeCandMap cfg g target) ∧
      ∀ lid' ∈ candIdsOf (candStructFold cfg g target).1 (timeCandMap cfg g target),
        ∀ ln', g.logs lid' = some ln' →
          dedupKey cfg ln'.message = dedupKey cfg it.message →
          ln'.ts_sec ≤ it.ts_sec) ∧
    List.Pairwise (fun a b : EvidenceItem =>
        dedupKey cfg a.message ≠ dedupKey cfg b.message)
      (dualPathRetrieve cfg g target) := by
  cases htgt : g.logs target with
  | none =>
    constructor
    · intro it hit
      unfold dualPathRetrieve at hit
      rw [htgt] at hit
      exact absurd hit (List.not_mem_nil it)
    · unfold dualPathRetrieve
      rw [htgt]
      exact List.Pairwise.nil
  | some tgt =>
    have hres : ∃ k, dualPathRetrieve cfg g target =
        (List.insertionSort itemRel (retrieveItems cfg g target tgt)).take k := by
      unfold dualPathRetrieve
      rw [htgt]
      dsimp only
      by_cases h0 : 0 ≤ cfg.evidence_budget_nmax
      · rw [if_pos h0]
        exact ⟨_, rfl⟩
      · rw [if_neg h0]
        exact ⟨_, rfl⟩
    obtain ⟨k, hk⟩ := hres
    rw [hk]
    constructor
    · intro it hit
      have hmem1 : it ∈ List.insertionSort itemRel (retrieveItems cfg g target tgt) :=
        List.take_subset k _ hit
      have hmem2 : it ∈ retrieveItems cfg g target tgt :=
        (List.perm_insertionSort itemRel _).mem_iff.mp hmem1
      exact retrieveItems_key_props cfg g target tgt it hmem2
    · have hsorted : List.Pairwise (fun a b : EvidenceItem =>
          dedupKey cfg a.message ≠ dedupKey cfg b.message)
          (List.insertionSort itemRel (retrieveItems cfg g target tgt)) :=
        ((List.perm_insertionSort itemRel _).pairwise_iff
          (fun h => Ne.symm h)).mpr
          (retrieveItems_key_pairwise cfg g target tgt)
      exact hsorted.sublist (List.take_sublist k _)


theorem tsv_some {g : GraphState} {lid : ℤ} {ln : LogNode}
    (h : g.logs lid = some ln) : tsv g lid = ln.ts_sec := by
  unfold tsv
  rw [h]
  rfl

theorem nxt_some {g : GraphState} {lid : ℤ} {ln : LogNode}
    (h : g.logs lid = some ln) : nxt g lid = some ln.next_log_id := by
  unfold nxt
  rw [h]
  rfl

theorem prv_some {g : GraphState} {lid : ℤ} {ln : LogNode}
    (h : g.logs lid = some ln) : prv g lid = some ln.prev_log_id := by
  unfold prv
  rw [h]
  rfl

theorem nxt_elim {g : GraphState} {lid : ℤ} {o : Option ℤ}
    (h : nxt g lid = some o) : ∃ ln, g.logs lid = some ln ∧ ln.next_log_id = o := by
  unfold nxt at h
  cases hg : g.logs lid with
  | none =>
    rw [hg] at h
    exact absurd h (by simp)
  | some ln =>
    rw [hg] at h
    refine ⟨ln, rfl, ?_⟩
    simpa using h

theorem followNext_chain (g : GraphState) :
    ∀ l : List ℤ, chainNext g l → followNext g l.length l.head? = l := by
  intro l
  induction l with
  | nil =>
    intro _
    rfl
  | cons a rest ih =>
    intro hch
    cases rest with
    | nil =>
      obtain ⟨ln, hln, hnext⟩ := nxt_elim hch
      show followNext g 1 (some a) = [a]
      unfold followNext
      rw [hln]
      dsimp only
      rw [hnext]
      rfl
    | cons b rest2 =>
      obtain ⟨hab, hch2⟩ := hch
      obtain ⟨ln, hln, hnext⟩ := nxt_elim hab
      show followNext g (rest2.length + 1 + 1) (some a) = a :: b :: rest2
      unfold followNext
      rw [hln]
      dsimp only
      rw [hnext]
      have := ih hch2
      simpa using this

theorem chainNext_congr {g g2 : GraphState} :
    ∀ {l : List ℤ}, (∀ x ∈ l, nxt g2 x = nxt g x) → chainNext g l →
      chainNext g2 l := by
  intro l
  induction l with
  | nil =>
    intro _ _
    trivial
  | cons a rest ih =>
    intro hpt hch
    cases rest with
    | nil =>
      show nxt g2 a = some none
      rw [hpt a (List.mem_singleton_self a)]
      exact hch
    | cons b rest2 =>
      obtain ⟨hab, hch2⟩ := hch
      refine ⟨?_, ?_⟩
      · rw [hpt a (List.mem_cons_self a _)]
        exact hab
      · exact ih (fun x hx => hpt x (List.mem_cons_of_mem a hx)) hch2

theorem foldl_eq_self {α β : Type _} {f : α → β → α} {a : α} :
    ∀ {l : List β}, (∀ x ∈ l, f a x = a) → l.foldl f a = a := by
  intro l
  induction l with
  | nil =>
    intro _
    rfl
  | cons x rest ih =>
    intro h
    rw [List.foldl_cons, h x (List.mem_cons_self x _)]
    exact ih (fun y hy => h y (List.mem_cons_of_mem x hy))

theorem chainInv_init (lts0 : ℤ) : ChainInv {} none lts0 := by
  refine ⟨?_, ?_, ?_, ?_, ?_, ?_, ?_, ?_, ?_, ?_, ?_⟩
  · intro lid
    simp [GraphState.logs]
  · intro lid ln h
    exact absurd h (by simp [GraphState.logs])
  · exact List.Pairwise.nil
  · exact List.Pairwise.nil
  · intro l hl
    exact absurd hl (List.not_mem_nil l)
  · intro l hl
    exact absurd hl (List.not_mem_nil l)
  · intro _
    exact ⟨rfl, rfl⟩
  · trivial
  · intro h
    exact absurd rfl h
  · intro l hl
    exact absurd hl (by simp [GraphState.last_log_id])
  · intro a ha
    exact absurd ha (by simp [GraphState.log_window])


theorem mem_getLast? {α : Type _} :
    ∀ {l : List α} {a : α}, l.getLast? = some a → a ∈ l := by
  intro l
  induction l with
  | nil =>
    intro a h
    exact absurd h (by simp)
  | cons x t ih =>
    intro a h
    cases t with
    | nil =>
      have : a = x := by
        simpa using h.symm
      rw [this]
      exact List.mem_singleton_self x
    | cons y t2 =>
      rw [List.getLast?_cons_cons] at h
      exact List.mem_cons_of_mem x (ih h)

theorem addLog_window (cfg : RecallConfig) (g : GraphState) (lid ts : ℤ)
    (msg : Str) (ents : List Str) (sev : ℤ) :
    (addLog cfg g lid ts msg ents sev).log_window = g.log_window ++ [lid] := rfl

theorem addLog_last (cfg : RecallConfig) (g : GraphState) (lid ts : ℤ)
    (msg : Str) (ents : List Str) (sev : ℤ) :
    (addLog cfg g lid ts msg ents sev).last_log_id = some lid := rfl

theorem addLog_logs_none {cfg : RecallConfig} {g : GraphState} {lid ts : ℤ}
    {msg : Str} {ents : List Str} {sev : ℤ}
    (hlast : g.last_log_id = none) :
    (addLog cfg g lid ts msg ents sev).logs = fun i =>
      if i = lid then
        some { log_id := lid, ts_sec := ts, message := msg, severity := sev }
      else g.logs i := by
  unfold addLog
  rw [hlast]

theorem addLog_logs_stale {cfg : RecallConfig} {g : GraphState} {lid ts : ℤ}
    {msg : Str} {ents : List Str} {sev : ℤ} {last : ℤ}
    (hlast : g.last_log_id = some last) (hne : last ≠ lid)
    (hst : g.logs last = none) :
    (addLog cfg g lid ts msg ents sev).logs = fun i =>
      if i = lid then
        some { log_id := lid, ts_sec := ts, message := msg, severity := sev }
      else g.logs i := by
  unfold addLog
  rw [hlast]
  dsimp only
  rw [if_neg hne, hst]

theorem addLog_logs_link {cfg : RecallConfig} {g : GraphState} {lid ts : ℤ}
    {msg : Str} {ents : List Str} {sev : ℤ} {last : ℤ} {prevNode : LogNode}
    (hlast : g.last_log_id = some last) (hne : last ≠ lid)
    (hst : g.logs last = some prevNode) :
    (addLog cfg g lid ts msg ents sev).logs = fun i =>
      if i = lid then
        some {
          log_id := lid,
          ts_sec := ts,
          message := msg,
          severity := sev,
          prev_log_id := some prevNode.log_id }
      else if i = last then some { prevNode with next_log_id := some lid }
      else g.logs i := by
  unfold addLog
  rw [hlast]
  dsimp only
  rw [if_neg hne, hst]
  dsimp only
  rw [if_neg hne]

theorem chainNext_snoc {g g2 : GraphState} :
    ∀ {w : List ℤ} {last lid : ℤ},
      w.getLast? = some last →
      List.Pairwise (fun a b : ℤ => a < b) w →
      chainNext g w →
      (∀ x ∈ w, x ≠ last → nxt g2 x = nxt g x) →
      nxt g2 last = some (some lid) →
      nxt g2 lid = some none →
      chainNext g2 (w ++ [lid]) := by
  intro w
  induction w with
  | nil =>
    intro last lid h
    exact absurd h (by simp)
  | cons a t ih =>
    intro last lid hgl hsort hch hpres hlink hend
    cases t with
    | nil =>
      have hal : a = last := by
        simpa using hgl
      show nxt g2 a = some (some lid) ∧ chainNext g2 [lid]
      rw [hal]
      exact ⟨hlink, hend⟩
    | cons b t2 =>
      rw [List.getLast?_cons_cons] at hgl
      have hlmem : last ∈ b :: t2 := mem_getLast? hgl
      have hane : a ≠ last := by
        have := (List.pairwise_cons.mp hsort).1 last hlmem
        exact ne_of_lt this
      obtain ⟨hab, hch2⟩ := hch
      refine ⟨?_, ?_⟩
      · rw [hpres a (List.mem_cons_self a _) hane]
        exact hab
      · exact ih hgl (List.pairwise_cons.mp hsort).2 hch2
          (fun x hx hxne => hpres x (List.mem_cons_of_mem a hx) hxne) hlink hend


theorem pairwise_one {α : Type _} {R : α → α → Prop} (a : α) : List.Pairwise R [a] :=
  List.Pairwise.cons (fun b hb => absurd hb (List.not_mem_nil b)) List.Pairwise.nil

theorem getLast?_append_one {α : Type _} (a : α) :
    ∀ l : List α, (l ++ [a]).getLast? = some a := by
  intro l
  induction l with
  | nil => rfl
  | cons x t ih =>
    rw [List.cons_append]
    cases ht : t ++ [a] with
    | nil =>
      exact absurd ht (by simp)
    | cons y t2 =>
      rw [List.getLast?_cons_cons, ← ht]
      exact ih

theorem getLast?_ne_nil {α : Type _} : ∀ {l : List α}, l ≠ [] → ∃ a, l.getLast? = some a := by
  intro l
  induction l with
  | nil =>
    intro h
    exact absurd rfl h
  | cons x t ih =>
    intro _
    cases t with
    | nil => exact ⟨x, rfl⟩
    | cons y t2 =>
      obtain ⟨a, ha⟩ := ih (by simp)
      exact ⟨a, by rw [List.getLast?_cons_cons]; exact ha⟩

theorem addLog_inv {cfg : RecallConfig} {g : GraphState} {mid : Option ℤ} {lts : ℤ}
    (hI : ChainInv g mid lts) {lid ts : ℤ}
    (hfresh : ∀ m, mid = some m → m < lid) (hts : lts ≤ ts)
    (msg : Str) (ents : List Str) (sev : ℤ) :
    ChainInv (addLog cfg g lid ts msg ents sev) (some lid) ts := by
  by_cases hwin : g.log_window = []
  · have hlogsU : (addLog cfg g lid ts msg ents sev).logs = fun i =>
        if i = lid then
          some { log_id := lid, ts_sec := ts, message := msg, severity := sev }
        else g.logs i := by
      cases hlast : g.last_log_id with
      | none => exact addLog_logs_none hlast
      | some last =>
        cases hmid : mid with
        | none =>
          have hz := (hI.fresh0 hmid).2
          rw [hlast] at hz
          exact absurd hz (by simp)
        | some m =>
          have hlm : last ≤ m := hI.lastb last hlast m hmid
          have hne : last ≠ lid := ne_of_lt (lt_of_le_of_lt hlm (hfresh m hmid))
          have hst : g.logs last = none := by
            cases hgl : g.logs last with
            | none => rfl
            | some x =>
              have hres : (g.logs last).isSome = true := by
                rw [hgl]
                rfl
              have := (hI.dom last).mp hres
              rw [hwin] at this
              exact absurd this (List.not_mem_nil last)
          exact addLog_logs_stale hlast hne hst
    have hw2 : (addLog cfg g lid ts msg ents sev).log_window = [lid] := by
      rw [addLog_window, hwin]
      rfl
    have htsvlid : tsv (addLog cfg g lid ts msg ents sev) lid = ts := by
      unfold tsv
      rw [hlogsU]
      dsimp only
      rw [if_pos rfl]
      rfl
    refine ⟨?_, ?_, ?_, ?_, ?_, ?_, ?_, ?_, ?_, ?_, ?_⟩
    · intro i
      rw [hw2, hlogsU]
      dsimp only
      by_cases hi : i = lid
      · rw [if_pos hi]
        simp [hi]
      · rw [if_neg hi]
        constructor
        · intro hres
          have hmem := (hI.dom i).mp hres
          rw [hwin] at hmem
          exact absurd hmem (List.not_mem_nil i)
        · intro hmem
          exact absurd (List.mem_singleton.mp hmem) hi
    · intro i ln h
      rw [hlogsU] at h
      dsimp only at h
      by_cases hi : i = lid
      · rw [if_pos hi] at h
        have h9 := Option.some.inj h
        rw [← h9, hi]
      · rw [if_neg hi] at h
        exact hI.idf i ln h
    · rw [hw2]
      exact pairwise_one lid
    · rw [hw2]
      exact pairwise_one lid
    · intro l hl
      rw [hw2] at hl
      rw [List.mem_singleton.mp hl, htsvlid]
    · intro l hl m hm
      rw [hw2] at hl
      rw [List.mem_singleton.mp hl, ← Option.some.inj hm]
    · intro h
      exact absurd h (by simp)
    · rw [hw2]
      show nxt (addLog cfg g lid ts msg ents sev) lid = some none
      unfold nxt
      rw [hlogsU]
      dsimp only
      rw [if_pos rfl]
      rfl
    · intro _
      rw [addLog_last, hw2]
      rfl
    · intro l hl m hm
      rw [addLog_last] at hl
      rw [← Option.some.inj hl, ← Option.some.inj hm]
    · intro a ha p hp
      rw [hw2] at ha
      have ha2 : a = lid := (Option.some.inj ha).symm
      rw [ha2] at hp
      unfold prv at hp
      rw [hlogsU] at hp
      dsimp only at hp
      rw [if_pos rfl] at hp
      have h9 := Option.some.inj hp
      exact absurd h9.symm (by simp)
  · have hlast : g.last_log_id = g.log_window.getLast? := hI.lastw hwin
    obtain ⟨last, hgl⟩ := getLast?_ne_nil hwin
    have hlastid : g.last_log_id = some last := by
      rw [hlast]
      exact hgl
    have hlmem : last ∈ g.log_window := mem_getLast? hgl
    obtain ⟨m, hm⟩ : ∃ m, mid = some m := by
      cases hmid : mid with
      | none => exact absurd (hI.fresh0 hmid).1 hwin
      | some m => exact ⟨m, rfl⟩
    have hmlt : m < lid := hfresh m hm
    have hwlt : ∀ x ∈ g.log_window, x < lid :=
      fun x hx => lt_of_le_of_lt (hI.idbound x hx m hm) hmlt
    have hne : last ≠ lid := ne_of_lt (hwlt last hlmem)
    obtain ⟨prevNode, hres⟩ : ∃ pn, g.logs last = some pn := by
      have hs := (hI.dom last).mpr hlmem
      cases hgl2 : g.logs last with
      | none =>
        rw [hgl2] at hs
        exact absurd hs (by simp)
      | some pn => exact ⟨pn, rfl⟩
    have hpid : prevNode.log_id = last := hI.idf last prevNode hres
    have hlogsL := @addLog_logs_link cfg g lid ts msg ents sev last prevNode
      hlastid hne hres
    have huntouched : ∀ x, x ≠ lid → x ≠ last →
        (addLog cfg g lid ts msg ents sev).logs x = g.logs x := by
      intro x h1 h2
      rw [hlogsL]
      dsimp only
      rw [if_neg h1, if_neg h2]
    have hlogslast : (addLog cfg g lid ts msg ents sev).logs last =
        some { prevNode with next_log_id := some lid } := by
      rw [hlogsL]
      dsimp only
      rw [if_neg hne, if_pos rfl]
    have hlogslid : (addLog cfg g lid ts msg ents sev).logs lid =
        some {
          log_id := lid,
          ts_sec := ts,
          message := msg,
          severity := sev,
          prev_log_id := some prevNode.log_id } := by
      rw [hlogsL]
      dsimp only
      rw [if_pos rfl]
    have htsv : ∀ x ∈ g.log_window,
        tsv (addLog cfg g lid ts msg ents sev) x = tsv g x := by
      intro x hx
      by_cases hxl : x = last
      · rw [hxl]
        unfold tsv
        rw [hlogslast, hres]
        rfl
      · unfold tsv
        rw [huntouched x (ne_of_lt (hwlt x hx)) hxl]
    have htsvlid : tsv (addLog cfg g lid ts msg ents sev) lid = ts := by
      unfold tsv
      rw [hlogslid]
      rfl
    have hnxt : ∀ x ∈ g.log_window, x ≠ last →
        nxt (addLog cfg g lid ts msg ents sev) x = nxt g x := by
      intro x hx hxl
      unfold nxt
      rw [huntouched x (ne_of_lt (hwlt x hx)) hxl]
    have hnxtlast : nxt (addLog cfg g lid ts msg ents sev) last = some (some lid) := by
      unfold nxt
      rw [hlogslast]
      rfl
    have hnxtlid : nxt (addLog cfg g lid ts msg ents sev) lid = some none := by
      unfold nxt
      rw [hlogslid]
      rfl
    refine ⟨?_, ?_, ?_, ?_, ?_, ?_, ?_, ?_, ?_, ?_, ?_⟩
    · intro i
      rw [addLog_window]
      by_cases hi : i = lid
      · rw [hi, hlogslid]
        simp
      · by_cases hil : i = last
        · rw [hil, hlogslast]
          constructor
          · intro _
            exact List.mem_append_left _ hlmem
          · intro _
            rfl
        · rw [huntouched i hi hil]
          constructor
          · intro hs
            exact List.mem_append_left _ ((hI.dom i).mp hs)
          · intro hmem
            rcases List.mem_append.mp hmem with h | h
            · exact (hI.dom i).mpr h
            · exact absurd (List.mem_singleton.mp h) hi
    · intro i ln h
      by_cases hi : i = lid
      · rw [hi, hlogslid] at h
        have h9 := Option.some.inj h
        rw [← h9, hi]
      · by_cases hil : i = last
        · rw [hil, hlogslast] at h
          have h9 := Option.some.inj h
          rw [← h9, hil]
          exact hpid
        · exact hI.idf i ln (by rw [← huntouched i hi hil]; exact h)
    · rw [addLog_window]
      rw [List.pairwise_append]
      refine ⟨hI.sorted, pairwise_one lid, ?_⟩
      intro a ha b hb
      rw [List.mem_singleton.mp hb]
      exact hwlt a ha
    · rw [addLog_window]
      rw [List.pairwise_append]
      refine ⟨?_, pairwise_one lid, ?_⟩
      · refine List.Pairwise.imp_of_mem ?_ hI.tsmono
        intro a b ha hb hab
        rw [htsv a ha, htsv b hb]
        exact hab
      · intro a ha b hb
        rw [List.mem_singleton.mp hb, htsv a ha, htsvlid]
        exact le_trans (hI.tsbound a ha) hts
    · intro l hl
      rw [addLog_window] at hl
      rcases List.mem_append.mp hl with h | h
      · rw [htsv l h]
        exact le_trans (hI.tsbound l h) hts
      · rw [List.mem_singleton.mp h, htsvlid]
    · intro l hl m2 hm2
      rw [addLog_window] at hl
      rw [← Option.some.inj hm2]
      rcases List.mem_append.mp hl with h | h
      · exact le_of_lt (hwlt l h)
      · rw [List.mem_singleton.mp h]
    · intro h
      exact absurd h (by simp)
    · rw [addLog_window]
      exact chainNext_snoc hgl hI.sorted hI.chain hnxt hnxtlast hnxtlid
    · intro _
      rw [addLog_last, addLog_window, getLast?_append_one]
    · intro l hl m2 hm2
      rw [addLog_last] at hl
      rw [← Option.some.inj hl, ← Option.some.inj hm2]
    · intro a ha p hp
      rw [addLog_window] at ha
      cases hwl : g.log_window with
      | nil => exact absurd hwl hwin
      | cons a0 t =>
        rw [hwl] at ha
        have ha2 : a = a0 := by
          rw [List.cons_append] at ha
          exact (Option.some.inj ha).symm
        have ha0mem : a0 ∈ g.log_window := by
          rw [hwl]
          exact List.mem_cons_self a0 t
        have hprv : prv (addLog cfg g lid ts msg ents sev) a0 = prv g a0 := by
          by_cases hal : a0 = last
          · rw [hal]
            unfold prv
            rw [hlogslast, hres]
            rfl
          · unfold prv
            rw [huntouched a0 (ne_of_lt (hwlt a0 ha0mem)) hal]
        rw [ha2] at hp
        rw [hprv] at hp
        rw [ha2]
        refine hI.headp a0 ?_ p hp
        rw [hwl]
        rfl


theorem removeLog_window (g : GraphState) (lid : ℤ) :
    (removeLog g lid).log_window = g.log_window := rfl

theorem removeLog_single {g : GraphState} {lid : ℤ} {ln : LogNode}
    (hln : g.logs lid = some ln)
    (hprev : ∀ p, ln.prev_log_id = some p → p ≠ lid ∧ g.logs p = none)
    (hnext : ln.next_log_id = none)
    (hlast : g.last_log_id = some lid) :
    (removeLog g lid).logs = (fun i => if i = lid then none else g.logs i) ∧
      (removeLog g lid).last_log_id = ln.prev_log_id := by
  unfold removeLog
  rw [hln]
  dsimp only
  cases hp : ln.prev_log_id with
  | none =>
    rw [hnext]
    dsimp only
    rw [if_pos hlast]
    exact ⟨rfl, rfl⟩
  | some p =>
    obtain ⟨hpne, hpnone⟩ := hprev p hp
    dsimp only
    rw [if_neg hpne, hpnone]
    rw [hnext]
    dsimp only
    rw [if_pos hlast]
    exact ⟨rfl, rfl⟩

theorem removeLog_step {g : GraphState} {lid : ℤ} {ln : LogNode} {nx : ℤ} {nn : LogNode}
    (hln : g.logs lid = some ln)
    (hprev : ∀ p, ln.prev_log_id = some p → p ≠ lid ∧ g.logs p = none)
    (hnext : ln.next_log_id = some nx) (hnxne : nx ≠ lid)
    (hnn : g.logs nx = some nn)
    (hlastne : ¬ g.last_log_id = some lid) :
    (removeLog g lid).logs = (fun i =>
        if i = nx then some { nn with prev_log_id := ln.prev_log_id }
        else if i = lid then none else g.logs i) ∧
      (removeLog g lid).last_log_id = g.last_log_id := by
  unfold removeLog
  rw [hln]
  dsimp only
  cases hp : ln.prev_log_id with
  | none =>
    rw [hnext]
    dsimp only
    rw [if_neg hnxne, hnn]
    dsimp only
    rw [if_pos (show (some nn).isSome = true from rfl)]
    rw [if_neg hlastne]
    rw [← hp]
    exact ⟨rfl, rfl⟩
  | some p =>
    obtain ⟨hpne, hpnone⟩ := hprev p hp
    dsimp only
    rw [if_neg hpne, hpnone]
    rw [hnext]
    dsimp only
    rw [if_neg hnxne, hnn]
    dsimp only
    rw [if_pos (show (some nn).isSome = true from rfl)]
    rw [if_neg hlastne]
    rw [← hp]
    exact ⟨rfl, rfl⟩


theorem removeLog_head_inv {g : GraphState} {mid : Option ℤ} {lts : ℤ}
    (hI : ChainInv g mid lts) {lid : ℤ} {rest : List ℤ}
    (hw : g.log_window = lid :: rest) :
    ChainInv (removeLog { g with log_window := rest } lid) mid lts := by
  have hmem : lid ∈ g.log_window := by
    rw [hw]
    exact List.mem_cons_self lid rest
  have hsort0 := hI.sorted
  rw [hw] at hsort0
  have hlt : ∀ x ∈ rest, lid < x := (List.pairwise_cons.mp hsort0).1
  have hsrest : List.Pairwise (fun a b : ℤ => a < b) rest :=
    (List.pairwise_cons.mp hsort0).2
  obtain ⟨ln, hln⟩ : ∃ ln, g.logs lid = some ln := by
    have hs := (hI.dom lid).mpr hmem
    cases hgl : g.logs lid with
    | none =>
      rw [hgl] at hs
      exact absurd hs (by simp)
    | some x => exact ⟨x, rfl⟩
  have hheadp := hI.headp lid (by rw [hw]; rfl)
  have hprevlt : ∀ p, ln.prev_log_id = some p → p < lid := by
    intro p hp
    exact hheadp p (by rw [prv_some hln, hp])
  have hprev : ∀ p, ln.prev_log_id = some p → p ≠ lid ∧ g.logs p = none := by
    intro p hp
    have hplt := hprevlt p hp
    refine ⟨ne_of_lt hplt, ?_⟩
    cases hgp : g.logs p with
    | none => rfl
    | some x =>
      have hmemp := (hI.dom p).mp (by rw [hgp]; rfl)
      rw [hw] at hmemp
      rcases List.mem_cons.mp hmemp with h | h
      · exact absurd h (ne_of_lt hplt)
      · exact absurd hplt (not_lt_of_lt (hlt p h))
  have hchain0 := hI.chain
  rw [hw] at hchain0
  have htsmono0 := hI.tsmono
  rw [hw] at htsmono0
  have hmidne : mid ≠ none := by
    intro hmid
    have hz := (hI.fresh0 hmid).1
    rw [hw] at hz
    exact absurd hz (by simp)
  cases rest with
  | nil =>
    have hnext : ln.next_log_id = none := by
      have h1 : nxt g lid = some none := hchain0
      rw [nxt_some hln] at h1
      exact Option.some.inj h1
    have hlast : g.last_log_id = some lid := by
      have hlw := hI.lastw (by rw [hw]; simp)
      rw [hw] at hlw
      rw [hlw]
      rfl
    obtain ⟨hlogs1, hlast1⟩ :=
      @removeLog_single { g with log_window := ([] : List ℤ) } lid ln
        hln hprev hnext hlast
    refine ⟨?_, ?_, ?_, ?_, ?_, ?_, ?_, ?_, ?_, ?_, ?_⟩
    · intro i
      rw [hlogs1]
      dsimp only
      show _ ↔ i ∈ ([] : List ℤ)
      by_cases hi : i = lid
      · rw [if_pos hi]
        simp
      · rw [if_neg hi]
        constructor
        · intro hs
          have hmemi := (hI.dom i).mp hs
          rw [hw] at hmemi
          rcases List.mem_cons.mp hmemi with h | h
          · exact absurd h hi
          · exact absurd h (List.not_mem_nil i)
        · intro hmemi
          exact absurd hmemi (List.not_mem_nil i)
    · intro i ln2 hln2
      rw [hlogs1] at hln2
      dsimp only at hln2
      by_cases hi : i = lid
      · rw [if_pos hi] at hln2
        exact absurd hln2 (by simp)
      · rw [if_neg hi] at hln2
        exact hI.idf i ln2 hln2
    · exact List.Pairwise.nil
    · exact List.Pairwise.nil
    · intro l hl
      exact absurd hl (List.not_mem_nil l)
    · intro l hl
      exact absurd hl (List.not_mem_nil l)
    · intro hmid
      exact absurd hmid hmidne
    · show chainNext _ ([] : List ℤ)
      trivial
    · intro h
      exact absurd rfl h
    · intro l hl m2 hm2
      rw [hlast1] at hl
      have hplt := hprevlt l hl
      exact le_of_lt (lt_of_lt_of_le hplt (hI.idbound lid hmem m2 hm2))
    · intro a ha
      have ha2 : ([] : List ℤ).head? = some a := ha
      exact absurd ha2 (by simp)
  | cons h2 rest2 =>
    have hchain2 : nxt g lid = some (some h2) ∧ chainNext g (h2 :: rest2) := hchain0
    have hnext : ln.next_log_id = some h2 := by
      have h1 := hchain2.1
      rw [nxt_some hln] at h1
      exact Option.some.inj h1
    have hh2lt : lid < h2 := hlt h2 (List.mem_cons_self h2 rest2)
    have hnxne : h2 ≠ lid := ne_of_gt hh2lt
    obtain ⟨nn, hnn⟩ : ∃ nn, g.logs h2 = some nn := by
      have hs := (hI.dom h2).mpr (by rw [hw]; exact List.mem_cons_of_mem lid (List.mem_cons_self h2 rest2))
      cases hgl : g.logs h2 with
      | none =>
        rw [hgl] at hs
        exact absurd hs (by simp)
      | some x => exact ⟨x, rfl⟩
    have hlastne : ¬ g.last_log_id = some lid := by
      intro hcon
      have hlw := hI.lastw (by rw [hw]; simp)
      rw [hw, List.getLast?_cons_cons, hcon] at hlw
      have hmem2 : lid ∈ h2 :: rest2 := mem_getLast? hlw.symm
      exact lt_irrefl lid (hlt lid hmem2)
    obtain ⟨hlogs1, hlast1⟩ :=
      @removeLog_step { g with log_window := h2 :: rest2 } lid ln h2 nn
        hln hprev hnext hnxne hnn hlastne
    have hunt : ∀ x, x ≠ h2 → x ≠ lid →
        (removeLog { g with log_window := h2 :: rest2 } lid).logs x = g.logs x := by
      intro x hx1 hx2
      rw [hlogs1]
      dsimp only
      rw [if_neg hx1, if_neg hx2]
    have hlogsh2 : (removeLog { g with log_window := h2 :: rest2 } lid).logs h2 =
        some { nn with prev_log_id := ln.prev_log_id } := by
      rw [hlogs1]
      dsimp only
      rw [if_pos rfl]
    have hlogslid : (removeLog { g with log_window := h2 :: rest2 } lid).logs lid = none := by
      rw [hlogs1]
      dsimp only
      rw [if_neg (ne_of_lt hh2lt), if_pos rfl]
    have hnelid : ∀ x ∈ h2 :: rest2, x ≠ lid :=
      fun x hx => ne_of_gt (hlt x hx)
    have htsv : ∀ x ∈ h2 :: rest2, tsv (removeLog { g with log_window := h2 :: rest2 } lid) x = tsv g x := by
      intro x hx
      by_cases hxh : x = h2
      · rw [hxh]
        unfold tsv
        rw [hlogsh2, hnn]
        rfl
      · unfold tsv
        rw [hunt x hxh (hnelid x hx)]
    have hnxtp : ∀ x ∈ h2 :: rest2, nxt (removeLog { g with log_window := h2 :: rest2 } lid) x = nxt g x := by
      intro x hx
      by_cases hxh : x = h2
      · rw [hxh]
        unfold nxt
        rw [hlogsh2, hnn]
        rfl
      · unfold nxt
        rw [hunt x hxh (hnelid x hx)]
    refine ⟨?_, ?_, ?_, ?_, ?_, ?_, ?_, ?_, ?_, ?_, ?_⟩
    · intro i
      show _ ↔ i ∈ h2 :: rest2
      by_cases hih : i = h2
      · rw [hih, hlogsh2]
        simp
      · by_cases hil : i = lid
        · rw [hil, hlogslid]
          constructor
          · intro hs
            exact absurd hs (by simp)
          · intro hmemi
            exact absurd rfl (hnelid lid hmemi)
        · rw [hunt i hih hil]
          have hd := hI.dom i
          rw [hw] at hd
          constructor
          · intro hs
            rcases List.mem_cons.mp (hd.mp hs) with h | h
            · exact absurd h hil
            · exact h
          · intro hmemi
            exact hd.mpr (List.mem_cons_of_mem lid hmemi)
    · intro i ln2 hln2
      by_cases hih : i = h2
      · rw [hih, hlogsh2] at hln2
        have h9 := Option.some.inj hln2
        rw [← h9, hih]
        exact hI.idf h2 nn hnn
      · by_cases hil : i = lid
        · rw [hil, hlogslid] at hln2
          exact absurd hln2 (by simp)
        · exact hI.idf i ln2 (by rw [← hunt i hih hil]; exact hln2)
    · exact hsrest
    · refine List.Pairwise.imp_of_mem ?_ ((List.pairwise_cons.mp htsmono0).2)
      intro a b ha hb hab
      rw [htsv a ha, htsv b hb]
      exact hab
    · intro l hl
      rw [htsv l hl]
      refine hI.tsbound l ?_
      rw [hw]
      exact List.mem_cons_of_mem lid hl
    · intro l hl m2 hm2
      refine hI.idbound l ?_ m2 hm2
      rw [hw]
      exact List.mem_cons_of_mem lid hl
    · intro hmid
      exact absurd hmid hmidne
    · exact chainNext_congr hnxtp hchain2.2
    · intro _
      rw [hlast1]
      have hlw := hI.lastw (by rw [hw]; simp)
      rw [hw, List.getLast?_cons_cons] at hlw
      exact hlw
    · intro l hl m2 hm2
      rw [hlast1] at hl
      exact hI.lastb l hl m2 hm2
    · intro a ha p hp
      have ha2 : a = h2 := (Option.some.inj ha).symm
      rw [ha2] at hp
      rw [show prv (removeLog { g with log_window := h2 :: rest2 } lid) h2 = some ln.prev_log_id from by
        unfold prv
        rw [hlogsh2]
        rfl] at hp
      have hpe : ln.prev_log_id = some p := Option.some.inj hp
      have hplt := hprevlt p hpe
      rw [ha2]
      exact lt_trans hplt hh2lt


theorem dom_resident {g : GraphState}
    (hdom : ∀ lid, (g.logs lid).isSome = true ↔ lid ∈ g.log_window)
    {x : ℤ} (hx : x ∈ g.log_window) : ∃ ln, g.logs x = some ln := by
  have hs := (hdom x).mpr hx
  cases hgl : g.logs x with
  | none =>
    rw [hgl] at hs
    exact absurd hs (by simp)
  | some ln => exact ⟨ln, rfl⟩

theorem chainInv_lts_mono {g : GraphState} {mid : Option ℤ} {lts lts2 : ℤ}
    (hI : ChainInv g mid lts) (h : lts ≤ lts2) : ChainInv g mid lts2 :=
  ⟨hI.dom, hI.idf, hI.sorted, hI.tsmono,
    fun l hl => le_trans (hI.tsbound l hl) h,
    hI.idbound, hI.fresh0, hI.chain, hI.lastw, hI.lastb, hI.headp⟩

theorem evictGo_succ (cutoff : ℤ) (fuel : ℕ) (g : GraphState) :
    evictGo cutoff (fuel + 1) g =
      match g.log_window with
      | [] => g
      | lid :: rest =>
        match g.logs lid with
        | none => g
        | some ln =>
          if ln.ts_sec < cutoff then
            evictGo cutoff fuel (removeLog { g with log_window := rest } lid)
          else g := rfl

theorem evictGo_inv {cutoff : ℤ} :
    ∀ (fuel : ℕ) {g : GraphState} {mid : Option ℤ} {lts : ℤ},
      ChainInv g mid lts → g.log_window.length ≤ fuel →
      ChainInv (evictGo cutoff fuel g) mid lts ∧
        ∀ l ∈ (evictGo cutoff fuel g).log_window,
          cutoff ≤ tsv (evictGo cutoff fuel g) l := by
  intro fuel
  induction fuel with
  | zero =>
    intro g mid lts hI hlen
    have hwnil : g.log_window = [] :=
      List.eq_nil_of_length_eq_zero (Nat.le_zero.mp hlen)
    refine ⟨hI, ?_⟩
    intro l hl
    show cutoff ≤ tsv g l
    have hl2 : l ∈ g.log_window := hl
    rw [hwnil] at hl2
    exact absurd hl2 (List.not_mem_nil l)
  | succ fuel ih =>
    intro g mid lts hI hlen
    cases hwl : g.log_window with
    | nil =>
      have hg : evictGo cutoff (fuel + 1) g = g := by
        rw [evictGo_succ, hwl]
      rw [hg]
      refine ⟨hI, ?_⟩
      intro l hl
      rw [hwl] at hl
      exact absurd hl (List.not_mem_nil l)
    | cons lid rest =>
      obtain ⟨ln, hln⟩ := dom_resident hI.dom (by rw [hwl]; exact List.mem_cons_self lid rest)
      by_cases hts : ln.ts_sec < cutoff
      · have hg : evictGo cutoff (fuel + 1) g =
            evictGo cutoff fuel (removeLog { g with log_window := rest } lid) := by
          rw [evictGo_succ, hwl]
          dsimp only
          rw [hln]
          dsimp only
          rw [if_pos hts]
        rw [hg]
        have hI2 := removeLog_head_inv hI hwl
        have hlen2 :
            (removeLog { g with log_window := rest } lid).log_window.length ≤ fuel := by
          rw [removeLog_window]
          show rest.length ≤ fuel
          rw [hwl] at hlen
          exact Nat.succ_le_succ_iff.mp hlen
        exact ih hI2 hlen2
      · have hg : evictGo cutoff (fuel + 1) g = g := by
          rw [evictGo_succ, hwl]
          dsimp only
          rw [hln]
          dsimp only
          rw [if_neg hts]
        rw [hg]
        refine ⟨hI, ?_⟩
        intro l hl
        rw [hwl] at hl
        have hcut : cutoff ≤ tsv g lid := by
          rw [tsv_some hln]
          exact le_of_not_lt hts
        rcases List.mem_cons.mp hl with h | h
        · rw [h]
          exact hcut
        · have htsm := hI.tsmono
          rw [hwl] at htsm
          exact le_trans hcut ((List.pairwise_cons.mp htsm).1 l h)

theorem evictLogs_inv {cfg : RecallConfig} {g : GraphState} {mid : Option ℤ}
    {lts now : ℤ} (hI : ChainInv g mid lts) :
    ChainInv (evictLogs cfg g now) mid lts ∧
      (0 < cfg.graph_window_t_sec →
        ∀ l ∈ (evictLogs cfg g now).log_window,
          now - cfg.graph_window_t_sec ≤ tsv (evictLogs cfg g now) l) := by
  unfold evictLogs
  by_cases hT : cfg.graph_window_t_sec ≤ 0
  · rw [if_pos hT]
    exact ⟨hI, fun hpos => absurd hT (not_le_of_lt hpos)⟩
  · rw [if_neg hT]
    obtain ⟨h1, h2⟩ := evictGo_inv g.log_window.length hI (le_refl _)
    exact ⟨h1, fun _ => h2⟩

theorem pruneEntities_chain_eq (cfg : RecallConfig) (g : GraphState) :
    (pruneEntities cfg g).logs = g.logs ∧
      (pruneEntities cfg g).log_window = g.log_window ∧
      (pruneEntities cfg g).last_log_id = g.last_log_id := by
  unfold pruneEntities
  by_cases h1 : cfg.activity_epsilon ≤ 0
  · rw [if_pos h1]
    exact ⟨rfl, rfl, rfl⟩
  · rw [if_neg h1]
    by_cases h2 : g.step % 256 ≠ 0
    · rw [if_pos h2]
      exact ⟨rfl, rfl, rfl⟩
    · rw [if_neg h2]
      exact ⟨rfl, rfl, rfl⟩

theorem chainInv_congr {g g2 : GraphState} (hl : g2.logs = g.logs)
    (hw : g2.log_window = g.log_window) (hla : g2.last_log_id = g.last_log_id)
    {mid : Option ℤ} {lts : ℤ} (hI : ChainInv g mid lts) : ChainInv g2 mid lts := by
  have htsv : ∀ x, tsv g2 x = tsv g x := by
    intro x
    unfold tsv
    rw [hl]
  have hnxt : ∀ x, nxt g2 x = nxt g x := by
    intro x
    unfold nxt
    rw [hl]
  have hprv2 : ∀ x, prv g2 x = prv g x := by
    intro x
    unfold prv
    rw [hl]
  refine ⟨?_, ?_, ?_, ?_, ?_, ?_, ?_, ?_, ?_, ?_, ?_⟩
  · intro lid
    rw [hl, hw]
    exact hI.dom lid
  · intro lid ln h
    rw [hl] at h
    exact hI.idf lid ln h
  · rw [hw]
    exact hI.sorted
  · rw [hw]
    refine List.Pairwise.imp_of_mem ?_ hI.tsmono
    intro a b _ _ hab
    rw [htsv a, htsv b]
    exact hab
  · intro l hlm
    rw [hw] at hlm
    rw [htsv l]
    exact hI.tsbound l hlm
  · intro l hlm
    rw [hw] at hlm
    exact hI.idbound l hlm
  · intro hmid
    rw [hw, hla]
    exact hI.fresh0 hmid
  · rw [hw]
    exact chainNext_congr (fun x _ => hnxt x) hI.chain
  · intro hne
    rw [hw] at hne
    rw [hw, hla]
    exact hI.lastw hne
  · intro l hlm
    rw [hla] at hlm
    exact hI.lastb l hlm
  · intro a ha p hp
    rw [hw] at ha
    rw [hprv2 a] at hp
    exact hI.headp a ha p hp

theorem pruneEdges_noop {cfg : RecallConfig} (hdecay : cfg.decay_lambda = none)
    {g : GraphState} {now : ℤ}
    (hdom : ∀ lid, (g.logs lid).isSome = true ↔ lid ∈ g.log_window)
    (hpost : 0 < cfg.graph_window_t_sec →
      ∀ l ∈ g.log_window, now - cfg.graph_window_t_sec ≤ tsv g l) :
    pruneEdges cfg g now = g := by
  unfold pruneEdges
  by_cases hθ : cfg.theta_w ≤ 0
  · rw [if_pos hθ]
  · rw [if_neg hθ]
    dsimp only
    by_cases hlam : lamOf cfg ≤ 0
    · rw [if_pos hlam]
    · rw [if_neg hlam]
      have hcond : ¬ ((cfg.graph_window_t_sec : ℝ) ≤ 0 ∨ cfg.theta_w ≤ 0) := by
        intro hor
        apply hlam
        unfold lamOf
        rw [hdecay]
        dsimp only
        rw [if_pos hor]
      have hT2 : ¬ (cfg.graph_window_t_sec : ℝ) ≤ 0 := fun h => hcond (Or.inl h)
      have hTpos : (0 : ℝ) < (cfg.graph_window_t_sec : ℝ) := lt_of_not_le hT2
      have hlam_eq : lamOf cfg =
          (-Real.log cfg.theta_w) / (cfg.graph_window_t_sec : ℝ) := by
        unfold lamOf
        rw [hdecay]
        dsimp only
        rw [if_neg hcond]
      have hlampos : 0 < lamOf cfg := lt_of_not_le hlam
      have hapos : 0 < -Real.log cfg.theta_w := by
        have hx := hlampos
        rw [hlam_eq] at hx
        rcases div_pos_iff.mp hx with h | h
        · exact h.1
        · exact absurd h.2 (not_lt_of_lt hTpos)
      have hTeq : (-Real.log cfg.theta_w) / lamOf cfg =
          (cfg.graph_window_t_sec : ℝ) := by
        rw [hlam_eq, div_div_eq_mul_div, mul_comm, mul_div_assoc,
          div_self (ne_of_gt hapos), mul_one]
      have hceil : (⌈(-Real.log cfg.theta_w) / lamOf cfg⌉ : ℤ) =
          cfg.graph_window_t_sec := by
        rw [hTeq]
        exact Int.ceil_intCast _
      rw [hceil]
      have hTposZ : 0 < cfg.graph_window_t_sec := by exact_mod_cast hTpos
      rw [if_neg (not_le_of_lt hTposZ)]
      have hcut : ∀ l ∈ g.log_window,
          now - cfg.graph_window_t_sec ≤ tsv g l := hpost hTposZ
      have hwipe : ∀ x ∈ g.log_window,
          pruneWipeStep (now - cfg.graph_window_t_sec) g x = g := by
        intro x hx
        obtain ⟨ln, hln⟩ := dom_resident hdom hx
        unfold pruneWipeStep
        rw [hln]
        dsimp only
        rw [if_pos (by rw [← tsv_some hln]; exact hcut x hx)]
      rw [foldl_eq_self hwipe]
      have hdetach : ∀ x ∈ g.log_window,
          pruneDetachStep (now - cfg.graph_window_t_sec) g x = g := by
        intro x hx
        obtain ⟨ln, hln⟩ := dom_resident hdom hx
        unfold pruneDetachStep
        rw [hln]
        dsimp only
        cases hpv : ln.prev_log_id with
        | none => rfl
        | some p =>
          dsimp only
          rw [if_neg (not_lt_of_le (by rw [← tsv_some hln]; exact hcut x hx))]
      exact foldl_eq_self hdetach

theorem tick_inv {cfg : RecallConfig} (hdecay : cfg.decay_lambda = none)
    {g : GraphState} {mid : Option ℤ} {lts now : ℤ}
    (hI : ChainInv g mid lts) (hlenow : lts ≤ now) :
    ChainInv (tick cfg g now) mid now := by
  unfold tick
  obtain ⟨hI1, hpost⟩ := @evictLogs_inv cfg g mid lts now hI
  rw [pruneEdges_noop hdecay hI1.dom hpost]
  obtain ⟨hl, hw, hla⟩ := pruneEntities_chain_eq cfg (evictLogs cfg g now)
  exact chainInv_congr hl hw hla (chainInv_lts_mono hI1 hlenow)

theorem runOps_inv {cfg : RecallConfig} (hdecay : cfg.decay_lambda = none) :
    ∀ (ops : List GOp) {g : GraphState} {mid : Option ℤ} {lts : ℤ},
      ChainInv g mid lts → opsValid mid lts ops →
      ∃ mid2 lts2, ChainInv (runOps cfg g ops) mid2 lts2 := by
  intro ops
  induction ops with
  | nil =>
    intro g mid lts hI _
    exact ⟨mid, lts, hI⟩
  | cons op rest ih =>
    intro g mid lts hI hv
    cases op with
    | add lid ts msg ents sev =>
      obtain ⟨hfresh, hts, hv2⟩ := hv
      exact ih (addLog_inv hI hfresh hts msg ents sev) hv2
    | tick now =>
      obtain ⟨hnow, hv2⟩ := hv
      exact ih (tick_inv hdecay hI hnow) hv2


/-- C5 (amended): for every configuration with `decay_lambda` unset and
every `add_log`/`tick` trace with fresh increasing log ids and
non-decreasing timestamps starting from the empty graph, the `next`-pointer
walk from the oldest resident log visits exactly the resident window, each
resident log exactly once (the chain is acyclic and ends at `None`).  With
an explicitly set `decay_lambda` the claim fails: `_prune_edges` detaches
still-resident logs (`claim_C5_counterexample`). -/
theorem claim_C5_amended (cfg : RecallConfig) (hdecay : cfg.decay_lambda = none)
    (ops : List GOp) (lts0 : ℤ) (hops : opsValid none lts0 ops) :
    followNext (runOps cfg {} ops) (runOps cfg {} ops).log_window.length
        (runOps cfg {} ops).log_window.head? = (runOps cfg {} ops).log_window ∧
      (runOps cfg {} ops).log_window.Nodup := by
  obtain ⟨mid2, lts2, hI⟩ := runOps_inv hdecay ops (chainInv_init lts0) hops
  refine ⟨followNext_chain _ _ hI.chain, ?_⟩
  exact List.Pairwise.imp (fun h => ne_of_lt h) hI.sorted

/-- Witness for C5 (amended): a concrete one-add trace under the default
configuration. -/
theorem claim_C5_witness :
    defaultConfig.decay_lambda = none ∧
      opsValid none 0 [GOp.add 0 5 "a".data [] 1] ∧
      (followNext (runOps defaultConfig {} [GOp.add 0 5 "a".data [] 1])
          (runOps defaultConfig {} [GOp.add 0 5 "a".data [] 1]).log_window.length
          (runOps defaultConfig {} [GOp.add 0 5 "a".data [] 1]).log_window.head? =
        (runOps defaultConfig {} [GOp.add 0 5 "a".data [] 1]).log_window ∧
        (runOps defaultConfig {} [GOp.add 0 5 "a".data [] 1]).log_window.Nodup) := by
  have hv : opsValid none 0 [GOp.add 0 5 "a".data [] 1] := by
    refine ⟨?_, ?_, trivial⟩
    · intro m hm
      exact absurd hm (by simp)
    · norm_num
  exact ⟨rfl, hv, claim_C5_amended defaultConfig rfl _ 0 hv⟩


/-- C5 counterexample: under `cfgC5` (an explicitly set `decay_lambda`),
the valid trace `opsC5` (non-decreasing timestamps, fresh increasing ids)
leaves residents `[0, 1, 2]`, but the `next` walk from the oldest resident
reaches only `[0]`: `_prune_edges` detached the still-resident log 1, so
the traversal misses residents 1 and 2 and the original claim fails. -/
theorem claim_C5_counterexample :
    opsValid none 0 opsC5 ∧
      (runOps cfgC5 {} opsC5).log_window = [0, 1, 2] ∧
      followNext (runOps cfgC5 {} opsC5) 3 (some 0) = [0] := by
  have hv : opsValid none 0 opsC5 := by
    refine ⟨fun m hm => absurd hm (by simp), le_refl 0,
      fun m hm => lt_of_eq_of_lt (Option.some.inj hm).symm (by norm_num),
      by norm_num,
      fun m hm => lt_of_eq_of_lt (Option.some.inj hm).symm (by norm_num),
      by norm_num, le_refl 10, trivial⟩
  have hrun : runOps cfgC5 {} opsC5 = tick cfgC5 (addLog cfgC5 (addLog cfgC5 (addLog cfgC5 {} 0 0 "a".data [] 1) 1 1 "b".data [] 1) 2 10 "c".data [] 1) 10 := rfl
  have hEv : evictLogs cfgC5 (addLog cfgC5 (addLog cfgC5 (addLog cfgC5 {} 0 0 "a".data [] 1) 1 1 "b".data [] 1) 2 10 "c".data [] 1) 10 = addLog cfgC5 (addLog cfgC5 (addLog cfgC5 {} 0 0 "a".data [] 1) 1 1 "b".data [] 1) 2 10 "c".data [] 1 := rfl
  have hth : ¬ cfgC5.theta_w ≤ 0 := by
    show ¬ Real.exp (-3) ≤ 0
    exact not_le_of_lt (Real.exp_pos _)
  have hlam1 : lamOf cfgC5 = 1 := rfl
  have hlamn : ¬ lamOf cfgC5 ≤ 0 := by
    rw [hlam1]
    norm_num
  have hage : (⌈(-Real.log cfgC5.theta_w) / lamOf cfgC5⌉ : ℤ) = 3 := by
    rw [hlam1]
    show (⌈(-Real.log (Real.exp (-3))) / (1 : ℝ)⌉ : ℤ) = 3
    rw [Real.log_exp]
    have h3 : (-(-3) : ℝ) / 1 = ((3 : ℤ) : ℝ) := by norm_num
    rw [h3, Int.ceil_intCast]
  have hPE : pruneEdges cfgC5 (addLog cfgC5 (addLog cfgC5 (addLog cfgC5 {} 0 0 "a".data [] 1) 1 1 "b".data [] 1) 2 10 "c".data [] 1) 10 =
      List.foldl (pruneDetachStep (10 - 3)) (addLog cfgC5 (addLog cfgC5 (addLog cfgC5 {} 0 0 "a".data [] 1) 1 1 "b".data [] 1) 2 10 "c".data [] 1) [0, 1, 2] := by
    unfold pruneEdges
    rw [if_neg hth]
    dsimp only
    rw [if_neg hlamn, hage]
    rw [if_neg (by norm_num : ¬ (3 : ℤ) ≤ 0)]
    have hwfold : List.foldl (pruneWipeStep (10 - 3)) (addLog cfgC5 (addLog cfgC5 (addLog cfgC5 {} 0 0 "a".data [] 1) 1 1 "b".data [] 1) 2 10 "c".data [] 1)
        (addLog cfgC5 (addLog cfgC5 (addLog cfgC5 {} 0 0 "a".data [] 1) 1 1 "b".data [] 1) 2 10 "c".data [] 1).log_window = addLog cfgC5 (addLog cfgC5 (addLog cfgC5 {} 0 0 "a".data [] 1) 1 1 "b".data [] 1) 2 10 "c".data [] 1 := rfl
    rw [hwfold]
    rfl
  have hEps : ¬ cfgC5.activity_epsilon ≤ 0 := by
    show ¬ (0.1 : ℝ) ≤ 0
    norm_num
  have hSweep : pruneEntities cfgC5
        (List.foldl (pruneDetachStep (10 - 3)) (addLog cfgC5 (addLog cfgC5 (addLog cfgC5 {} 0 0 "a".data [] 1) 1 1 "b".data [] 1) 2 10 "c".data [] 1) [0, 1, 2]) =
      List.foldl (pruneDetachStep (10 - 3)) (addLog cfgC5 (addLog cfgC5 (addLog cfgC5 {} 0 0 "a".data [] 1) 1 1 "b".data [] 1) 2 10 "c".data [] 1) [0, 1, 2] := by
    unfold pruneEntities
    rw [if_neg hEps]
    rw [if_pos (show (List.foldl (pruneDetachStep (10 - 3)) (addLog cfgC5 (addLog cfgC5 (addLog cfgC5 {} 0 0 "a".data [] 1) 1 1 "b".data [] 1) 2 10 "c".data [] 1)
      [0, 1, 2]).step % 256 ≠ 0 by decide)]
  refine ⟨hv, ?_, ?_⟩
  · rw [hrun]
    unfold tick
    rw [hEv, hPE, hSweep]
    rfl
  · rw [hrun]
    unfold tick
    rw [hEv, hPE, hSweep]
    rfl


theorem bool_not_true {b : Bool} (h : ¬ b = true) : b = false := by
  cases b
  · rfl
  · exact absurd rfl h

theorem not_bool_true {b : Bool} (h : (!b) = true) : b = false := by
  cases b
  · rfl
  · exact absurd h (by decide)

theorem mem_insertSet {l : List Str} {x y : Str} (h : y ∈ insertSet l x) :
    y ∈ l ∨ y = x := by
  unfold insertSet at h
  by_cases hx : x ∈ l
  · rw [if_pos hx] at h
    exact Or.inl h
  · rw [if_neg hx] at h
    rcases List.mem_append.mp h with h | h
    · exact Or.inl h
    · exact Or.inr (List.mem_singleton.mp h)

theorem mem_sortStrList {l : List Str} {x : Str} (h : x ∈ sortStrList l) : x ∈ l := by
  unfold sortStrList at h
  exact (List.perm_insertionSort _ l).mem_iff.mp h

theorem enumFrom_snd_mem {α : Type _} :
    ∀ {l : List α} {n : ℕ} {p : ℕ × α}, p ∈ l.enumFrom n → p.2 ∈ l := by
  intro l
  induction l with
  | nil =>
    intro n p h
    exact absurd h (by simp)
  | cons x t ih =>
    intro n p h
    rcases List.mem_cons.mp h with h | h
    · rw [h]
      exact List.mem_cons_self x t
    · exact List.mem_cons_of_mem x (ih h)

theorem insertSet_fold_pres {P : Str → Prop} :
    ∀ (l : List Str) (acc : List Str),
      (∀ e ∈ acc, P e) → (∀ e ∈ l, P e) →
      ∀ e ∈ l.foldl insertSet acc, P e := by
  intro l
  induction l with
  | nil =>
    intro acc hacc _ e he
    exact hacc e he
  | cons a t ih =>
    intro acc hacc hl e he
    rw [List.foldl_cons] at he
    refine ih _ ?_ (fun x hx => hl x (List.mem_cons_of_mem a hx)) e he
    intro x hx
    rcases mem_insertSet hx with h | h
    · exact hacc x h
    · rw [h]
      exact hl a (List.mem_cons_self a t)

theorem entFilter_nonbl (cfg : RecallConfig) :
    ∀ (l : List Str) (acc : List Str),
      (∀ e ∈ acc, cfg.is_blacklisted_entity e = false) →
      ∀ e ∈ l.foldl (fun acc e =>
          let e2 := stripStr e
          if e2.isEmpty then acc
          else if cfg.is_blacklisted_entity e2 then acc
          else insertSet acc e2) acc,
        cfg.is_blacklisted_entity e = false := by
  intro l
  induction l with
  | nil =>
    intro acc hacc e he
    exact hacc e he
  | cons a t ih =>
    intro acc hacc e he
    rw [List.foldl_cons] at he
    refine ih _ ?_ e he
    dsimp only
    by_cases h1 : (stripStr a).isEmpty = true
    · rw [if_pos h1]
      exact hacc
    · rw [if_neg h1]
      by_cases h2 : cfg.is_blacklisted_entity (stripStr a) = true
      · rw [if_pos h2]
        exact hacc
      · rw [if_neg h2]
        intro x hx
        rcases mem_insertSet hx with h | h
        · exact hacc x h
        · rw [h]
          exact bool_not_true h2

theorem statExtract_fold_nonbl (cfg : RecallConfig) (rf1 : TokenRecurrenceCounter) :
    ∀ (l : List Str) (acc : List Str),
      (∀ e ∈ acc, cfg.is_blacklisted_entity e = false) →
      ∀ e ∈ l.foldl (fun acc tok =>
          if tok.isEmpty || decide ((tok.length : ℤ) < cfg.min_token_len) then acc
          else if cfg.should_drop_token tok then acc
          else
            let acc1 :=
              match ipv4PortMatch tok with
              | some ip =>
                if !ip.isEmpty && !cfg.is_blacklisted_entity ip then insertSet acc ip else acc
              | none => acc
            if cfg.is_blacklisted_entity tok then acc1
            else if decide (cfg.theta_tc < (token_complexity tok false : ℤ)) &&
                decide (cfg.theta_rf < rf1.rf tok) then insertSet acc1 tok
            else acc1) acc,
        cfg.is_blacklisted_entity e = false := by
  intro l
  induction l with
  | nil =>
    intro acc hacc e he
    exact hacc e he
  | cons a t ih =>
    intro acc hacc e he
    rw [List.foldl_cons] at he
    refine ih _ ?_ e he
    dsimp only
    by_cases h1 : (a.isEmpty || decide ((a.length : ℤ) < cfg.min_token_len)) = true
    · rw [if_pos h1]
      exact hacc
    · rw [if_neg h1]
      by_cases h2 : cfg.should_drop_token a = true
      · rw [if_pos h2]
        exact hacc
      · rw [if_neg h2]
        have hacc1 : ∀ x ∈ (match ipv4PortMatch a with
            | some ip =>
              if !ip.isEmpty && !cfg.is_blacklisted_entity ip then insertSet acc ip else acc
            | none => acc),
            cfg.is_blacklisted_entity x = false := by
          cases hm : ipv4PortMatch a with
          | none => exact hacc
          | some ip =>
            dsimp only
            by_cases h3 : (!ip.isEmpty && !cfg.is_blacklisted_entity ip) = true
            · rw [if_pos h3]
              intro x hx
              rcases mem_insertSet hx with h | h
              · exact hacc x h
              · rw [h]
                exact not_bool_true ((Bool.and_eq_true _ _).mp h3).2
            · rw [if_neg h3]
              exact hacc
        by_cases h6 : cfg.is_blacklisted_entity a = true
        · rw [if_pos h6]
          exact hacc1
        · rw [if_neg h6]
          by_cases h7 : (decide (cfg.theta_tc < (token_complexity a false : ℤ)) &&
              decide (cfg.theta_rf < rf1.rf a)) = true
          · rw [if_pos h7]
            intro x hx
            rcases mem_insertSet hx with h | h
            · exact hacc1 x h
            · rw [h]
              exact bool_not_true h6
          · rw [if_neg h7]
            exact hacc1

theorem statExtract_nonbl (cfg : RecallConfig) (rf : TokenRecurrenceCounter)
    (ts : ℤ) (message : Str) :
    ∀ e ∈ (statExtract cfg rf ts message).1,
      cfg.is_blacklisted_entity e = false := by
  unfold statExtract
  dsimp only
  exact statExtract_fold_nonbl cfg (rf.push ts (tokenize_for_entity_candidates message))
    (tokenize_for_entity_candidates message) []
    (fun e he => absurd he (List.not_mem_nil e))

theorem extract_entities_nonbl (cfg : RecallConfig) (rf : TokenRecurrenceCounter)
    (ts : ℤ) (msg : Str) (sem : Option PyVal) :
    (∀ e ∈ (extract_entities cfg rf ts msg sem).1.estat,
        cfg.is_blacklisted_entity e = false) ∧
      (∀ e ∈ (extract_entities cfg rf ts msg sem).1.estat_validated,
        cfg.is_blacklisted_entity e = false) ∧
      (∀ e ∈ (extract_entities cfg rf ts msg sem).1.final,
        cfg.is_blacklisted_entity e = false) := by
  refine ⟨?_, ?_, ?_⟩
  · intro e he
    exact statExtract_nonbl cfg rf ts msg e he
  · intro e he
    unfold extract_entities at he
    dsimp only at he
    exact not_bool_true (List.mem_filter.mp he).2
  · intro e he
    unfold extract_entities at he
    dsimp only at he
    exact not_bool_true (List.mem_filter.mp he).2


theorem addLog_lte (cfg : RecallConfig) (g : GraphState) (log_id ts_sec : ℤ)
    (msg : Str) (ents : List Str) (sev : ℤ) :
    (addLog cfg g log_id ts_sec msg ents sev).log_to_entities = fun i =>
      if i = log_id then
        ents.foldl (fun acc e =>
          let e2 := stripStr e
          if e2.isEmpty then acc
          else if cfg.is_blacklisted_entity e2 then acc
          else insertSet acc e2) []
      else g.log_to_entities i := rfl

theorem addLog_etl (cfg : RecallConfig) (g : GraphState) (log_id ts_sec : ℤ)
    (msg : Str) (ents : List Str) (sev : ℤ) :
    (addLog cfg g log_id ts_sec msg ents sev).entity_to_logs =
      ((ents.foldl (fun acc e =>
          let e2 := stripStr e
          if e2.isEmpty then acc
          else if cfg.is_blacklisted_entity e2 then acc
          else insertSet acc e2) []).foldl
        (fun (st : List (Str × EntityNode) × (Str → List ℤ)) e =>
          let en :=
            match aGet st.1 e with
            | some en => en
            | none =>
              { value := e, etype := classify_entity_type e, activity := 0,
                last_step := g.step + 1, last_seen_ts := ts_sec }
          let en2 := activateEntity cfg (g.step + 1) ts_sec en
          (aSet st.1 e en2, fun x => if x = e then st.2 e ++ [log_id] else st.2 x))
        (g.entities, g.entity_to_logs)).2 := rfl

theorem entfold_pres (cfg : RecallConfig) (step1 ts log_id : ℤ) :
    ∀ (es : List Str) (st : List (Str × EntityNode) × (Str → List ℤ)),
      (∀ e ∈ es, cfg.is_blacklisted_entity e = false) →
      (∀ x, st.2 x ≠ [] → cfg.is_blacklisted_entity x = false) →
      ∀ x, (es.foldl (fun (st : List (Str × EntityNode) × (Str → List ℤ)) e =>
          let en :=
            match aGet st.1 e with
            | some en => en
            | none =>
              { value := e, etype := classify_entity_type e, activity := 0,
                last_step := step1, last_seen_ts := ts }
          let en2 := activateEntity cfg step1 ts en
          (aSet st.1 e en2, fun x => if x = e then st.2 e ++ [log_id] else st.2 x)) st).2 x ≠ [] →
        cfg.is_blacklisted_entity x = false := by
  intro es
  induction es with
  | nil =>
    intro st _ hst x hx
    exact hst x hx
  | cons a t ih =>
    intro st hes hst x hx
    rw [List.foldl_cons] at hx
    refine ih _ (fun e he => hes e (List.mem_cons_of_mem a he)) ?_ x hx
    intro y hy
    dsimp only at hy
    by_cases hya : y = a
    · rw [hya]
      exact hes a (List.mem_cons_self a t)
    · rw [if_neg hya] at hy
      exact hst y hy

theorem addLog_blinv {cfg : RecallConfig} {g : GraphState} (hI : BlInv cfg g)
    (log_id ts_sec : ℤ) (msg : Str) (ents : List Str) (sev : ℤ) :
    BlInv cfg (addLog cfg g log_id ts_sec msg ents sev) := by
  obtain ⟨h1, h2⟩ := hI
  have hset : ∀ e ∈ ents.foldl (fun acc e =>
      let e2 := stripStr e
      if e2.isEmpty then acc
      else if cfg.is_blacklisted_entity e2 then acc
      else insertSet acc e2) [],
      cfg.is_blacklisted_entity e = false :=
    entFilter_nonbl cfg ents [] (fun e he => absurd he (List.not_mem_nil e))
  constructor
  · intro lid e he
    rw [addLog_lte] at he
    dsimp only at he
    by_cases hl : lid = log_id
    · rw [if_pos hl] at he
      exact hset e he
    · rw [if_neg hl] at he
      exact h1 lid e he
  · intro e
    rw [addLog_etl]
    exact entfold_pres cfg (g.step + 1) ts_sec log_id _
      (g.entities, g.entity_to_logs) hset h2 e

theorem removeLog_lte (g : GraphState) (log_id : ℤ) :
    (removeLog g log_id).log_to_entities = fun i =>
      if i = log_id then [] else g.log_to_entities i := rfl

theorem removeLog_etl (g : GraphState) (log_id : ℤ) :
    (removeLog g log_id).entity_to_logs =
      ((g.log_to_entities log_id).foldl
        (fun (st : (Str → List ℤ) × List (Str × EntityNode)) e =>
          let dq := st.1 e
          if dq.isEmpty then st
          else
            let dq1 := dq.dropWhile (fun x => x == log_id)
            let dq2 := if ¬ dq1.isEmpty ∧ log_id ∈ dq1
              then dq1.filter (fun x => decide (x ≠ log_id)) else dq1
            if dq2.isEmpty then ((fun x => if x = e then [] else st.1 x), aDel st.2 e)
            else ((fun x => if x = e then dq2 else st.1 x), st.2))
        (g.entity_to_logs, g.entities)).1 := rfl

theorem entclean_pres (cfg : RecallConfig) (log_id : ℤ) :
    ∀ (es : List Str) (st : (Str → List ℤ) × List (Str × EntityNode)),
      (∀ x, st.1 x ≠ [] → cfg.is_blacklisted_entity x = false) →
      ∀ x, (es.foldl
          (fun (st : (Str → List ℤ) × List (Str × EntityNode)) e =>
            let dq := st.1 e
            if dq.isEmpty then st
            else
              let dq1 := dq.dropWhile (fun x => x == log_id)
              let dq2 := if ¬ dq1.isEmpty ∧ log_id ∈ dq1
                then dq1.filter (fun x => decide (x ≠ log_id)) else dq1
              if dq2.isEmpty then ((fun x => if x = e then [] else st.1 x), aDel st.2 e)
              else ((fun x => if x = e then dq2 else st.1 x), st.2)) st).1 x ≠ [] →
        cfg.is_blacklisted_entity x = false := by
  intro es
  induction es with
  | nil =>
    intro st hst x hx
    exact hst x hx
  | cons a t ih =>
    intro st hst x hx
    rw [List.foldl_cons] at hx
    refine ih _ ?_ x hx
    intro y hy
    dsimp only at hy
    by_cases hq : (st.1 a).isEmpty = true
    · rw [if_pos hq] at hy
      exact hst y hy
    · rw [if_neg hq] at hy
      have hane : st.1 a ≠ [] := by
        intro hc
        rw [hc] at hq
        exact hq rfl
      by_cases hq2 : (if ¬ ((st.1 a).dropWhile (fun x => x == log_id)).isEmpty = true ∧
            log_id ∈ (st.1 a).dropWhile (fun x => x == log_id)
          then ((st.1 a).dropWhile (fun x => x == log_id)).filter
            (fun x => decide (x ≠ log_id))
          else (st.1 a).dropWhile (fun x => x == log_id)).isEmpty = true
      · rw [if_pos hq2] at hy
        dsimp only at hy
        by_cases hya : y = a
        · rw [if_pos hya] at hy
          exact absurd rfl hy
        · rw [if_neg hya] at hy
          exact hst y hy
      · rw [if_neg hq2] at hy
        dsimp only at hy
        by_cases hya : y = a
        · rw [hya]
          exact hst a hane
        · rw [if_neg hya] at hy
          exact hst y hy

theorem removeLog_blinv {cfg : RecallConfig} {g : GraphState} (hI : BlInv cfg g)
    (log_id : ℤ) : BlInv cfg (removeLog g log_id) := by
  obtain ⟨h1, h2⟩ := hI
  constructor
  · intro lid e he
    rw [removeLog_lte] at he
    dsimp only at he
    by_cases hl : lid = log_id
    · rw [if_pos hl] at he
      exact absurd he (List.not_mem_nil e)
    · rw [if_neg hl] at he
      exact h1 lid e he
  · intro e
    rw [removeLog_etl]
    exact entclean_pres cfg log_id _ (g.entity_to_logs, g.entities) h2 e


theorem evictGo_blinv {cfg : RecallConfig} {cutoff : ℤ} :
    ∀ (fuel : ℕ) {g : GraphState}, BlInv cfg g → BlInv cfg (evictGo cutoff fuel g) := by
  intro fuel
  induction fuel with
  | zero =>
    intro g hI
    exact hI
  | succ fuel ih =>
    intro g hI
    rw [evictGo_succ]
    cases g.log_window with
    | nil => exact hI
    | cons lid rest =>
      dsimp only
      cases g.logs lid with
      | none => exact hI
      | some ln =>
        dsimp only
        by_cases hts : ln.ts_sec < cutoff
        · rw [if_pos hts]
          exact ih (removeLog_blinv ⟨hI.1, hI.2⟩ lid)
        · rw [if_neg hts]
          exact hI

theorem evictLogs_blinv {cfg : RecallConfig} {g : GraphState} (hI : BlInv cfg g)
    (now : ℤ) : BlInv cfg (evictLogs cfg g now) := by
  unfold evictLogs
  by_cases hT : cfg.graph_window_t_sec ≤ 0
  · rw [if_pos hT]
    exact hI
  · rw [if_neg hT]
    exact evictGo_blinv _ hI

theorem wipefold_pres (cfg : RecallConfig) (lid : ℤ) :
    ∀ (es : List Str) (st : (Str → List ℤ) × List (Str × EntityNode)),
      (∀ x, st.1 x ≠ [] → cfg.is_blacklisted_entity x = false) →
      ∀ x, (es.foldl
          (fun (st : (Str → List ℤ) × List (Str × EntityNode)) e =>
            let dq := st.1 e
            if dq.isEmpty then st
            else
              let dq2 := if lid ∈ dq then dq.filter (fun x => decide (x ≠ lid)) else dq
              if dq2.isEmpty then ((fun x => if x = e then [] else st.1 x), aDel st.2 e)
              else ((fun x => if x = e then dq2 else st.1 x), st.2)) st).1 x ≠ [] →
        cfg.is_blacklisted_entity x = false := by
  intro es
  induction es with
  | nil =>
    intro st hst x hx
    exact hst x hx
  | cons a t ih =>
    intro st hst x hx
    rw [List.foldl_cons] at hx
    refine ih _ ?_ x hx
    intro y hy
    dsimp only at hy
    by_cases hq : (st.1 a).isEmpty = true
    · rw [if_pos hq] at hy
      exact hst y hy
    · rw [if_neg hq] at hy
      have hane : st.1 a ≠ [] := by
        intro hc
        rw [hc] at hq
        exact hq rfl
      by_cases hq2 : (if lid ∈ st.1 a
          then (st.1 a).filter (fun x => decide (x ≠ lid))
          else st.1 a).isEmpty = true
      · rw [if_pos hq2] at hy
        dsimp only at hy
        by_cases hya : y = a
        · rw [if_pos hya] at hy
          exact absurd rfl hy
        · rw [if_neg hya] at hy
          exact hst y hy
      · rw [if_neg hq2] at hy
        dsimp only at hy
        by_cases hya : y = a
        · rw [hya]
          exact hst a hane
        · rw [if_neg hya] at hy
          exact hst y hy

theorem pruneWipeStep_blinv {cfg : RecallConfig} {g : GraphState} (hI : BlInv cfg g)
    (cutoff lid : ℤ) : BlInv cfg (pruneWipeStep cutoff g lid) := by
  obtain ⟨h1, h2⟩ := hI
  unfold pruneWipeStep
  cases g.logs lid with
  | none => exact ⟨h1, h2⟩
  | some ln =>
    dsimp only
    by_cases hts : cutoff ≤ ln.ts_sec
    · rw [if_pos hts]
      exact ⟨h1, h2⟩
    · rw [if_neg hts]
      by_cases hemp : (g.log_to_entities lid).isEmpty = true
      · rw [if_pos hemp]
        exact ⟨h1, h2⟩
      · rw [if_neg hemp]
        constructor
        · intro lid2 e he
          dsimp only at he
          by_cases hl : lid2 = lid
          · rw [if_pos hl] at he
            exact absurd he (List.not_mem_nil e)
          · rw [if_neg hl] at he
            exact h1 lid2 e he
        · intro e
          exact wipefold_pres cfg lid _ (g.entity_to_logs, g.entities) h2 e

theorem pruneDetachStep_inc (cutoff : ℤ) (g : GraphState) (lid : ℤ) :
    (pruneDetachStep cutoff g lid).log_to_entities = g.log_to_entities ∧
      (pruneDetachStep cutoff g lid).entity_to_logs = g.entity_to_logs := by
  unfold pruneDetachStep
  cases g.logs lid with
  | none => exact ⟨rfl, rfl⟩
  | some ln =>
    dsimp only
    cases ln.prev_log_id with
    | none => exact ⟨rfl, rfl⟩
    | some p =>
      dsimp only
      by_cases h : ln.ts_sec < cutoff
      · rw [if_pos h]
        exact ⟨rfl, rfl⟩
      · rw [if_neg h]
        exact ⟨rfl, rfl⟩

theorem pruneDetachStep_blinv {cfg : RecallConfig} {g : GraphState} (hI : BlInv cfg g)
    (cutoff lid : ℤ) : BlInv cfg (pruneDetachStep cutoff g lid) := by
  obtain ⟨hl, he⟩ := pruneDetachStep_inc cutoff g lid
  constructor
  · intro lid2 e hm
    rw [hl] at hm
    exact hI.1 lid2 e hm
  · intro e hm
    rw [he] at hm
    exact hI.2 e hm

theorem pruneEdges_blinv {cfg : RecallConfig} {g : GraphState} (hI : BlInv cfg g)
    (now : ℤ) : BlInv cfg (pruneEdges cfg g now) := by
  unfold pruneEdges
  by_cases h1 : cfg.theta_w ≤ 0
  · rw [if_pos h1]
    exact hI
  · rw [if_neg h1]
    dsimp only
    by_cases h2 : lamOf cfg ≤ 0
    · rw [if_pos h2]
      exact hI
    · rw [if_neg h2]
      by_cases h3 : (⌈(-Real.log cfg.theta_w) / lamOf cfg⌉ : ℤ) ≤ 0
      · rw [if_pos h3]
        exact hI
      · rw [if_neg h3]
        exact @foldl_preserves GraphState ℤ (fun g2 => BlInv cfg g2)
          (pruneDetachStep (now - ⌈(-Real.log cfg.theta_w) / lamOf cfg⌉))
          (fun st x h => pruneDetachStep_blinv h _ x) _ _
          (@foldl_preserves GraphState ℤ (fun g2 => BlInv cfg g2)
            (pruneWipeStep (now - ⌈(-Real.log cfg.theta_w) / lamOf cfg⌉))
            (fun st x h => pruneWipeStep_blinv h _ x) _ _ hI)

theorem ltefold_pres (cfg : RecallConfig) (e : Str) :
    ∀ (lids : List ℤ) (m : ℤ → List Str),
      (∀ lid x, x ∈ m lid → cfg.is_blacklisted_entity x = false) →
      ∀ lid x, x ∈ (lids.foldl (fun m lid => fun i =>
          if i = lid then (m lid).filter (fun x => decide (x ≠ e)) else m i) m) lid →
        cfg.is_blacklisted_entity x = false := by
  intro lids
  induction lids with
  | nil =>
    intro m hm lid x hx
    exact hm lid x hx
  | cons a t ih =>
    intro m hm lid x hx
    rw [List.foldl_cons] at hx
    refine ih _ ?_ lid x hx
    intro lid2 y hy
    by_cases hla : lid2 = a
    · rw [if_pos hla] at hy
      exact hm a y (List.mem_of_mem_filter hy)
    · rw [if_neg hla] at hy
      exact hm lid2 y hy

theorem dropfold_pres (cfg : RecallConfig) :
    ∀ (es : List Str)
      (st : (ℤ → List Str) × (Str → List ℤ) × List (Str × EntityNode)),
      (∀ lid x, x ∈ st.1 lid → cfg.is_blacklisted_entity x = false) →
      (∀ x, st.2.1 x ≠ [] → cfg.is_blacklisted_entity x = false) →
      (∀ lid x, x ∈ (es.foldl
          (fun (st : (ℤ → List Str) × (Str → List ℤ) × List (Str × EntityNode)) e =>
            let lte2 := (st.2.1 e).foldl
              (fun m lid => fun i =>
                if i = lid then (m lid).filter (fun x => decide (x ≠ e)) else m i)
              st.1
            (lte2, (fun x => if x = e then [] else st.2.1 x), aDel st.2.2 e)) st).1 lid →
        cfg.is_blacklisted_entity x = false) ∧
      (∀ x, (es.foldl
          (fun (st : (ℤ → List Str) × (Str → List ℤ) × List (Str × EntityNode)) e =>
            let lte2 := (st.2.1 e).foldl
              (fun m lid => fun i =>
                if i = lid then (m lid).filter (fun x => decide (x ≠ e)) else m i)
              st.1
            (lte2, (fun x => if x = e then [] else st.2.1 x), aDel st.2.2 e)) st).2.1 x ≠ [] →
        cfg.is_blacklisted_entity x = false) := by
  intro es
  induction es with
  | nil =>
    intro st h1 h2
    exact ⟨h1, h2⟩
  | cons a t ih =>
    intro st h1 h2
    rw [List.foldl_cons]
    refine ih _ ?_ ?_
    · intro lid x hx
      dsimp only at hx
      exact ltefold_pres cfg a _ _ h1 lid x hx
    · intro x hx
      dsimp only at hx
      by_cases hxa : x = a
      · rw [if_pos hxa] at hx
        exact absurd rfl hx
      · rw [if_neg hxa] at hx
        exact h2 x hx

theorem pruneEntities_blinv {cfg : RecallConfig} {g : GraphState} (hI : BlInv cfg g) :
    BlInv cfg (pruneEntities cfg g) := by
  obtain ⟨h1, h2⟩ := hI
  unfold pruneEntities
  by_cases he : cfg.activity_epsilon ≤ 0
  · rw [if_pos he]
    exact ⟨h1, h2⟩
  · rw [if_neg he]
    by_cases hs : g.step % 256 ≠ 0
    · rw [if_pos hs]
      exact ⟨h1, h2⟩
    · rw [if_neg hs]
      obtain ⟨hh1, hh2⟩ := dropfold_pres cfg
        (((g.entities.filter
          (fun kv => entityActivityNow cfg g.step kv.2 < cfg.activity_epsilon)).map
          (fun kv => kv.1)))
        (g.log_to_entities, g.entity_to_logs, g.entities) h1 h2
      exact ⟨hh1, hh2⟩

theorem tick_blinv {cfg : RecallConfig} {g : GraphState} (hI : BlInv cfg g)
    (now : ℤ) : BlInv cfg (tick cfg g now) := by
  unfold tick
  exact pruneEntities_blinv (pruneEdges_blinv (evictLogs_blinv hI now) now)


theorem logNodes_ok (cfg : RecallConfig) (g : GraphState) (idm : List (ℤ × Str)) :
    ∀ (lids : List ℤ) (acc : List PackNode),
      (∀ n ∈ acc, packNodeOk cfg n) →
      ∀ n ∈ lids.foldl (fun acc lid =>
          match g.logs lid with
          | none => acc
          | some ln => acc ++ [PackNode.log ((zGet idm lid).getD []) ln.ts_sec ln.severity])
        acc,
        packNodeOk cfg n := by
  intro lids
  induction lids with
  | nil =>
    intro acc hacc n hn
    exact hacc n hn
  | cons a t ih =>
    intro acc hacc n hn
    rw [List.foldl_cons] at hn
    refine ih _ ?_ n hn
    cases g.logs a with
    | none => exact hacc
    | some ln =>
      intro m hm
      rcases List.mem_append.mp hm with h | h
      · exact hacc m h
      · rw [List.mem_singleton.mp h]
        trivial

theorem entSetPack_pres {cfg : RecallConfig} {g : GraphState}
    (h1 : ∀ lid e, e ∈ g.log_to_entities lid → cfg.is_blacklisted_entity e = false) :
    ∀ (lids : List ℤ) (acc : List Str),
      (∀ e ∈ acc, cfg.is_blacklisted_entity e = false) →
      ∀ e ∈ lids.foldl (fun acc lid => (getEntitiesForLog g lid).foldl insertSet acc) acc,
        cfg.is_blacklisted_entity e = false := by
  intro lids
  induction lids with
  | nil =>
    intro acc hacc e he
    exact hacc e he
  | cons a t ih =>
    intro acc hacc e he
    rw [List.foldl_cons] at he
    refine ih _ ?_ e he
    exact insertSet_fold_pres _ _ hacc (fun x hx => h1 a x hx)

theorem buildPack_nodes_ok {cfg : RecallConfig} {g : GraphState}
    (h1 : ∀ lid e, e ∈ g.log_to_entities lid → cfg.is_blacklisted_entity e = false)
    (target : ℤ) (ev : List EvidenceItem) :
    ∀ pk, buildEvidencePack cfg g target ev = some pk →
      ∀ n ∈ pk.nodes, packNodeOk cfg n := by
  intro pk hpk
  unfold buildEvidencePack at hpk
  cases htgt : g.logs target with
  | none =>
    rw [htgt] at hpk
    exact absurd hpk (by simp)
  | some tgt =>
    rw [htgt] at hpk
    dsimp only at hpk
    have hpk2 := Option.some.inj hpk
    rw [← hpk2]
    dsimp only
    intro n hn
    rcases List.mem_append.mp hn with h | h
    · exact logNodes_ok cfg g _ _ [] (fun m hm => absurd hm (List.not_mem_nil m)) n h
    · obtain ⟨p, hp, hpe⟩ := List.mem_map.mp h
      rw [← hpe]
      show cfg.is_blacklisted_entity p.1 = false
      obtain ⟨q, hq, hqe⟩ := List.mem_map.mp hp
      have hp1 : p.1 = q.2 := by
        rw [← hqe]
      rw [hp1]
      have hq2 := mem_sortStrList (enumFrom_snd_mem hq)
      exact entSetPack_pres h1 _ []
        (fun e he => absurd he (List.not_mem_nil e)) q.2 hq2

theorem processRecord_blinv {cfg : RecallConfig} {st : PipeState}
    (hI : BlInv cfg st.graph) (rec : LogRecord) (sem : Option PyVal) :
    BlInv cfg (processRecord cfg st rec sem).2.graph ∧
      outOk cfg (processRecord cfg st rec sem).1 := by
  have hg2 : BlInv cfg (tick cfg (addLog cfg st.graph rec.log_id rec.ts_sec rec.message
      (extract_entities cfg st.rf rec.ts_sec rec.message sem).1.final
      (severity_level cfg rec.message)) rec.ts_sec) :=
    tick_blinv (addLog_blinv hI rec.log_id rec.ts_sec rec.message
      (extract_entities cfg st.rf rec.ts_sec rec.message sem).1.final
      (severity_level cfg rec.message)) rec.ts_sec
  obtain ⟨hstat, hval, hfin⟩ :=
    extract_entities_nonbl cfg st.rf rec.ts_sec rec.message sem
  refine ⟨hg2, ?_, ?_, ?_, ?_⟩
  · intro e he
    exact hstat e (mem_sortStrList he)
  · intro e he
    exact hval e (mem_sortStrList he)
  · intro e he
    exact hfin e (mem_sortStrList he)
  · intro pk hpk n hn
    have hgen : ∀ (o : Option (List EvidenceItem)),
        (match o with
          | some ev => buildEvidencePack cfg
              (tick cfg (addLog cfg st.graph rec.log_id rec.ts_sec rec.message
                (extract_entities cfg st.rf rec.ts_sec rec.message sem).1.final
                (severity_level cfg rec.message)) rec.ts_sec) rec.log_id ev
          | none => none) = some pk →
        ∀ m ∈ pk.nodes, packNodeOk cfg m := by
      intro o ho
      cases o with
      | none => exact absurd ho (by simp)
      | some ev => exact buildPack_nodes_ok hg2.1 rec.log_id ev pk ho
    exact hgen _ hpk n hn

theorem runPipeline_blinv {cfg : RecallConfig} :
    ∀ (recs : List (LogRecord × Option PyVal)) (st : PipeState),
      BlInv cfg st.graph →
      BlInv cfg (runPipeline cfg recs st).2.graph ∧
        ∀ o ∈ (runPipeline cfg recs st).1, outOk cfg o := by
  intro recs
  induction recs with
  | nil =>
    intro st hI
    exact ⟨hI, fun o ho => absurd ho (List.not_mem_nil o)⟩
  | cons p rest ih =>
    obtain ⟨rec, sem⟩ := p
    intro st hI
    obtain ⟨hg, hout⟩ := processRecord_blinv hI rec sem
    obtain ⟨hg2, houts⟩ := ih _ hg
    refine ⟨hg2, ?_⟩
    intro o ho
    rcases List.mem_cons.mp ho with h | h
    · rw [h]
      exact hout
    · exact houts o h

/-- C8 (amended): over every pipeline trace, no blacklisted entity ever
appears in a graph incidence (`log_to_entities` / `entity_to_logs`), in the
`entities_stat`, `entities_stat_validated` or `entities_final` output
fields, or as a GraphPack entity node.  The claim's coverage of *all*
`entities_*` output fields is false: `entities_sem` is never
blacklist-filtered (`claim_C8_counterexample`). -/
theorem claim_C8_amended (cfg : RecallConfig) (recs : List (LogRecord × Option PyVal)) :
    BlInv cfg (runPipeline cfg recs (initPipeState cfg)).2.graph ∧
      ∀ o ∈ (runPipeline cfg recs (initPipeState cfg)).1, outOk cfg o := by
  refine runPipeline_blinv recs (initPipeState cfg) ⟨?_, ?_⟩
  · intro lid e he
    have he2 : e ∈ ([] : List Str) := he
    exact absurd he2 (List.not_mem_nil e)
  · intro e hne
    have hne2 : ([] : List ℤ) ≠ [] := hne
    exact absurd rfl hne2

/-- C8 counterexample: with the semantic channel enabled and the validator
replying `add: ["127.0.0.1"]` on the message `ping 127.0.0.1`, the
blacklisted IP appears verbatim in the `entities_sem` output field of the
processed record. -/
theorem claim_C8_counterexample :
    cfgC8.is_blacklisted_entity "127.0.0.1".data = true ∧
      (processRecord cfgC8 (initPipeState cfgC8) recC8 (some oracleC8)).1.entities_sem =
        ["127.0.0.1".data] := by
  constructor
  · decide
  · decide


/-- C1 counterexample: on the S1 record the statistical extractor rejects
`node-7` (token complexity 2 is not strictly above `theta_tc = 2` and its
recurrence 1 is not strictly above `theta_rf = 2`), so the extracted entity
set does not include `node-7`, contradicting the claimed
`entities ⊇ \x7bnode-7\x7d`. -/
theorem claim_C1_counterexample :
    ¬ "node-7".data ∈
      (processRecord cfgS1 (initPipeState cfgS1) recS1 none).1.entities_final := by
  decide

/-- C1 (amended): the S1 record triggers by severity with level 3 and the
retrieval result is empty, but the extracted entity sets (statistical and
final) are empty — `node-7` is not extracted. -/
theorem claim_C1_amended :
    (processRecord cfgS1 (initPipeState cfgS1) recS1 none).1.triggered = true ∧
      (processRecord cfgS1 (initPipeState cfgS1) recS1 none).1.trigger_by =
        "severity".data ∧
      (processRecord cfgS1 (initPipeState cfgS1) recS1 none).1.severity = 3 ∧
      (processRecord cfgS1 (initPipeState cfgS1) recS1 none).1.entities_stat = [] ∧
      (processRecord cfgS1 (initPipeState cfgS1) recS1 none).1.entities_final = [] ∧
      (processRecord cfgS1 (initPipeState cfgS1) recS1 none).1.retrieval_ids =
        some [] := by
  have hlogs : (addLog cfgS1 (initPipeState cfgS1).graph recS1.log_id recS1.ts_sec recS1.message (extract_entities cfgS1 (initPipeState cfgS1).rf recS1.ts_sec recS1.message none).1.final (severity_level cfgS1 recS1.message)).logs = fun i =>
      if i = recS1.log_id then
        some {
          log_id := recS1.log_id,
          ts_sec := recS1.ts_sec,
          message := recS1.message,
          severity := severity_level cfgS1 recS1.message }
      else (initPipeState cfgS1).graph.logs i :=
    addLog_logs_none rfl
  have hdom : ∀ lid, ((addLog cfgS1 (initPipeState cfgS1).graph recS1.log_id recS1.ts_sec recS1.message (extract_entities cfgS1 (initPipeState cfgS1).rf recS1.ts_sec recS1.message none).1.final (severity_level cfgS1 recS1.message)).logs lid).isSome = true ↔
      lid ∈ (addLog cfgS1 (initPipeState cfgS1).graph recS1.log_id recS1.ts_sec recS1.message (extract_entities cfgS1 (initPipeState cfgS1).rf recS1.ts_sec recS1.message none).1.final (severity_level cfgS1 recS1.message)).log_window := by
    intro lid
    rw [hlogs]
    show _ ↔ lid ∈ [recS1.log_id]
    dsimp only
    by_cases h : lid = recS1.log_id
    · rw [if_pos h]
      constructor
      · intro _
        rw [h]
        exact List.mem_singleton_self _
      · intro _
        rfl
    · rw [if_neg h]
      constructor
      · intro hs
        have hz : ((initPipeState cfgS1).graph.logs lid) = none := rfl
        rw [hz] at hs
        exact absurd hs (by simp)
      · intro hm
        exact absurd (List.mem_singleton.mp hm) h
  have hpost : 0 < cfgS1.graph_window_t_sec →
      ∀ l ∈ (addLog cfgS1 (initPipeState cfgS1).graph recS1.log_id recS1.ts_sec recS1.message (extract_entities cfgS1 (initPipeState cfgS1).rf recS1.ts_sec recS1.message none).1.final (severity_level cfgS1 recS1.message)).log_window,
        recS1.ts_sec - cfgS1.graph_window_t_sec ≤ tsv (addLog cfgS1 (initPipeState cfgS1).graph recS1.log_id recS1.ts_sec recS1.message (extract_entities cfgS1 (initPipeState cfgS1).rf recS1.ts_sec recS1.message none).1.final (severity_level cfgS1 recS1.message)) l := by
    intro _ l hl
    have hl2 : l = recS1.log_id := List.mem_singleton.mp hl
    rw [hl2]
    have hG1 : (addLog cfgS1 (initPipeState cfgS1).graph recS1.log_id recS1.ts_sec recS1.message (extract_entities cfgS1 (initPipeState cfgS1).rf recS1.ts_sec recS1.message none).1.final (severity_level cfgS1 recS1.message)).logs recS1.log_id = some {
        log_id := recS1.log_id,
        ts_sec := recS1.ts_sec,
        message := recS1.message,
        severity := severity_level cfgS1 recS1.message } := by
      rw [hlogs]
      dsimp only
      rw [if_pos rfl]
    rw [tsv_some hG1]
    decide
  have hEv : evictLogs cfgS1 (addLog cfgS1 (initPipeState cfgS1).graph recS1.log_id recS1.ts_sec recS1.message (extract_entities cfgS1 (initPipeState cfgS1).rf recS1.ts_sec recS1.message none).1.final (severity_level cfgS1 recS1.message)) recS1.ts_sec = addLog cfgS1 (initPipeState cfgS1).graph recS1.log_id recS1.ts_sec recS1.message (extract_entities cfgS1 (initPipeState cfgS1).rf recS1.ts_sec recS1.message none).1.final (severity_level cfgS1 recS1.message) := by
    unfold evictLogs
    rw [if_neg (by decide : ¬ cfgS1.graph_window_t_sec ≤ 0)]
    rfl
  have hPE : pruneEdges cfgS1 (addLog cfgS1 (initPipeState cfgS1).graph recS1.log_id recS1.ts_sec recS1.message (extract_entities cfgS1 (initPipeState cfgS1).rf recS1.ts_sec recS1.message none).1.final (severity_level cfgS1 recS1.message)) recS1.ts_sec = addLog cfgS1 (initPipeState cfgS1).graph recS1.log_id recS1.ts_sec recS1.message (extract_entities cfgS1 (initPipeState cfgS1).rf recS1.ts_sec recS1.message none).1.final (severity_level cfgS1 recS1.message) :=
    pruneEdges_noop rfl hdom hpost
  have hPS : pruneEntities cfgS1 (addLog cfgS1 (initPipeState cfgS1).graph recS1.log_id recS1.ts_sec recS1.message (extract_entities cfgS1 (initPipeState cfgS1).rf recS1.ts_sec recS1.message none).1.final (severity_level cfgS1 recS1.message)) = addLog cfgS1 (initPipeState cfgS1).graph recS1.log_id recS1.ts_sec recS1.message (extract_entities cfgS1 (initPipeState cfgS1).rf recS1.ts_sec recS1.message none).1.final (severity_level cfgS1 recS1.message) := by
    unfold pruneEntities
    rw [if_neg (show ¬ cfgS1.activity_epsilon ≤ 0 from by
      show ¬ (0.1 : ℝ) ≤ 0
      norm_num)]
    rw [if_pos (show (addLog cfgS1 (initPipeState cfgS1).graph recS1.log_id recS1.ts_sec recS1.message (extract_entities cfgS1 (initPipeState cfgS1).rf recS1.ts_sec recS1.message none).1.final (severity_level cfgS1 recS1.message)).step % 256 ≠ 0 from by decide)]
  have htick : tick cfgS1 (addLog cfgS1 (initPipeState cfgS1).graph recS1.log_id recS1.ts_sec recS1.message (extract_entities cfgS1 (initPipeState cfgS1).rf recS1.ts_sec recS1.message none).1.final (severity_level cfgS1 recS1.message)) recS1.ts_sec = addLog cfgS1 (initPipeState cfgS1).graph recS1.log_id recS1.ts_sec recS1.message (extract_entities cfgS1 (initPipeState cfgS1).rf recS1.ts_sec recS1.message none).1.final (severity_level cfgS1 recS1.message) := by
    unfold tick
    rw [hEv, hPE, hPS]
  have hdpr : dualPathRetrieve cfgS1 (addLog cfgS1 (initPipeState cfgS1).graph recS1.log_id recS1.ts_sec recS1.message (extract_entities cfgS1 (initPipeState cfgS1).rf recS1.ts_sec recS1.message none).1.final (severity_level cfgS1 recS1.message)) recS1.log_id = [] := rfl
  refine ⟨by decide, by decide, by decide, by decide, by decide, ?_⟩
  show (if (TriggerEngine.check cfgS1 (initPipeState cfgS1).trigger recS1.ts_sec
        recS1.message).1.triggered = true
      then some (dualPathRetrieve cfgS1 (tick cfgS1 (addLog cfgS1 (initPipeState cfgS1).graph recS1.log_id recS1.ts_sec recS1.message (extract_entities cfgS1 (initPipeState cfgS1).rf recS1.ts_sec recS1.message none).1.final (severity_level cfgS1 recS1.message)) recS1.ts_sec)
        recS1.log_id)
      else none).map (fun ev => ev.map (fun e => e.log_id)) = some []
  rw [if_pos (show (TriggerEngine.check cfgS1 (initPipeState cfgS1).trigger
    recS1.ts_sec recS1.message).1.triggered = true from by decide)]
  rw [htick, hdpr]
  rfl

end Recall
